import Mathlib

/-!
# img-sub: block matching between two images

A shallow embedding of `src/main.cpp`: the colour comparator, chunks over a
pixel buffer, the grid generator `Image::chunks`, the neighbourhood
enumeration `chunkIndexes`, the level driver loop of `main`, and the join
post-processor `joinChunks`.

Conventions of the embedding.

* C++ `int` values that are never negative in the program (image sizes,
  rectangle coordinates, grid counts, indices) are natural numbers; the
  signed offsets of `chunkIndexes` and the channel differences of
  `Color::compare` are integers. No value comes near the 32-bit range.
* `float` values (all non-negative here) are dyadic fractions. The only inexact float
  operation of the program is `sqrtf`, modelled with IEEE-754 binary32
  round-to-nearest.
* `Q_ASSERT` is a no-op in `matchStep`, `levelStep`, `levelDriver` and
  `finalMatches` (a build with `QT_NO_DEBUG`). The driver of a build with
  assertions, in which the `Q_ASSERT` of the loop of `main` ends the run, is
  `matchStepChecked`, ..., `finalMatchesChecked`. The assertions of the
  `Chunk` methods are stated as separate predicates where a claim is about
  them.
* `QString::toFloat` and `QString::toInt` are Qt functions: the argument
  loop takes them as parameters (`parseArgWith`). The readers `toFloat`
  and `toInt` below cover plain decimal numerals and are used for the
  concrete command lines.
* `QRect` and `QRegion` are Qt types; they are modelled by what the
  program uses of them.
-/

namespace ImgSub

/-! ## Colours and the comparator -/

/-- The `Color` struct: four 8-bit channels. -/
structure Color where
  red : Nat
  green : Nat
  blue : Nat
  alpha : Nat
deriving DecidableEq, Repr

/-- A colour whose channels fit in a `quint8`. -/
def Color.valid (c : Color) : Prop :=
  c.red < 256 ∧ c.green < 256 ∧ c.blue < 256 ∧ c.alpha < 256

instance (c : Color) : Decidable c.valid := by
  unfold Color.valid; infer_instance

/-- The value of a default constructed `QColor()`: black, opaque. -/
instance : Inhabited Color := ⟨⟨0, 0, 0, 255⟩⟩

/-- Integer square root by binary digits, the `b` lowest digits still to
be found: with `r * r ≤ n < (r + 2 ^ b) * (r + 2 ^ b)` the result is
`⌊√n⌋`. -/
def isqrtAux (n : Nat) : Nat → Nat → Nat
  | 0, r => r
  | b + 1, r =>
    if (r + 2 ^ b) * (r + 2 ^ b) ≤ n then isqrtAux n b (r + 2 ^ b) else isqrtAux n b r

/-- The integer square root `⌊√n⌋` of a number below `2 ^ 80`. -/
def isqrt (n : Nat) : Nat := isqrtAux n 40 0

/-- The binary exponent of `r`, searched downwards from `k`: the largest
`e ≤ k` with `2 ^ e ≤ r`, or `0`. -/
def binade (r : Nat) : Nat → Nat
  | 0 => 0
  | e + 1 => if 2 ^ (e + 1) ≤ r then e + 1 else binade r e

/-- A non-negative `float` value, the dyadic fraction `num / 2 ^ exp`. -/
structure FloatVal where
  num : Nat
  exp : Nat
deriving DecidableEq, Repr

namespace FloatVal

/-- The rational number a float value denotes. -/
def toRat (a : FloatVal) : ℚ := (a.num : ℚ) / ((2 ^ a.exp : Nat) : ℚ)

/-- The float value of a natural number (exact below `2 ^ 24`). -/
def ofNat (n : Nat) : FloatVal := ⟨n, 0⟩

/-- The comparison `a <= b` of two floats. -/
def le (a b : FloatVal) : Bool := decide (a.num * 2 ^ b.exp ≤ b.num * 2 ^ a.exp)

/-- The comparison `a > b` of two floats. -/
def gt (a b : FloatVal) : Bool := decide (b.num * 2 ^ a.exp < a.num * 2 ^ b.exp)

end FloatVal

/-- The libm function `sqrtf` on a natural number argument `0 ≤ n < 2^24`
(such an argument is an exact binary32 float): the binary32 float nearest
to the real square root. With `2^e ≤ √n < 2^(e+1)` the floats of that
binade are the multiples of `2^(e-23)`; `m` is `√n / 2^(e-23)` rounded to
the nearest integer (a tie cannot occur for a square root). -/
def sqrtf (n : Nat) : FloatVal :=
  if n = 0 then ⟨0, 0⟩
  else
    let e := binade (isqrt n) 23
    let scale := 2 ^ (23 - e)
    let k := isqrt (n * scale * scale)
    let m := if k * k + k < n * scale * scale then k + 1 else k
    ⟨m, 23 - e⟩

/-- The method `Color::compare`, with the global `threshold` it reads as a
parameter. `powf(d, 2)` of an integer `|d| ≤ 255` and the sum of three such
squares are exact in binary32. -/
def Color.compare (threshold : FloatVal) (c other : Color) : Bool :=
  let r : Int := ((c.red : Int) - (other.red : Int)) ^ 2
  let g : Int := ((c.green : Int) - (other.green : Int)) ^ 2
  let b : Int := ((c.blue : Int) - (other.blue : Int)) ^ 2
  let distance : FloatVal := sqrtf (r + g + b).toNat
  let alphaDistance : FloatVal := FloatVal.ofNat ((c.alpha : Int) - (other.alpha : Int)).natAbs
  let distance := if alphaDistance.gt distance then alphaDistance else distance
  distance.le threshold

/-! ## Rectangles and regions (Qt) -/

/-- A `QRect` given as `QRect(x, y, w, h)`. -/
structure QRect where
  x : Nat
  y : Nat
  w : Nat
  h : Nat
deriving DecidableEq, Repr

namespace QRect

/-- The default constructed `QRect()`. -/
def null : QRect := ⟨0, 0, 0, 0⟩

/-- The method `QRect::isNull`: width and height are both zero. -/
def isNull (r : QRect) : Bool := r.w == 0 && r.h == 0

/-- The method `QRect::isEmpty`. -/
def isEmpty (r : QRect) : Bool := r.w == 0 || r.h == 0

/-- The pixel `(px, py)` lies in the rectangle (far edges excluded). -/
def contains (r : QRect) (px py : Nat) : Bool :=
  decide (r.x ≤ px) && decide (px < r.x + r.w) && decide (r.y ≤ py) && decide (py < r.y + r.h)

/-- The method `QRect::intersects`: the two rectangles share a pixel. -/
def intersects (a b : QRect) : Bool :=
  !a.isEmpty && !b.isEmpty &&
    decide (a.x < b.x + b.w) && decide (b.x < a.x + a.w) &&
    decide (a.y < b.y + b.h) && decide (b.y < a.y + a.h)

/-- The smallest rectangle around two non-empty rectangles. -/
def bounding (a b : QRect) : QRect :=
  let x0 := min a.x b.x
  let y0 := min a.y b.y
  ⟨x0, y0, max (a.x + a.w) (b.x + b.w) - x0, max (a.y + a.h) (b.y + b.h) - y0⟩

end QRect

/-- A `QRegion`, a set of pixels, kept as the list of the non-empty
rectangles united into it: a pixel is in the region when it is in one of
them. -/
abbrev QRegion := List QRect

namespace QRegion

/-- The default constructed `QRegion()`. -/
def empty : QRegion := []

/-- The statement `region |= rect`. -/
def united (s : QRegion) (r : QRect) : QRegion :=
  if r.isEmpty then s else s ++ [r]

/-- The pixel `(px, py)` is in the region. -/
def contains (s : QRegion) (px py : Nat) : Bool :=
  s.any fun r => r.contains px py

/-- The method `QRegion::intersects(const QRect &)`. -/
def intersects (s : QRegion) (r : QRect) : Bool :=
  s.any fun q => q.intersects r

/-- The method `QRegion::boundingRect`. -/
def boundingRect : QRegion → QRect
  | [] => QRect.null
  | r :: rs => rs.foldl QRect.bounding r

/-- Membership in the region `all - used` computed at the end of `main`:
`all` is the image rectangle. -/
def complementContains (all : QRect) (used : QRegion) (px py : Nat) : Bool :=
  all.contains px py && !used.contains px py

end QRegion

/-! ## Images and chunks -/

/-- The class `Image`: the size and the row-major pixel array `mColors`. -/
structure Image where
  width : Nat
  height : Nat
  mColors : List Color
deriving DecidableEq, Repr

namespace Image

/-- The method `Image::color`: the pixel at `(x, y)`. -/
def color (img : Image) (x y : Nat) : Color :=
  img.mColors.getD (y * img.width + x) default

/-- The method `Image::rect`. -/
def rect (img : Image) : QRect := ⟨0, 0, img.width, img.height⟩

end Image

/-- The loop of `Image::load` over a decoded `QImage` of size `w × h` with
pixel function `pixel`: entry `x + y * w` of `mColors` is the colour of
pixel `(x, y)`. -/
def Image.loadPixels (w h : Nat) (pixel : Nat → Nat → Color) : Image :=
  ⟨w, h, (List.range (w * h)).map fun i => pixel (i % w) (i / w)⟩

/-- The class `Chunk`: an image (absent in a null chunk), a rectangle and
the flag word. -/
structure Chunk where
  mImage : Option Image
  mRect : QRect
  mFlags : Nat
deriving DecidableEq, Repr

/-- A recorded match: the new-image chunk first, the old-image chunk second. -/
abbrev Match := Chunk × Chunk

namespace Chunk

/-- The flag `Chunk::AllTransparent`. -/
def AllTransparent : Nat := 1

/-- The default constructed chunk: no image, null rectangle, no flag. -/
def null : Chunk := ⟨none, QRect.null, 0⟩

def x (c : Chunk) : Nat := c.mRect.x
def y (c : Chunk) : Nat := c.mRect.y
def width (c : Chunk) : Nat := c.mRect.w
def height (c : Chunk) : Nat := c.mRect.h
def size (c : Chunk) : Nat × Nat := (c.mRect.w, c.mRect.h)
def rect (c : Chunk) : QRect := c.mRect
def flags (c : Chunk) : Nat := c.mFlags
def isNull (c : Chunk) : Bool := c.mImage.isNone

/-- The method `Chunk::color`, `x` and `y` in chunk coordinates. -/
def color (c : Chunk) (x y : Nat) : Color :=
  match c.mImage with
  | some img => img.color (c.mRect.x + x) (c.mRect.y + y)
  | none => default

/-- The scan of the constructor: no pixel of the rectangle has a non-zero
alpha. -/
def scanTransparent (img : Image) (r : QRect) : Bool :=
  (List.range r.h).all fun y => (List.range r.w).all fun x =>
    (img.color (r.x + x) (r.y + y)).alpha == 0

/-- The constructor `Chunk::Chunk(image, rect)`. -/
def create (i : Option Image) (r : QRect) : Chunk :=
  match i with
  | none => ⟨none, r, 0⟩
  | some img => ⟨some img, r, if scanTransparent img r then AllTransparent else 0⟩

/-- The method `Chunk::compare` (`operator==`), under the global
`threshold`. -/
def compare (threshold : FloatVal) (c other : Chunk) : Bool :=
  if c.mFlags &&& AllTransparent ≠ 0 ∧ other.mFlags &&& AllTransparent ≠ 0 then true
  else
    (List.range c.height).all fun y => (List.range c.width).all fun x =>
      Color.compare threshold (c.color x y) (other.color x y)

end Chunk

/-- The values of `Qt::Alignment` the program uses. -/
def AlignNone : Nat := 0
def AlignLeft : Nat := 0x1
def AlignRight : Nat := 0x2
def AlignTop : Nat := 0x20
def AlignBottom : Nat := 0x40

namespace Chunk

/-- The method `Chunk::isAligned`. -/
def isAligned (c other : Chunk) : Nat :=
  if c.height = other.height then
    if c.x + c.width = other.x then AlignRight
    else if other.x + other.width = c.x then AlignLeft
    else AlignNone
  else if c.width = other.width then
    if c.y + c.height = other.y then AlignBottom
    else if other.y + other.height = c.y then AlignTop
    else AlignNone
  else AlignNone

/-- The method `Chunk::adopt`: the rectangle becomes the bounding rectangle
of the two; image and flags stay. -/
def adopt (c other : Chunk) : Chunk :=
  { c with mRect := ((QRegion.empty.united c.rect).united other.rect).boundingRect }

end Chunk

namespace Image

/-- The method `Image::chunk`. -/
def chunk (img : Image) (r : QRect) : Chunk := Chunk.create (some img) r

/-- The rectangle of grid cell `(x, y)` at level `count`. -/
def cellRect (img : Image) (count x y : Nat) : QRect :=
  let w := img.width / count
  let wextra := img.width - w * count
  let h := img.height / count
  let hextra := img.height - h * count
  ⟨x * w, y * h, w + (if x + 1 = count then wextra else 0),
    h + (if y + 1 = count then hextra else 0)⟩

/-- The method `Image::chunks`, with the global `minSize` as a parameter.
The slot at index `y * count + x` holds cell `(x, y)`, or the null chunk
when the cell meets `filter`. -/
def chunks (minSize : Nat) (img : Image) (count : Nat) (filter : QRegion) : List Chunk :=
  if count = 1 then [img.chunk img.rect]
  else
    let w := img.width / count
    let h := img.height / count
    if w < minSize ∨ h < minSize then []
    else
      (List.range (count * count)).map fun idx =>
        let r := img.cellRect count (idx % count) (idx / count)
        if !filter.intersects r then img.chunk r else Chunk.null

end Image

/-! ## The join post-processor -/

/-- The inner loop of `joinChunks` over the entries after index `i`: the
first entry that can be joined to `(chunk, otherChunk)` is adopted and
removed. Returns the enlarged pair and the remaining entries, or `none`
when the loop ends without a join. -/
def joinInner (chunk otherChunk : Chunk) : List Match → Option (Match × List Match)
  | [] => none
  | m :: rest =>
    let maybeChunk := m.1
    if maybeChunk.isNull then
      (joinInner chunk otherChunk rest).map fun pr => (pr.1, m :: pr.2)
    else if chunk.flags &&& Chunk.AllTransparent ≠ maybeChunk.flags &&& Chunk.AllTransparent then
      (joinInner chunk otherChunk rest).map fun pr => (pr.1, m :: pr.2)
    else
      let aligned := chunk.isAligned maybeChunk
      if aligned ≠ 0 ∧ otherChunk.isAligned m.2 = aligned then
        some ((chunk.adopt maybeChunk, otherChunk.adopt m.2), rest)
      else
        (joinInner chunk otherChunk rest).map fun pr => (pr.1, m :: pr.2)

/-- One round of the `do` loop of `joinChunks`: the `for` loop over `i`
up to its first join. Returns the list after that join, or `none` when the
round leaves `modified` false. -/
def joinPass : List Match → Option (List Match)
  | [] => none
  | m :: rest =>
    if m.1.rect = m.2.rect then
      (joinPass rest).map fun r => m :: r
    else
      match joinInner m.1 m.2 rest with
      | some pr => some (pr.1 :: pr.2)
      | none => (joinPass rest).map fun r => m :: r

/-- The `do ... while (modified)` loop of `joinChunks`, at most `fuel`
rounds; `none` when the rounds run out. -/
def joinLoop : Nat → List Match → Option (List Match)
  | 0, _ => none
  | fuel + 1, chunks =>
    match joinPass chunks with
    | none => some chunks
    | some chunks1 => joinLoop fuel chunks1

/-- The function `joinChunks`: every round but the last removes an entry,
so `chunks.length + 1` rounds are enough. -/
def joinChunks (chunks : List Match) : Option (List Match) :=
  joinLoop (chunks.length + 1) chunks

/-! ## The level driver -/

/-- The signed offsets `-range, ..., range`. -/
def offsets (range : Nat) : List Int :=
  (List.range (2 * range + 1)).map fun (k : Nat) => (k : Int) - (range : Int)

/-- The lambda `add` inside `chunkIndexes`, returning what it appends. -/
def chunkIndexesAdd (count : Nat) (x y : Int) (xadd yadd : Int) : List Nat :=
  let xx := x + xadd
  if xx < 0 ∨ xx ≥ (count : Int) then []
  else
    let yy := y + yadd
    if yy < 0 ∨ yy ≥ (count : Int) then []
    else [((yy * (count : Int)) + xx).toNat]

/-- The lambda `chunkIndexes` of `main`, with the captured `range`. -/
def chunkIndexes (range : Nat) (count idx : Nat) : List Nat :=
  let y : Int := ((idx / count : Nat) : Int)
  let x : Int := ((idx % count : Nat) : Int)
  chunkIndexesAdd count x y 0 0 ++
    (offsets range).flatMap fun yo => (offsets range).flatMap fun xo =>
      if xo ≠ 0 ∨ yo ≠ 0 then chunkIndexesAdd count x y xo yo else []

/-- The candidate loop of `main` for one new chunk: the first old chunk of
the same size that compares equal. -/
def findMatch (threshold : FloatVal) (newChunk : Chunk) (oldChunks : List Chunk)
    (indexes : List Nat) : Option Chunk :=
  (indexes.map fun idx => oldChunks.getD idx Chunk.null).find? fun oldChunk =>
    decide (oldChunk.size = newChunk.size) && newChunk.compare threshold oldChunk

/-- The state the level driver owns: the vector `matches` (a reserved word
here, hence `matchList`), the region `used` and `count`. -/
structure DriverState where
  matchList : List Match
  used : QRegion
  count : Nat
deriving DecidableEq, Repr

/-- The body of the loop over `i` of `main` for the new chunk at index `i`,
with `Q_ASSERT` compiled out (`QT_NO_DEBUG`); `matchStepChecked` is the
body with the assertion. -/
def matchStep (threshold : FloatVal) (range count : Nat) (oldChunks : List Chunk)
    (i : Nat) (newChunk : Chunk) (acc : List Match × QRegion) : List Match × QRegion :=
  if newChunk.isNull then acc
  else
    match findMatch threshold newChunk oldChunks (chunkIndexes range count i) with
    | some oldChunk => (acc.1 ++ [(newChunk, oldChunk)], acc.2.united newChunk.rect)
    | none => acc

/-- The loop over `i` of `main`, from index `i` on. -/
def matchChunks (threshold : FloatVal) (range count : Nat) (oldChunks : List Chunk) :
    Nat → List Chunk → List Match × QRegion → List Match × QRegion
  | _, [], acc => acc
  | i, newChunk :: rest, acc =>
    matchChunks threshold range count oldChunks (i + 1) rest
      (matchStep threshold range count oldChunks i newChunk acc)

/-- One iteration of the `while (true)` loop of `main`: `none` when the
grid is empty (the `break`), else the state after the level. -/
def levelStep (threshold : FloatVal) (minSize range : Nat) (oldImage newImage : Image)
    (st : DriverState) : Option DriverState :=
  let newChunks := newImage.chunks minSize st.count st.used
  if newChunks.isEmpty then none
  else
    let oldChunks := oldImage.chunks minSize st.count QRegion.empty
    let res := matchChunks threshold range st.count oldChunks 0 newChunks (st.matchList, st.used)
    some ⟨res.1, res.2, st.count + 1⟩

/-- The `while (true)` loop of `main`, at most `fuel` iterations; `none`
when the iterations run out before the `break`. -/
def levelLoop (threshold : FloatVal) (minSize range : Nat) (oldImage newImage : Image) :
    Nat → DriverState → Option DriverState
  | 0, _ => none
  | fuel + 1, st =>
    match levelStep threshold minSize range oldImage newImage st with
    | none => some st
    | some st1 => levelLoop threshold minSize range oldImage newImage fuel st1

/-- The state in which the level driver starts. -/
def DriverState.init : DriverState := ⟨[], QRegion.empty, 1⟩

/-- The level driver: the loop from the initial state. The grid is empty
at the latest when `count` exceeds the width, so `width + 2` iterations
are enough. -/
def levelDriver (threshold : FloatVal) (minSize range : Nat) (oldImage newImage : Image) :
    Option DriverState :=
  levelLoop threshold minSize range oldImage newImage (newImage.width + 2) DriverState.init

/-- The match list `main` emits: the driver, then `joinChunks` when the list
is not empty and `--no-join` was not given. -/
def finalMatches (threshold : FloatVal) (minSize range : Nat) (nojoin : Bool)
    (oldImage newImage : Image) : Option (List Match × QRegion) :=
  match levelDriver threshold minSize range oldImage newImage with
  | none => none
  | some st =>
    if st.matchList.isEmpty ∨ nojoin then some (st.matchList, st.used)
    else (joinChunks st.matchList).map fun ms => (ms, st.used)

/-! ## The level driver in a build with assertions -/

/-- How code of a build with assertions ends: with a result, or in the
`abort()` of a failed `Q_ASSERT`. -/
inductive Checked (α : Type) where
  | ok (a : α)
  | assertFailed
deriving DecidableEq, Repr

/-- What follows a step of a build with assertions: `f` is applied to the
result when the step did not fail. -/
def Checked.map {α β : Type} (f : α → β) : Checked α → Checked β
  | .ok a => .ok (f a)
  | .assertFailed => .assertFailed

/-- The body of the loop over `i` of `main` for the new chunk at index `i`,
with `Q_ASSERT(newChunk.width() >= minSize && newChunk.height() >= minSize)`
after the test for a null chunk. -/
def matchStepChecked (threshold : FloatVal) (minSize range count : Nat)
    (oldChunks : List Chunk) (i : Nat) (newChunk : Chunk) (acc : List Match × QRegion) :
    Checked (List Match × QRegion) :=
  if newChunk.isNull then .ok acc
  else if ¬ (newChunk.width ≥ minSize ∧ newChunk.height ≥ minSize) then .assertFailed
  else
    match findMatch threshold newChunk oldChunks (chunkIndexes range count i) with
    | some oldChunk => .ok (acc.1 ++ [(newChunk, oldChunk)], acc.2.united newChunk.rect)
    | none => .ok acc

/-- The loop over `i` of `main`, from index `i` on, in a build with
assertions. -/
def matchChunksChecked (threshold : FloatVal) (minSize range count : Nat)
    (oldChunks : List Chunk) :
    Nat → List Chunk → List Match × QRegion → Checked (List Match × QRegion)
  | _, [], acc => .ok acc
  | i, newChunk :: rest, acc =>
    match matchStepChecked threshold minSize range count oldChunks i newChunk acc with
    | .ok acc1 => matchChunksChecked threshold minSize range count oldChunks (i + 1) rest acc1
    | .assertFailed => .assertFailed

/-- One iteration of the `while (true)` loop of `main` in a build with
assertions: `ok none` when the grid is empty (the `break`), `ok (some st)`
with the state after the level, `assertFailed` when the assertion fails for
a chunk of the level. -/
def levelStepChecked (threshold : FloatVal) (minSize range : Nat) (oldImage newImage : Image)
    (st : DriverState) : Checked (Option DriverState) :=
  let newChunks := newImage.chunks minSize st.count st.used
  if newChunks.isEmpty then .ok none
  else
    let oldChunks := oldImage.chunks minSize st.count QRegion.empty
    match matchChunksChecked threshold minSize range st.count oldChunks 0 newChunks
        (st.matchList, st.used) with
    | .ok res => .ok (some ⟨res.1, res.2, st.count + 1⟩)
    | .assertFailed => .assertFailed

/-- The `while (true)` loop of `main` in a build with assertions, at most
`fuel` iterations; `none` when the iterations run out. -/
def levelLoopChecked (threshold : FloatVal) (minSize range : Nat)
    (oldImage newImage : Image) : Nat → DriverState → Option (Checked DriverState)
  | 0, _ => none
  | fuel + 1, st =>
    match levelStepChecked threshold minSize range oldImage newImage st with
    | .assertFailed => some .assertFailed
    | .ok none => some (.ok st)
    | .ok (some st1) => levelLoopChecked threshold minSize range oldImage newImage fuel st1

/-- The level driver in a build with assertions. -/
def levelDriverChecked (threshold : FloatVal) (minSize range : Nat)
    (oldImage newImage : Image) : Option (Checked DriverState) :=
  levelLoopChecked threshold minSize range oldImage newImage (newImage.width + 2)
    DriverState.init

/-- The match list `main` emits in a build with assertions: the driver,
then `joinChunks` when the list is not empty and `--no-join` was not
given. -/
def finalMatchesChecked (threshold : FloatVal) (minSize range : Nat) (nojoin : Bool)
    (oldImage newImage : Image) : Option (Checked (List Match × QRegion)) :=
  match levelDriverChecked threshold minSize range oldImage newImage with
  | none => none
  | some .assertFailed => some .assertFailed
  | some (.ok st) =>
    if st.matchList.isEmpty ∨ nojoin then some (.ok (st.matchList, st.used))
    else (joinChunks st.matchList).map fun ms => .ok (ms, st.used)

/-! ## The command line of `main` -/

/-- A `QString`, as its list of characters. -/
abbrev QString := List Char

/-- The value of a decimal digit character. -/
def digitValue (c : Char) : Option Nat :=
  if c.toNat ≥ 48 ∧ c.toNat ≤ 57 then some (c.toNat - 48) else none

/-- The number a non-empty string of decimal digits denotes, read after the
digits `acc`. -/
def readDigits : List Char → Nat → Option Nat
  | [], acc => some acc
  | c :: cs, acc =>
    match digitValue c with
    | some d => readDigits cs (acc * 10 + d)
    | none => none

/-- A reader for `QString::toInt` (base 10) on plain numerals: an optional
sign followed by decimal digits, with a value in the range of `int`. Every
other string, the empty one included, is not a number here (`ok` false); Qt
also skips surrounding whitespace. -/
def toInt (s : QString) : Option Int :=
  let value : Option Int :=
    match s with
    | [] => none
    | '-' :: ds => if ds.isEmpty then none else (readDigits ds 0).map fun n => -(n : Int)
    | '+' :: ds => if ds.isEmpty then none else (readDigits ds 0).map fun n => (n : Int)
    | ds => (readDigits ds 0).map fun n => (n : Int)
  value.bind fun n => if -2147483648 ≤ n ∧ n ≤ 2147483647 then some n else none

/-- A decimal numeral: `digits / 10 ^ scale`, negated when `neg`. -/
structure Decimal where
  neg : Bool
  digits : Nat
  scale : Nat
deriving DecidableEq, Repr

/-- The largest finite `float`, `FLT_MAX = (2^24 - 1) * 2^104`. -/
def fltMax : Nat := (2 ^ 24 - 1) * 2 ^ 104

/-- A reader for `QString::toFloat` on plain numerals: an optional sign,
decimal digits and an optional fraction, of magnitude at most `FLT_MAX`.
Every other string is not a number here (`ok` false); Qt also reads
exponent notation, `inf`, `nan` and surrounding whitespace. The value is
kept as the decimal read (a `float` would round it). -/
def toFloat (s : QString) : Option Decimal :=
  let body (neg : Bool) (ds : List Char) : Option Decimal :=
    let ip := ds.takeWhile fun c => c != '.'
    let rest := ds.dropWhile fun c => c != '.'
    let value : Option Decimal :=
      match rest with
      | [] => if ip.isEmpty then none else (readDigits ip 0).map fun n => ⟨neg, n, 0⟩
      | _ :: fp =>
        if ip.isEmpty ∧ fp.isEmpty then none
        else (readDigits (ip ++ fp) 0).map fun n => ⟨neg, n, fp.length⟩
    value.bind fun d => if d.digits ≤ fltMax * 10 ^ d.scale then some d else none
  match s with
  | '-' :: ds => body true ds
  | '+' :: ds => body false ds
  | ds => body false ds

/-- The globals of the program and the locals of `main` that the argument
loop sets. `threshold` is the global the comparator reads; `localThreshold`
is the local variable `threshold` of `main`, which hides the global inside
`main`. -/
structure MainVars where
  minSize : Nat
  verbose : Nat
  threshold : FloatVal
  imageMagickFormat : Bool
  localThreshold : Decimal
  same : Bool
  nojoin : Bool
  dumpImages : Bool
  range : Nat
  oldImage : Option Image
  newImage : Option Image
deriving DecidableEq, Repr

/-- The initial values: `minSize = 10`, `verbose = 0`, `threshold = 0`,
`range = 2`, no image loaded. -/
def MainVars.init : MainVars :=
  { minSize := 10, verbose := 0, threshold := ⟨0, 0⟩, imageMagickFormat := false,
    localThreshold := ⟨false, 0, 0⟩, same := false, nojoin := false, dumpImages := false,
    range := 2, oldImage := none, newImage := none }

/-- One round of the argument loop of `main`. The parameters `toFloat` and
`toInt` stand for `QString::toFloat` and `QString::toInt` (`none` when `ok`
is false), `load` stands for `Image::load`. `Except.error code` is
`return code`. The test `threshold < .0` is the test for a negative value
that is not zero. -/
def parseArgWith (toFloat : QString → Option Decimal) (toInt : QString → Option Int)
    (load : QString → Option Image) (v : MainVars) (arg : QString) :
    Except Nat MainVars :=
  if arg = "--help".toList ∨ arg = "-h".toList then .error 0
  else if arg = "-v".toList ∨ arg = "--verbose".toList then .ok { v with verbose := v.verbose + 1 }
  else if arg = "--imagemagick".toList then .ok { v with imageMagickFormat := true }
  else if arg = "--dump-images".toList then .ok { v with dumpImages := true }
  else if arg = "--no-join".toList then .ok { v with nojoin := true }
  else if "--threshold=".toList.isPrefixOf arg then
    let t := arg.drop 12
    let percent := t.getLast? = some '%'
    let t := if percent then t.dropLast else t
    match toFloat t with
    | none => .error 1
    | some d =>
      if d.neg ∧ d.digits ≠ 0 then .error 1
      else if percent then
        .ok { v with localThreshold := ⟨d.neg, d.digits * 256, d.scale + 2⟩ }
      else .ok { v with localThreshold := d }
  else if "--min-size=".toList.isPrefixOf arg then
    match toInt (arg.drop 11) with
    | none => .error 1
    | some n => if n ≤ 0 then .error 1 else .ok { v with minSize := n.toNat }
  else if arg = "--same".toList then .ok { v with same := true }
  else if "--range=".toList.isPrefixOf arg then
    match toInt (arg.drop 11) with
    | none => .error 1
    | some n => if n ≤ 0 then .error 1 else .ok { v with range := n.toNat }
  else if v.oldImage.isNone then
    match load arg with
    | none => .error 1
    | some img => .ok { v with oldImage := some img }
  else if v.newImage.isNone then
    match load arg with
    | none => .error 1
    | some img => .ok { v with newImage := some img }
  else .error 1

/-- The argument loop of `main`. -/
def parseArgsWith (toFloat : QString → Option Decimal) (toInt : QString → Option Int)
    (load : QString → Option Image) : List QString → MainVars → Except Nat MainVars
  | [], v => .ok v
  | arg :: rest, v =>
    match parseArgWith toFloat toInt load v arg with
    | .error code => .error code
    | .ok v1 => parseArgsWith toFloat toInt load rest v1

deriving instance DecidableEq for Except

/-- The run of `main` up to the emitter: the argument loop, the checks on
the two images, the level driver and `joinChunks`. The result is the exit
code of an early `return`, or the final `matches` and `used`; `none` stands
for a loop that does not end. The comparator works with the global
`threshold`. -/
def mainMatchesWith (toFloat : QString → Option Decimal) (toInt : QString → Option Int)
    (load : QString → Option Image) (args : List QString) :
    Except Nat (Option (List Match × QRegion)) :=
  match parseArgsWith toFloat toInt load args MainVars.init with
  | .error code => .error code
  | .ok v =>
    match v.oldImage, v.newImage with
    | some oldImage, some newImage =>
      if oldImage.width ≠ newImage.width ∨ oldImage.height ≠ newImage.height then .error 1
      else .ok (finalMatches v.threshold v.minSize v.range v.nojoin oldImage newImage)
    | _, _ => .error 1

/-- One round of the argument loop with the readers `toFloat` and `toInt`
for plain numerals. -/
def parseArg (load : QString → Option Image) (v : MainVars) (arg : QString) :
    Except Nat MainVars :=
  parseArgWith toFloat toInt load v arg

/-- The argument loop with the readers for plain numerals. -/
def parseArgs (load : QString → Option Image) (args : List QString) (v : MainVars) :
    Except Nat MainVars :=
  parseArgsWith toFloat toInt load args v

/-- The run of `main` up to the emitter with the readers for plain
numerals. -/
def mainMatches (load : QString → Option Image) (args : List QString) :
    Except Nat (Option (List Match × QRegion)) :=
  mainMatchesWith toFloat toInt load args

/-! ## The emitter of `main` -/

/-- The function `toString(const QRect &)`, with the global
`imageMagickFormat` as a parameter: `WxH+X+Y` or `X,Y+WxH`. -/
def rectToString (imageMagickFormat : Bool) (rect : QRect) : String :=
  if imageMagickFormat then
    toString rect.w ++ "x" ++ toString rect.h ++ "+" ++ toString rect.x ++ "+" ++ toString rect.y
  else
    toString rect.x ++ "," ++ toString rect.y ++ "+" ++ toString rect.w ++ "x" ++ toString rect.h

/-- What the loop over the final matches prints for one match (`printf`
lines, without the newline). -/
def emitMatch (imageMagickFormat same : Bool) (m : Match) : List String :=
  if m.1.rect ≠ m.2.rect then
    if !same then
      [rectToString imageMagickFormat m.2.rect ++ " " ++ rectToString imageMagickFormat m.1.rect]
    else []
  else if same then [rectToString imageMagickFormat m.1.rect]
  else []

/-- The lines `main` writes to stdout after the level driver and
`joinChunks`. The parameter `rectsOf` stands for Qt: `rectsOf all used` is
`(QRegion(all) - used).rects()`, the rectangles of the complement. -/
def emit (imageMagickFormat same : Bool) (rectsOf : QRect → QRegion → List QRect)
    (imageRect : QRect) (matchList : List Match) (used : QRegion) : List String :=
  if !matchList.isEmpty then
    matchList.flatMap (emitMatch imageMagickFormat same) ++
      (if !same then (rectsOf imageRect used).map (rectToString imageMagickFormat) else [])
  else if !same then [rectToString imageMagickFormat imageRect]
  else []

/-- The run of `main`: the exit code and the lines written to stdout
(`--help` prints the usage text, which is left out here). `none` stands for
a driver loop that does not end. -/
def mainRunWith (toFloat : QString → Option Decimal) (toInt : QString → Option Int)
    (load : QString → Option Image) (rectsOf : QRect → QRegion → List QRect)
    (args : List QString) : Option (Nat × List String) :=
  match parseArgsWith toFloat toInt load args MainVars.init with
  | .error code => some (code, [])
  | .ok v =>
    match v.oldImage, v.newImage with
    | some oldImage, some newImage =>
      if oldImage.width ≠ newImage.width ∨ oldImage.height ≠ newImage.height then some (1, [])
      else
        (finalMatches v.threshold v.minSize v.range v.nojoin oldImage newImage).map fun r =>
          (0, emit v.imageMagickFormat v.same rectsOf oldImage.rect r.1 r.2)
    | _, _ => some (1, [])

/-- The run of `main` in a build with assertions: as `mainRunWith`, and
`Checked.assertFailed` when the `Q_ASSERT` of the driver loop fails. -/
def mainRunCheckedWith (toFloat : QString → Option Decimal) (toInt : QString → Option Int)
    (load : QString → Option Image) (rectsOf : QRect → QRegion → List QRect)
    (args : List QString) : Option (Checked (Nat × List String)) :=
  match parseArgsWith toFloat toInt load args MainVars.init with
  | .error code => some (.ok (code, []))
  | .ok v =>
    match v.oldImage, v.newImage with
    | some oldImage, some newImage =>
      if oldImage.width ≠ newImage.width ∨ oldImage.height ≠ newImage.height then
        some (.ok (1, []))
      else
        (finalMatchesChecked v.threshold v.minSize v.range v.nojoin oldImage newImage).map
          (Checked.map fun r =>
            (0, emit v.imageMagickFormat v.same rectsOf oldImage.rect r.1 r.2))
    | _, _ => some (.ok (1, []))

/-- The run of `main` with the readers for plain numerals. -/
def mainRun (load : QString → Option Image) (rectsOf : QRect → QRegion → List QRect)
    (args : List QString) : Option (Nat × List String) :=
  mainRunWith toFloat toInt load rectsOf args

/-! ## Example inputs -/

namespace Example

/-- An opaque grey pixel of level `v`. -/
def px (v : Nat) : Color := ⟨v, v, v, 255⟩

/-- A 2×2 new image with four different pixels. -/
def newA : Image := ⟨2, 2, [px 1, px 2, px 3, px 4]⟩

/-- A 2×2 old image: the new pixel `(0,0)` sits at `(0,1)`, the pixel
`(1,0)` is unchanged. -/
def oldA : Image := ⟨2, 2, [px 5, px 2, px 1, px 6]⟩

/-- A 2×2 old image: the new pixel `(0,0)` sits at `(0,1)`, the pixel
`(1,1)` is unchanged. -/
def oldB : Image := ⟨2, 2, [px 5, px 6, px 1, px 4]⟩

/-- A 2×2 old image: the new pixel `(0,0)` sits at `(0,1)` and the new
pixel `(1,1)` at `(1,0)`; no pixel is unchanged. -/
def oldC : Image := ⟨2, 2, [px 5, px 4, px 1, px 6]⟩

/-- A 2×2 old image: the new pixels `(0,0)` and `(0,1)`, one above the
other, sit one column to the right. -/
def oldD : Image := ⟨2, 2, [px 5, px 1, px 6, px 3]⟩

/-- A 2×2 new image with transparent pixels at `(0,0)` and `(1,1)` and
opaque pixels at `(1,0)` and `(0,1)`. -/
def newT : Image := ⟨2, 2, [⟨9, 9, 9, 0⟩, px 1, px 2, ⟨9, 9, 9, 0⟩]⟩

/-- A 2×2 old image with an opaque upper row and a transparent lower row. -/
def oldT : Image := ⟨2, 2, [px 3, px 4, ⟨0, 0, 0, 0⟩, ⟨0, 0, 0, 0⟩]⟩

/-- A 5×5 image of one colour. -/
def small5 : Image := ⟨5, 5, List.replicate 25 (px 1)⟩

/-- A 20×20 image whose pixels all have the value `v` in every channel. -/
def flat20 (v : Nat) : Image := ⟨20, 20, List.replicate 400 ⟨v, v, v, v⟩⟩

/-- Opaque red. -/
def red : Color := ⟨255, 0, 0, 255⟩

/-- Opaque white. -/
def white : Color := ⟨255, 255, 255, 255⟩

/-- The pixels of the 200×200 old image of the translation scenario: a red
50×50 square at `(0,0)` on white. -/
def squareOldPixel (x y : Nat) : Color := if x < 50 ∧ y < 50 then red else white

/-- The pixels of the 200×200 new image of the translation scenario: the
red 50×50 square at `(100,100)` on white. -/
def squareNewPixel (x y : Nat) : Color :=
  if 100 ≤ x ∧ x < 150 ∧ 100 ≤ y ∧ y < 150 then red else white

/-- The old image of the translation scenario. -/
def squareOld : Image := Image.loadPixels 200 200 squareOldPixel

/-- The new image of the translation scenario. -/
def squareNew : Image := Image.loadPixels 200 200 squareNewPixel

/-- The four matches the driver records at level 2 for two 200×200 images
`o` (old) and `n` (new) without transparent pixels, when the new quadrants
match the old quadrants 1, 1, 2 and 0. -/
def quadrantMatches (o n : Image) : List Match :=
  [(⟨some n, ⟨0, 0, 100, 100⟩, 0⟩, ⟨some o, ⟨100, 0, 100, 100⟩, 0⟩),
   (⟨some n, ⟨100, 0, 100, 100⟩, 0⟩, ⟨some o, ⟨100, 0, 100, 100⟩, 0⟩),
   (⟨some n, ⟨0, 100, 100, 100⟩, 0⟩, ⟨some o, ⟨0, 100, 100, 100⟩, 0⟩),
   (⟨some n, ⟨100, 100, 100, 100⟩, 0⟩, ⟨some o, ⟨0, 0, 100, 100⟩, 0⟩)]

/-- The four quadrants of a 200×200 image. -/
def quadrants : QRegion :=
  [⟨0, 0, 100, 100⟩, ⟨100, 0, 100, 100⟩, ⟨0, 100, 100, 100⟩, ⟨100, 100, 100, 100⟩]

/-- A file system with `old.png` and `new.png`, two 20×20 images that
differ by one in every channel of every pixel. -/
def files (name : QString) : Option Image :=
  if name = "old.png".toList then some (flat20 10)
  else if name = "new.png".toList then some (flat20 11)
  else none

end Example

/-! ## Definitions used to state the claims -/

/-- The sum of the squared differences of the three colour channels, the
argument `r + g + b` of `sqrtf` in `Color::compare`. -/
def Color.rgbSquares (c other : Color) : Nat :=
  ((((c.red : Int) - (other.red : Int)) ^ 2 + ((c.green : Int) - (other.green : Int)) ^ 2
    + ((c.blue : Int) - (other.blue : Int)) ^ 2 : Int)).toNat

/-- The contract of the colour comparator in the words of the spec, over
the real numbers: `max(sqrt((r1−r2)² + (g1−g2)² + (b1−b2)²), |a1−a2|) ≤
threshold`. -/
def Color.withinThreshold (threshold : ℚ) (c1 c2 : Color) : Prop :=
  max (Real.sqrt (((c1.red : ℝ) - c2.red) ^ 2 + ((c1.green : ℝ) - c2.green) ^ 2
      + ((c1.blue : ℝ) - c2.blue) ^ 2)) |(c1.alpha : ℝ) - c2.alpha| ≤ (threshold : ℝ)

/-- The exit condition of the loop of `main` at level `count`: the grid of
that level is empty. -/
def stopsAt (minSize : Nat) (img : Image) (count : Nat) : Prop :=
  count ≠ 1 ∧ (img.width / count < minSize ∨ img.height / count < minSize)

/-- No two matches of the list have intersecting new-side rectangles. -/
def newRectsDisjoint (ms : List Match) : Prop :=
  List.Pairwise (fun a b => QRect.intersects a b = false) (ms.map fun m => m.1.rect)

/-- The state of the level driver after `n` completed iterations of its
loop, `none` when the loop has exited before. -/
def levelIter (threshold : FloatVal) (minSize range : Nat) (oldImage newImage : Image) :
    Nat → Option DriverState
  | 0 => some DriverState.init
  | n + 1 =>
    (levelIter threshold minSize range oldImage newImage n).bind
      (levelStep threshold minSize range oldImage newImage)

/-- What the states of the level driver satisfy: the recorded new-side
rectangles do not intersect each other, each is covered by `used`, and
nothing is recorded before level 1 has run. -/
def DriverInv (st : DriverState) : Prop :=
  newRectsDisjoint st.matchList ∧
  (∀ m ∈ st.matchList, ∀ r, m.1.rect.intersects r = true → QRegion.intersects st.used r = true) ∧
  (st.count = 1 → st.matchList = [] ∧ st.used = []) ∧ 1 ≤ st.count

/-- The states of the driver on two images whose whole-image chunks match
at level 1. -/
def WholeMatchInv (oldImage newImage : Image) (st : DriverState) : Prop :=
  st = DriverState.init ∨
    (st.matchList = [(newImage.chunk newImage.rect, oldImage.chunk oldImage.rect)] ∧
      st.used = [newImage.rect] ∧ 2 ≤ st.count)

/-- A match pair is genuine, in the words of the claim: the two rectangles
have the same width and height, and either every pixel of the new image
inside the new-side rectangle compares equal to the pixel at the same
relative offset inside the old-side rectangle of the old image, or both
regions consist only of pixels with alpha 0. -/
def genuineMatch (threshold : FloatVal) (oldImage newImage : Image) (m : Match) : Bool :=
  decide (m.1.rect.w = m.2.rect.w) && decide (m.1.rect.h = m.2.rect.h) &&
    (((List.range m.1.rect.h).all fun y => (List.range m.1.rect.w).all fun x =>
        Color.compare threshold (newImage.color (m.1.rect.x + x) (m.1.rect.y + y))
          (oldImage.color (m.2.rect.x + x) (m.2.rect.y + y)))
      || (Chunk.scanTransparent newImage m.1.rect && Chunk.scanTransparent oldImage m.2.rect))

/-- The `Q_ASSERT` in the loop over `i` of `main`, for the grid of one
level: every non-null new chunk is at least `minSize` wide and high. -/
def levelAssert (minSize : Nat) (newChunks : List Chunk) : Bool :=
  newChunks.all fun c => c.isNull || (decide (minSize ≤ c.width) && decide (minSize ≤ c.height))

/-- The size assertion of the driver fails at no level the loop reaches. -/
def driverAssertsHold (threshold : FloatVal) (minSize range : Nat)
    (oldImage newImage : Image) : Prop :=
  ∀ n st, levelIter threshold minSize range oldImage newImage n = some st →
    levelAssert minSize (newImage.chunks minSize st.count st.used) = true

/-- The three `Q_ASSERT`s of the constructor `Chunk::Chunk(image, rect)` for
a chunk with an image: the rectangle is not null, and its bottom and right
edges are inside the image. -/
def Chunk.createAssert (img : Image) (r : QRect) : Bool :=
  !r.isNull && decide (r.y + r.h ≤ img.height) && decide (r.x + r.w ≤ img.width)

/-- The images `o` (old) and `n` (new) are 200×200 and have the pixels of the
translation scenario. -/
def IsTranslationScene (o n : Image) : Prop :=
  o.width = 200 ∧ o.height = 200 ∧ n.width = 200 ∧ n.height = 200 ∧
  (∀ x y, x < 200 → y < 200 → o.color x y = Example.squareOldPixel x y) ∧
  (∀ x y, x < 200 → y < 200 → n.color x y = Example.squareNewPixel x y)

/-- The states of the driver on the translation scenario: the initial
state, the state after level 1 (nothing matched), or the four quadrant
matches of level 2 with the whole image used. -/
def TranslationInv (oldImage newImage : Image) (st : DriverState) : Prop :=
  st = DriverState.init ∨ st = ⟨[], QRegion.empty, 2⟩ ∨
    (st.matchList = Example.quadrantMatches oldImage newImage ∧
      st.used = Example.quadrants ∧ 3 ≤ st.count)

/-- The argument is `--threshold=` followed by a valid value: one that the
argument loop of `main` accepts when `QString::toFloat` is `toFloat`. -/
def isThresholdArg (toFloat : QString → Option Decimal) (arg : QString) : Bool :=
  "--threshold=".toList.isPrefixOf arg &&
    match parseArgWith toFloat (fun _ => none) (fun _ => none) MainVars.init arg with
    | .ok _ => true
    | .error _ => false

/-- The variables with the local `threshold` of `main` reset: what is left
are the globals and the locals that the rest of `main` reads. -/
def MainVars.withoutLocal (v : MainVars) : MainVars :=
  { v with localThreshold := ⟨false, 0, 0⟩ }

/-- Two command lines differ only in the valid values given to
`--threshold=`: they have the same length, and at every position the two
arguments are equal or are both `--threshold=` arguments with a valid
value. -/
def SameUpToThreshold (toFloat : QString → Option Decimal) (args1 args2 : List QString) :
    Prop :=
  List.Forall₂ (fun a b =>
      a = b ∨ (isThresholdArg toFloat a = true ∧ isThresholdArg toFloat b = true))
    args1 args2


/-! ## The colour comparator -/

theorem isqrtAux_spec (n : Nat) : ∀ (b r : Nat), r * r ≤ n → n < (r + 2 ^ b) * (r + 2 ^ b) →
    isqrtAux n b r * isqrtAux n b r ≤ n ∧ n < (isqrtAux n b r + 1) * (isqrtAux n b r + 1) := by
  intro b
  induction b with
  | zero =>
    intro r h1 h2
    simpa [isqrtAux] using And.intro h1 h2
  | succ b ih =>
    intro r h1 h2
    unfold isqrtAux
    split_ifs with hc
    · apply ih _ hc
      have : r + 2 ^ b + 2 ^ b = r + 2 ^ (b + 1) := by rw [pow_succ]; ring
      rw [this]; exact h2
    · exact ih _ h1 (Nat.lt_of_not_le hc)

theorem isqrt_eq_sqrt {n : Nat} (hn : n < 2 ^ 80) : isqrt n = Nat.sqrt n := by
  have h := isqrtAux_spec n 40 0 (by simp) (by
    have : (0 + 2 ^ 40) * (0 + 2 ^ 40) = 2 ^ 80 := by norm_num
    rw [this]; exact hn)
  exact Nat.eq_sqrt.2 h

theorem isqrtAux_ge (n : Nat) : ∀ (b r : Nat), r ≤ isqrtAux n b r := by
  intro b
  induction b with
  | zero => intro r; simp [isqrtAux]
  | succ b ih =>
    intro r
    unfold isqrtAux
    split_ifs
    · exact le_trans (Nat.le_add_right _ _) (ih _)
    · exact ih _

theorem isqrtAux_pos {n : Nat} (hn : 0 < n) : ∀ (b r : Nat), 0 < isqrtAux n (b + 1) r := by
  intro b
  induction b with
  | zero =>
    intro r
    simp only [isqrtAux, pow_zero]
    split_ifs with h
    · omega
    · rcases Nat.eq_zero_or_pos r with h0 | h0
      · subst h0; simp at h; omega
      · exact h0
  | succ b ih =>
    intro r
    rw [isqrtAux]
    split_ifs
    · exact ih _
    · exact ih _

theorem isqrt_pos {n : Nat} (hn : 0 < n) : 0 < isqrt n := isqrtAux_pos hn 39 0

theorem binade_pow_le (r : Nat) : ∀ k, binade r k ≠ 0 → 2 ^ binade r k ≤ r := by
  intro k
  induction k with
  | zero => intro h; simp [binade] at h
  | succ k ih =>
    intro h
    unfold binade at h ⊢
    split_ifs with hc
    · exact hc
    · rw [if_neg hc] at h; exact ih h

theorem FloatVal.le_iff (a b : FloatVal) : a.le b = true ↔ a.toRat ≤ b.toRat := by
  unfold FloatVal.le FloatVal.toRat
  rw [decide_eq_true_eq, div_le_div_iff₀ (by positivity) (by positivity)]
  exact_mod_cast Iff.rfl

theorem FloatVal.gt_iff (a b : FloatVal) : a.gt b = true ↔ b.toRat < a.toRat := by
  unfold FloatVal.gt FloatVal.toRat
  rw [decide_eq_true_eq, div_lt_div_iff₀ (by positivity) (by positivity)]
  exact_mod_cast Iff.rfl

theorem FloatVal.toRat_ofNat (n : Nat) : (FloatVal.ofNat n).toRat = (n : ℚ) := by
  simp [FloatVal.ofNat, FloatVal.toRat]

theorem sqrtf_zero : sqrtf 0 = ⟨0, 0⟩ := by simp [sqrtf]

theorem sqrtf_pos {n : Nat} (hn : 0 < n) : 0 < (sqrtf n).toRat := by
  have hn0 : n ≠ 0 := by omega
  simp only [sqrtf, hn0, if_false, FloatVal.toRat]
  set s := 2 ^ (23 - binade (isqrt n) 23) with hs
  have hspos : 0 < s := by positivity
  have hN : 0 < n * s * s := by positivity
  have hk : 0 < isqrt (n * s * s) := isqrt_pos hN
  apply div_pos _ (by positivity)
  split_ifs <;> [positivity; exact_mod_cast hk]

theorem sqrtf_le_nat_iff {n : Nat} (hn : n < 2 ^ 24) (t : Nat) :
    (sqrtf n).toRat ≤ (t : ℚ) ↔ n ≤ t * t := by
  rcases Nat.eq_zero_or_pos n with h0 | hpos
  · subst h0; simp [sqrtf_zero, FloatVal.toRat]
  have hn0 : n ≠ 0 := by omega
  simp only [sqrtf, hn0, if_false, FloatVal.toRat]
  have hi : isqrt n = Nat.sqrt n := isqrt_eq_sqrt (lt_trans hn (by norm_num))
  -- the scale exceeds the integer square root
  have h12 : Nat.sqrt n < 2 ^ 12 := by
    rw [Nat.sqrt_lt']; calc n < 2 ^ 24 := hn
      _ = (2 ^ 12) ^ 2 := by norm_num
  have he : binade (isqrt n) 23 < 12 := by
    by_contra hge
    have h1 : binade (isqrt n) 23 ≠ 0 := by omega
    have h2 := binade_pow_le (isqrt n) 23 h1
    have h3 : 2 ^ 12 ≤ 2 ^ binade (isqrt n) 23 := Nat.pow_le_pow_right (by norm_num) (by omega)
    omega
  have hr : Nat.sqrt n < 2 ^ (23 - binade (isqrt n) 23) := by
    calc Nat.sqrt n < 2 ^ 12 := h12
      _ ≤ 2 ^ (23 - binade (isqrt n) 23) := Nat.pow_le_pow_right (by norm_num) (by omega)
  have hs23 : 2 ^ (23 - binade (isqrt n) 23) ≤ 2 ^ 23 := Nat.pow_le_pow_right (by norm_num) (by omega)
  set s := 2 ^ (23 - binade (isqrt n) 23) with hs
  have hspos : 0 < s := by positivity
  have hsq : (0 : ℚ) < ((s : Nat) : ℚ) := by exact_mod_cast hspos
  have hNlt : n * s * s < 2 ^ 80 := by
    calc n * s * s ≤ 2 ^ 24 * 2 ^ 23 * 2 ^ 23 := by
          apply Nat.mul_le_mul (Nat.mul_le_mul hn.le hs23) hs23
      _ < 2 ^ 80 := by norm_num
  rw [isqrt_eq_sqrt hNlt]
  set N := n * s * s with hN
  set k := Nat.sqrt N with hk
  have hk1 : k * k ≤ N := Nat.sqrt_le N
  have hk2 : N < (k + 1) * (k + 1) := Nat.lt_succ_sqrt N
  rw [div_le_iff₀ hsq]
  have cast : ∀ m : Nat, ((m : ℚ) ≤ (t : ℚ) * (s : ℚ)) ↔ m ≤ t * s := by
    intro m; exact_mod_cast Iff.rfl
  constructor
  · intro hm
    by_contra hcon
    have hlt : t * t + 1 ≤ n := by omega
    have hN1 : (t * s) * (t * s) + s * s ≤ N := by
      calc (t * s) * (t * s) + s * s = (t * t + 1) * s * s := by ring
        _ ≤ n * s * s := by
          apply Nat.mul_le_mul_right; apply Nat.mul_le_mul_right; exact hlt
    have hts : t * s ≤ k := by
      rw [hk, Nat.le_sqrt]; omega
    have htr : t < s := by
      have : t ≤ Nat.sqrt n := by rw [Nat.le_sqrt]; omega
      omega
    have hss : t * s + 1 ≤ s * s := by nlinarith
    split_ifs at hm with hc
    · have := (cast (k + 1)).1 (by push_cast; exact_mod_cast hm)
      omega
    · have hkm := (cast k).1 hm
      have hkeq : k = t * s := le_antisymm hkm hts
      apply hc
      rw [hkeq]; omega
  · intro hle
    have hN2 : N ≤ (t * s) * (t * s) := by
      calc N = n * s * s := rfl
        _ ≤ (t * t) * s * s := by
          apply Nat.mul_le_mul_right; apply Nat.mul_le_mul_right; exact hle
        _ = (t * s) * (t * s) := by ring
    have hkts : k ≤ t * s := by
      by_contra hgt
      have : t * s + 1 ≤ k := by omega
      have : (t * s + 1) * (t * s + 1) ≤ k * k := Nat.mul_le_mul this this
      nlinarith
    split_ifs with hc
    · have hne : k ≠ t * s := by
        intro he; rw [he] at hc; omega
      have : k + 1 ≤ t * s := by omega
      exact_mod_cast (cast (k + 1)).2 this
    · exact (cast k).2 hkts

theorem binade_lt_pow (r : Nat) : ∀ k, r < 2 ^ (k + 1) → r < 2 ^ (binade r k + 1) := by
  intro k
  induction k with
  | zero => intro h; simpa [binade] using h
  | succ k ih =>
    intro h
    unfold binade
    split_ifs with hc
    · exact h
    · exact ih (Nat.lt_of_not_le hc)

theorem round_up_half (k N : Nat) (h1 : k * k + k < N) (h2 : N < (k + 1) * (k + 1)) :
    (2 * (k + 1) - 1) ^ 2 ≤ 4 * N ∧ 4 * N ≤ (2 * (k + 1) + 1) ^ 2 := by
  have e : 2 * (k + 1) - 1 = 2 * k + 1 := by omega
  rw [e]
  constructor
  · have : (2 * k + 1) ^ 2 = 4 * (k * k + k) + 1 := by ring
    omega
  · have : (2 * (k + 1) + 1) ^ 2 = 4 * ((k + 1) * (k + 1)) + 4 * k + 5 := by ring
    omega

theorem round_down_half (k N : Nat) (h0 : 1 ≤ k) (h1 : k * k ≤ N) (h2 : ¬ k * k + k < N) :
    (2 * k - 1) ^ 2 ≤ 4 * N ∧ 4 * N ≤ (2 * k + 1) ^ 2 := by
  obtain ⟨j, rfl⟩ : ∃ j, k = j + 1 := ⟨k - 1, by omega⟩
  have e : 2 * (j + 1) - 1 = 2 * j + 1 := by omega
  rw [e]
  constructor
  · have : (2 * j + 1) ^ 2 + 4 * j + 3 = 4 * ((j + 1) * (j + 1)) := by ring
    omega
  · have : (2 * (j + 1) + 1) ^ 2 = 4 * ((j + 1) * (j + 1) + (j + 1)) + 1 := by ring
    omega

/-- The model of `sqrtf` is the correctly rounded binary32 square root: for
`0 < n < 2^24` the result `m / 2^j` has a 24-bit significand
(`2^23 ≤ m ≤ 2^24`) and `m` is within one half of `√n · 2^j`. -/
theorem sqrtf_correctly_rounded {n : Nat} (hpos : 0 < n) (hn : n < 2 ^ 24) :
    2 ^ 23 ≤ (sqrtf n).num ∧ (sqrtf n).num ≤ 2 ^ 24 ∧
    (2 * (sqrtf n).num - 1) ^ 2 ≤ 4 * (n * (2 ^ (sqrtf n).exp) ^ 2) ∧
    4 * (n * (2 ^ (sqrtf n).exp) ^ 2) ≤ (2 * (sqrtf n).num + 1) ^ 2 := by
  have hn0 : n ≠ 0 := by omega
  simp only [sqrtf, hn0, if_false]
  have hi : isqrt n = Nat.sqrt n := isqrt_eq_sqrt (lt_trans hn (by norm_num))
  have hr1 : 0 < isqrt n := isqrt_pos hpos
  have h12 : isqrt n < 2 ^ 12 := by
    rw [hi, Nat.sqrt_lt']; calc n < 2 ^ 24 := hn
      _ = (2 ^ 12) ^ 2 := by norm_num
  have hrn : isqrt n * isqrt n ≤ n := by rw [hi]; exact Nat.sqrt_le n
  have hrn2 : n < (isqrt n + 1) * (isqrt n + 1) := by rw [hi]; exact Nat.lt_succ_sqrt n
  have hub : isqrt n < 2 ^ (binade (isqrt n) 23 + 1) :=
    binade_lt_pow _ 23 (lt_trans h12 (by norm_num))
  have hlb : 2 ^ binade (isqrt n) 23 ≤ isqrt n := by
    by_cases h0 : binade (isqrt n) 23 = 0
    · rw [h0]; simpa using hr1
    · exact binade_pow_le _ 23 h0
  have he : binade (isqrt n) 23 < 12 := by
    by_contra hge
    have h3 : 2 ^ 12 ≤ 2 ^ binade (isqrt n) 23 := Nat.pow_le_pow_right (by norm_num) (by omega)
    omega
  have hs23 : 2 ^ (23 - binade (isqrt n) 23) ≤ 2 ^ 23 := Nat.pow_le_pow_right (by norm_num) (by omega)
  have hse : 2 ^ binade (isqrt n) 23 * 2 ^ (23 - binade (isqrt n) 23) = 2 ^ 23 := by
    rw [← pow_add]; congr 1; omega
  have hse1 : 2 ^ (binade (isqrt n) 23 + 1) * 2 ^ (23 - binade (isqrt n) 23) = 2 ^ 24 := by
    rw [← pow_add]; congr 1; omega
  set r := isqrt n with hr
  set s := 2 ^ (23 - binade r 23) with hs
  have hspos : 0 < s := by positivity
  have hNlt : n * s * s < 2 ^ 80 := by
    calc n * s * s ≤ 2 ^ 24 * 2 ^ 23 * 2 ^ 23 := by
          apply Nat.mul_le_mul (Nat.mul_le_mul hn.le hs23) hs23
      _ < 2 ^ 80 := by norm_num
  rw [isqrt_eq_sqrt hNlt]
  have hN' : n * s ^ 2 = n * s * s := by ring
  rw [hN']
  set N := n * s * s with hN
  set k := Nat.sqrt N with hk
  have hk1 : k * k ≤ N := Nat.sqrt_le N
  have hk2 : N < (k + 1) * (k + 1) := Nat.lt_succ_sqrt N
  have hklb : 2 ^ 23 ≤ k := by
    rw [hk, Nat.le_sqrt]
    calc 2 ^ 23 * 2 ^ 23 = (2 ^ binade r 23 * s) * (2 ^ binade r 23 * s) := by rw [hse]
      _ ≤ (r * s) * (r * s) := by
          apply Nat.mul_le_mul <;> exact Nat.mul_le_mul_right _ hlb
      _ = (r * r) * s * s := by ring
      _ ≤ n * s * s := by
          apply Nat.mul_le_mul_right; apply Nat.mul_le_mul_right; exact hrn
  have hkub : k < 2 ^ 24 := by
    rw [hk, Nat.sqrt_lt]
    calc N = n * s * s := rfl
      _ < ((r + 1) * (r + 1)) * s * s := by
          apply Nat.mul_lt_mul_of_pos_right _ hspos
          exact Nat.mul_lt_mul_of_pos_right hrn2 hspos
      _ = ((r + 1) * s) * ((r + 1) * s) := by ring
      _ ≤ (2 ^ (binade r 23 + 1) * s) * (2 ^ (binade r 23 + 1) * s) := by
          apply Nat.mul_le_mul <;> exact Nat.mul_le_mul_right _ (by omega)
      _ = 2 ^ 24 * 2 ^ 24 := by rw [hse1]
  have hk0 : 1 ≤ k := le_trans (by norm_num) hklb
  split_ifs with hc
  · exact ⟨by omega, by omega, round_up_half k N hc hk2⟩
  · exact ⟨hklb, by omega, round_down_half k N hk0 hk1 hc⟩

theorem Color.compare_iff (t : FloatVal) (c o : Color) :
    Color.compare t c o = true ↔
      (sqrtf (Color.rgbSquares c o)).toRat ≤ t.toRat ∧
        ((|(c.alpha : Int) - (o.alpha : Int)| : Int) : ℚ) ≤ t.toRat := by
  have hab : (FloatVal.ofNat ((c.alpha : Int) - (o.alpha : Int)).natAbs).toRat
      = ((|(c.alpha : Int) - (o.alpha : Int)| : Int) : ℚ) := by
    rw [FloatVal.toRat_ofNat, Nat.cast_natAbs]
  simp only [Color.compare]
  rw [← hab]
  change (if _ then _ else sqrtf (Color.rgbSquares c o)).le t = true ↔ _
  split_ifs with h
  · rw [FloatVal.gt_iff] at h
    rw [FloatVal.le_iff]
    constructor
    · intro h1; exact ⟨le_trans h.le h1, h1⟩
    · intro h1; exact h1.2
  · rw [Bool.not_eq_true, ← Bool.not_eq_true, FloatVal.gt_iff, not_lt] at h
    rw [FloatVal.le_iff]
    constructor
    · intro h1; exact ⟨h1, le_trans h h1⟩
    · intro h1; exact h1.1

theorem Color.rgbSquares_lt {c o : Color} (hc : c.valid) (ho : o.valid) :
    Color.rgbSquares c o < 2 ^ 24 := by
  obtain ⟨h1, h2, h3, _⟩ := hc
  obtain ⟨h4, h5, h6, _⟩ := ho
  unfold Color.rgbSquares
  have b : ∀ a b : Nat, a < 256 → b < 256 → ((a : Int) - (b : Int)) ^ 2 ≤ 65025 := by
    intro a b ha hb
    have h7 : -255 ≤ (a : Int) - b := by omega
    have h8 : (a : Int) - b ≤ 255 := by omega
    nlinarith
  have := b _ _ h1 h4
  have := b _ _ h2 h5
  have := b _ _ h3 h6
  have hnn : (0 : Int) ≤ ((c.red : Int) - (o.red : Int)) ^ 2 + ((c.green : Int) - (o.green : Int)) ^ 2
    + ((c.blue : Int) - (o.blue : Int)) ^ 2 := by positivity
  omega

theorem Color.rgbSquares_cast (c o : Color) :
    ((Color.rgbSquares c o : Nat) : Int) = ((c.red : Int) - (o.red : Int)) ^ 2
      + ((c.green : Int) - (o.green : Int)) ^ 2 + ((c.blue : Int) - (o.blue : Int)) ^ 2 := by
  unfold Color.rgbSquares
  apply Int.toNat_of_nonneg
  positivity

theorem Color.rgbSquares_eq_zero (c o : Color) :
    Color.rgbSquares c o = 0 ↔ c.red = o.red ∧ c.green = o.green ∧ c.blue = o.blue := by
  have h := Color.rgbSquares_cast c o
  constructor
  · intro h0
    rw [h0] at h
    have h1 : (0 : Int) ≤ ((c.red : Int) - (o.red : Int)) ^ 2 := by positivity
    have h2 : (0 : Int) ≤ ((c.green : Int) - (o.green : Int)) ^ 2 := by positivity
    have h3 : (0 : Int) ≤ ((c.blue : Int) - (o.blue : Int)) ^ 2 := by positivity
    have e1 : ((c.red : Int) - (o.red : Int)) ^ 2 = 0 := by push_cast at h; omega
    have e2 : ((c.green : Int) - (o.green : Int)) ^ 2 = 0 := by push_cast at h; omega
    have e3 : ((c.blue : Int) - (o.blue : Int)) ^ 2 = 0 := by push_cast at h; omega
    rw [pow_eq_zero_iff (by norm_num)] at e1 e2 e3
    omega
  · rintro ⟨h1, h2, h3⟩
    rw [h1, h2, h3] at h
    simp at h
    exact h

theorem FloatVal.toRat_zero : (⟨0, 0⟩ : FloatVal).toRat = 0 := by simp [FloatVal.toRat]

theorem Color.compare_zero_iff (c o : Color) : Color.compare ⟨0, 0⟩ c o = true ↔ c = o := by
  rw [Color.compare_iff, FloatVal.toRat_zero]
  constructor
  · rintro ⟨h1, h2⟩
    have hs : Color.rgbSquares c o = 0 := by
      by_contra hne
      have := sqrtf_pos (Nat.pos_of_ne_zero hne)
      linarith
    obtain ⟨e1, e2, e3⟩ := (Color.rgbSquares_eq_zero c o).1 hs
    have h3 : |(c.alpha : Int) - (o.alpha : Int)| ≤ 0 := by exact_mod_cast h2
    have h4 : (c.alpha : Int) - (o.alpha : Int) = 0 := abs_nonpos_iff.1 h3
    have e4 : c.alpha = o.alpha := by omega
    cases c; cases o; simp_all
  · rintro rfl
    have : Color.rgbSquares c c = 0 := (Color.rgbSquares_eq_zero c c).2 ⟨rfl, rfl, rfl⟩
    rw [this, sqrtf_zero, FloatVal.toRat_zero]; simp

theorem Color.compare_same_colour (c : Color) : Color.compare ⟨0, 0⟩ c c = true :=
  (Color.compare_zero_iff c c).2 rfl

theorem Color.withinThreshold_iff (t : ℚ) (ht : 0 ≤ t) (c o : Color) :
    Color.withinThreshold t c o ↔
      ((Color.rgbSquares c o : Nat) : ℚ) ≤ t ^ 2 ∧ ((|(c.alpha : Int) - (o.alpha : Int)| : Int) : ℚ) ≤ t := by
  unfold Color.withinThreshold
  have htr : (0 : ℝ) ≤ (t : ℝ) := by exact_mod_cast ht
  rw [max_le_iff, Real.sqrt_le_left htr]
  have hc := Color.rgbSquares_cast c o
  have e1 : ((c.red : ℝ) - o.red) ^ 2 + ((c.green : ℝ) - o.green) ^ 2 + ((c.blue : ℝ) - o.blue) ^ 2
      = ((Color.rgbSquares c o : Nat) : ℝ) := by
    have : (((Color.rgbSquares c o : Nat) : Int) : ℝ) = ((((c.red : Int) - (o.red : Int)) ^ 2
      + ((c.green : Int) - (o.green : Int)) ^ 2 + ((c.blue : Int) - (o.blue : Int)) ^ 2 : Int) : ℝ) := by
      rw [hc]
    push_cast at this
    linarith
  have e2 : |(c.alpha : ℝ) - o.alpha| = (((|(c.alpha : Int) - (o.alpha : Int)| : Int) : ℚ) : ℝ) := by
    push_cast; rfl
  rw [e1, e2]
  constructor
  · rintro ⟨h1, h2⟩
    exact ⟨by exact_mod_cast h1, by exact_mod_cast h2⟩
  · rintro ⟨h1, h2⟩
    exact ⟨by exact_mod_cast h1, by exact_mod_cast h2⟩

/-- C10, amended. For two colours with 8-bit channels: under every float
threshold `t`, `Color::compare` is true iff
`max(sqrtf(Δr² + Δg² + Δb²), |Δa|) ≤ t` with `sqrtf` the square root
rounded to binary32; under every threshold that is a natural number it
is true iff the contract of the spec holds over the reals, that is, iff
`Δr² + Δg² + Δb² ≤ t²` and `|Δa| ≤ t`; under threshold 0 it is true iff all
four channels are identical. -/
theorem Color.compare_contract (c1 c2 : Color) (h1 : c1.valid) (h2 : c2.valid) :
    (∀ t : FloatVal, Color.compare t c1 c2 = true ↔
      max (sqrtf (Color.rgbSquares c1 c2)).toRat ((|(c1.alpha : Int) - (c2.alpha : Int)| : Int) : ℚ)
        ≤ t.toRat) ∧
    (∀ t : ℕ, Color.compare (FloatVal.ofNat t) c1 c2 = true ↔ Color.withinThreshold (t : ℚ) c1 c2) ∧
    (∀ t : ℕ, Color.compare (FloatVal.ofNat t) c1 c2 = true ↔
      ((c1.red : Int) - (c2.red : Int)) ^ 2 + ((c1.green : Int) - (c2.green : Int)) ^ 2
        + ((c1.blue : Int) - (c2.blue : Int)) ^ 2 ≤ (t : Int) ^ 2
      ∧ |(c1.alpha : Int) - (c2.alpha : Int)| ≤ (t : Int)) ∧
    (Color.compare (FloatVal.ofNat 0) c1 c2 = true ↔
      c1.red = c2.red ∧ c1.green = c2.green ∧ c1.blue = c2.blue ∧ c1.alpha = c2.alpha) := by
  have key : ∀ t : ℕ, Color.compare (FloatVal.ofNat t) c1 c2 = true ↔
      ((c1.red : Int) - (c2.red : Int)) ^ 2 + ((c1.green : Int) - (c2.green : Int)) ^ 2
        + ((c1.blue : Int) - (c2.blue : Int)) ^ 2 ≤ (t : Int) ^ 2
      ∧ |(c1.alpha : Int) - (c2.alpha : Int)| ≤ (t : Int) := by
    intro t
    rw [Color.compare_iff, FloatVal.toRat_ofNat, sqrtf_le_nat_iff (Color.rgbSquares_lt h1 h2),
      ← Color.rgbSquares_cast]
    constructor
    · rintro ⟨a, b⟩
      refine ⟨?_, by exact_mod_cast b⟩
      have : ((Color.rgbSquares c1 c2 : Nat) : Int) ≤ ((t * t : Nat) : Int) := by exact_mod_cast a
      push_cast at this; nlinarith
    · rintro ⟨a, b⟩
      refine ⟨?_, by exact_mod_cast b⟩
      have : ((Color.rgbSquares c1 c2 : Nat) : Int) ≤ ((t * t : Nat) : Int) := by
        push_cast; nlinarith
      exact_mod_cast this
  refine ⟨?_, ?_, key, ?_⟩
  · intro t
    rw [Color.compare_iff, max_le_iff]
  · intro t
    rw [key t, Color.withinThreshold_iff (t : ℚ) (by positivity), ← Color.rgbSquares_cast]
    constructor
    · rintro ⟨a, b⟩
      refine ⟨?_, by exact_mod_cast b⟩
      have : ((Color.rgbSquares c1 c2 : Nat) : ℚ) ≤ (((t : Int) ^ 2 : Int) : ℚ) := by exact_mod_cast a
      push_cast at this; exact this
    · rintro ⟨a, b⟩
      refine ⟨?_, by exact_mod_cast b⟩
      exact_mod_cast a
  · have : FloatVal.ofNat 0 = ⟨0, 0⟩ := rfl
    rw [this, Color.compare_zero_iff]
    constructor
    · rintro rfl; exact ⟨rfl, rfl, rfl, rfl⟩
    · rintro ⟨a, b, c, d⟩
      cases c1; cases c2; simp_all

/-- The comparator contract applied to two concrete colours at threshold 3. -/
theorem Color.compare_contract_witness :
    (Color.valid ⟨10, 20, 30, 40⟩ ∧ Color.valid ⟨12, 21, 28, 43⟩) ∧
    (Color.compare (FloatVal.ofNat 3) ⟨10, 20, 30, 40⟩ ⟨12, 21, 28, 43⟩ = true ↔
      ((10 : Int) - 12) ^ 2 + ((20 : Int) - 21) ^ 2 + ((30 : Int) - 28) ^ 2 ≤ (3 : Int) ^ 2
        ∧ |(40 : Int) - 43| ≤ (3 : Int)) :=
  ⟨⟨by decide, by decide⟩,
    (Color.compare_contract ⟨10, 20, 30, 40⟩ ⟨12, 21, 28, 43⟩ (by decide) (by decide)).2.2.1 3⟩

/-- C10 as stated fails for a threshold that is not an integer: at
`t = 11863283 / 2^23`, the binary32 value of `sqrtf(2)`, which lies below
`√2`, the colours `(1,1,0,0)` and `(0,0,0,0)` compare equal although
`max(√2, 0) > t`. -/
theorem Color.compare_rounding_counterexample :
    Color.valid ⟨1, 1, 0, 0⟩ ∧ Color.valid ⟨0, 0, 0, 0⟩ ∧
    Color.compare ⟨11863283, 23⟩ ⟨1, 1, 0, 0⟩ ⟨0, 0, 0, 0⟩ = true ∧
    ¬ Color.withinThreshold (FloatVal.toRat ⟨11863283, 23⟩) ⟨1, 1, 0, 0⟩ ⟨0, 0, 0, 0⟩ := by
  refine ⟨by decide, by decide, by decide, ?_⟩
  rw [Color.withinThreshold_iff _ (by simp [FloatVal.toRat]; positivity)]
  have : Color.rgbSquares ⟨1, 1, 0, 0⟩ ⟨0, 0, 0, 0⟩ = 2 := by decide
  rw [this]
  simp only [FloatVal.toRat]
  norm_num

/-! ## The join post-processor -/

theorem joinInner_length (c o : Chunk) : ∀ (rest : List Match) (pr : Match × List Match),
    joinInner c o rest = some pr → pr.2.length + 1 = rest.length := by
  intro rest
  induction rest with
  | nil => intro pr h; simp [joinInner] at h
  | cons m rest ih =>
    intro pr h
    simp only [joinInner] at h
    split_ifs at h with h1 h2 h3
    · simp only [Option.map_eq_some'] at h
      obtain ⟨q, hq, rfl⟩ := h
      simp [ih q hq]
    · simp only [Option.map_eq_some'] at h
      obtain ⟨q, hq, rfl⟩ := h
      simp [ih q hq]
    · simp only [Option.some.injEq] at h
      subst h; simp
    · simp only [Option.map_eq_some'] at h
      obtain ⟨q, hq, rfl⟩ := h
      simp [ih q hq]

theorem joinPass_length : ∀ (l r : List Match), joinPass l = some r → r.length + 1 = l.length := by
  intro l
  induction l with
  | nil => intro r h; simp [joinPass] at h
  | cons m rest ih =>
    intro r h
    simp only [joinPass] at h
    split_ifs at h with h1
    · simp only [Option.map_eq_some'] at h
      obtain ⟨q, hq, rfl⟩ := h
      simp [ih q hq]
    · split at h
      · rename_i pr hpr
        simp only [Option.some.injEq] at h
        subst h
        simp [joinInner_length _ _ _ _ hpr]
      · simp only [Option.map_eq_some'] at h
        obtain ⟨q, hq, rfl⟩ := h
        simp [ih q hq]

theorem joinLoop_fixed : ∀ (fuel : Nat) (l : List Match), l.length < fuel →
    ∃ r, joinLoop fuel l = some r ∧ joinPass r = none ∧ r.length ≤ l.length := by
  intro fuel
  induction fuel with
  | zero => intro l h; omega
  | succ fuel ih =>
    intro l h
    simp only [joinLoop]
    cases hp : joinPass l with
    | none => exact ⟨l, rfl, hp, le_refl _⟩
    | some l1 =>
      have hl := joinPass_length l l1 hp
      obtain ⟨r, h1, h2, h3⟩ := ih l1 (by omega)
      exact ⟨r, h1, h2, by omega⟩

theorem joinChunks_total (l : List Match) :
    ∃ r, joinChunks l = some r ∧ joinPass r = none ∧ r.length ≤ l.length :=
  joinLoop_fixed _ l (Nat.lt_succ_self _)

theorem joinChunks_of_fixed (r : List Match) (h : joinPass r = none) : joinChunks r = some r := by
  simp [joinChunks, joinLoop, h]

/-- C7. `joinChunks` is idempotent: on every match list it returns a list,
and running it on that list returns the same list. -/
theorem joinChunks_idempotent (l : List Match) :
    ∃ r, joinChunks l = some r ∧ joinChunks r = some r := by
  obtain ⟨r, h1, h2, _⟩ := joinChunks_total l
  exact ⟨r, h1, joinChunks_of_fixed r h2⟩

/-! ## The grid generator -/

theorem QRect.intersects_iff (a b : QRect) : a.intersects b = true ↔
    0 < a.w ∧ 0 < a.h ∧ 0 < b.w ∧ 0 < b.h ∧ a.x < b.x + b.w ∧ b.x < a.x + a.w ∧
      a.y < b.y + b.h ∧ b.y < a.y + a.h := by
  simp only [QRect.intersects, QRect.isEmpty, Bool.and_eq_true, Bool.not_eq_true', Bool.or_eq_false_iff,
    beq_eq_false_iff_ne, ne_eq, decide_eq_true_eq]
  constructor
  · rintro ⟨⟨⟨⟨⟨⟨h1, h2⟩, h3, h4⟩, h5⟩, h6⟩, h7⟩, h8⟩
    exact ⟨by omega, by omega, by omega, by omega, h5, h6, h7, h8⟩
  · rintro ⟨h1, h2, h3, h4, h5, h6, h7, h8⟩
    exact ⟨⟨⟨⟨⟨⟨by omega, by omega⟩, by omega, by omega⟩, h5⟩, h6⟩, h7⟩, h8⟩

theorem QRect.intersects_comm (a b : QRect) : a.intersects b = b.intersects a := by
  rw [Bool.eq_iff_iff, QRect.intersects_iff, QRect.intersects_iff]
  constructor <;> (rintro ⟨h1, h2, h3, h4, h5, h6, h7, h8⟩; exact ⟨h3, h4, h1, h2, h6, h5, h8, h7⟩)

/-- Cell `(x, y)` of a non-degenerate grid lies inside the image and has at
least the size of the quotient cells. -/
theorem Image.cellRect_bounds (img : Image) {count x y : Nat} (hx : x < count) (hy : y < count) :
    (img.cellRect count x y).x = x * (img.width / count) ∧
    (img.cellRect count x y).y = y * (img.height / count) ∧
    img.width / count ≤ (img.cellRect count x y).w ∧
    img.height / count ≤ (img.cellRect count x y).h ∧
    (img.cellRect count x y).x + (img.cellRect count x y).w ≤ img.width ∧
    (img.cellRect count x y).y + (img.cellRect count x y).h ≤ img.height ∧
    (x + 1 < count → (img.cellRect count x y).w = img.width / count) ∧
    (y + 1 < count → (img.cellRect count x y).h = img.height / count) := by
  have hw : img.width / count * count ≤ img.width := Nat.div_mul_le_self _ _
  have hh : img.height / count * count ≤ img.height := Nat.div_mul_le_self _ _
  have hxw : (x + 1) * (img.width / count) ≤ img.width / count * count := by
    rw [Nat.mul_comm]; exact Nat.mul_le_mul_left _ hx
  have hyh : (y + 1) * (img.height / count) ≤ img.height / count * count := by
    rw [Nat.mul_comm]; exact Nat.mul_le_mul_left _ hy
  simp only [Image.cellRect]
  refine ⟨trivial, trivial, by omega, by omega, ?_, ?_, ?_, ?_⟩
  · split_ifs with h
    · have : x * (img.width / count) + img.width / count = img.width / count * count := by
        rw [← h]; ring
      omega
    · have : (x + 1) * (img.width / count) = x * (img.width / count) + img.width / count := by ring
      omega
  · split_ifs with h
    · have : y * (img.height / count) + img.height / count = img.height / count * count := by
        rw [← h]; ring
      omega
    · have : (y + 1) * (img.height / count) = y * (img.height / count) + img.height / count := by ring
      omega
  · intro h; rw [if_neg (by omega)]; rfl
  · intro h; rw [if_neg (by omega)]; rfl

/-- Two different cells of one level do not intersect. -/
theorem Image.cellRect_disjoint (img : Image) {count x1 y1 x2 y2 : Nat}
    (hx1 : x1 < count) (hy1 : y1 < count) (hx2 : x2 < count) (hy2 : y2 < count)
    (hne : x1 ≠ x2 ∨ y1 ≠ y2) :
    (img.cellRect count x1 y1).intersects (img.cellRect count x2 y2) = false := by
  rw [← Bool.not_eq_true, QRect.intersects_iff]
  obtain ⟨a1, a2, a3, a4, a5, a6, a7, a8⟩ := img.cellRect_bounds hx1 hy1
  obtain ⟨b1, b2, b3, b4, b5, b6, b7, b8⟩ := img.cellRect_bounds hx2 hy2
  rintro ⟨_, _, _, _, h5, h6, h7, h8⟩
  have key : ∀ (p q u : Nat), p < q → p * u + u ≤ q * u := by
    intro p q u hpq
    have : (p + 1) * u ≤ q * u := Nat.mul_le_mul_right _ hpq
    have : (p + 1) * u = p * u + u := by ring
    omega
  rcases hne with hne | hne
  · rcases Nat.lt_or_gt_of_ne hne with hlt | hgt
    · have := a7 (by omega)
      have := key x1 x2 (img.width / count) hlt
      omega
    · have := b7 (by omega)
      have := key x2 x1 (img.width / count) hgt
      omega
  · rcases Nat.lt_or_gt_of_ne hne with hlt | hgt
    · have := a8 (by omega)
      have := key y1 y2 (img.height / count) hlt
      omega
    · have := b8 (by omega)
      have := key y2 y1 (img.height / count) hgt
      omega

theorem Image.chunks_one (minSize : Nat) (img : Image) (filter : QRegion) :
    img.chunks minSize 1 filter = [img.chunk img.rect] := by
  simp [Image.chunks]

theorem Image.chunks_grid (minSize : Nat) (img : Image) (count : Nat) (filter : QRegion)
    (h1 : count ≠ 1) (hw : minSize ≤ img.width / count) (hh : minSize ≤ img.height / count) :
    img.chunks minSize count filter = (List.range (count * count)).map fun idx =>
      if !filter.intersects (img.cellRect count (idx % count) (idx / count))
      then img.chunk (img.cellRect count (idx % count) (idx / count)) else Chunk.null := by
  simp only [Image.chunks, if_neg h1]
  rw [if_neg (by omega)]

theorem Image.chunks_stop (minSize : Nat) (img : Image) (count : Nat) (filter : QRegion)
    (h1 : count ≠ 1) (h : img.width / count < minSize ∨ img.height / count < minSize) :
    img.chunks minSize count filter = [] := by
  simp only [Image.chunks, if_neg h1]
  rw [if_pos h]

/-- The grid is empty exactly at a level other than 1 whose cells would be
smaller than `minSize`. -/
theorem Image.chunks_isEmpty_iff {minSize : Nat} (hm : 1 ≤ minSize) (img : Image) (count : Nat)
    (filter : QRegion) :
    (img.chunks minSize count filter).isEmpty = true ↔
      count ≠ 1 ∧ (img.width / count < minSize ∨ img.height / count < minSize) := by
  by_cases h1 : count = 1
  · subst h1; simp [Image.chunks_one]
  · by_cases h : img.width / count < minSize ∨ img.height / count < minSize
    · simp [Image.chunks_stop minSize img count filter h1 h, h1, h]
    · have hw : minSize ≤ img.width / count := by omega
      have hh : minSize ≤ img.height / count := by omega
      rw [Image.chunks_grid minSize img count filter h1 hw hh]
      have hc : 0 < count := by
        rcases Nat.eq_zero_or_pos count with h0 | h0
        · subst h0; simp at hw; omega
        · exact h0
      have : 0 < count * count := Nat.mul_pos hc hc
      simp [h1, h, List.isEmpty_iff]
      omega

/-! ## The level driver: termination -/

theorem levelStep_eq_none_iff {minSize : Nat} (hm : 1 ≤ minSize) (t : FloatVal) (range : Nat)
    (oldImage newImage : Image) (st : DriverState) :
    levelStep t minSize range oldImage newImage st = none ↔ stopsAt minSize newImage st.count := by
  unfold levelStep stopsAt
  rw [← Image.chunks_isEmpty_iff hm newImage st.count st.used]
  by_cases h : (newImage.chunks minSize st.count st.used).isEmpty = true
  · simp [h]
  · simp [h]

theorem levelStep_count {t : FloatVal} {minSize range : Nat} {oldImage newImage : Image}
    {st st1 : DriverState} (h : levelStep t minSize range oldImage newImage st = some st1) :
    st1.count = st.count + 1 := by
  unfold levelStep at h
  simp only at h
  split_ifs at h
  simp only [Option.some.injEq] at h
  rw [← h]

/-- With enough fuel the loop exits, at the first level from `st.count` on
that meets the exit condition. -/
theorem levelLoop_exits {minSize : Nat} (hm : 1 ≤ minSize) (t : FloatVal) (range : Nat)
    (oldImage newImage : Image) : ∀ (fuel : Nat) (st : DriverState) (c : Nat),
    st.count ≤ c → stopsAt minSize newImage c → c - st.count < fuel →
    ∃ st1, levelLoop t minSize range oldImage newImage fuel st = some st1 ∧
      st.count ≤ st1.count ∧ stopsAt minSize newImage st1.count ∧
      ∀ k, st.count ≤ k → k < st1.count → ¬ stopsAt minSize newImage k := by
  intro fuel
  induction fuel with
  | zero => intro st c _ _ h; omega
  | succ fuel ih =>
    intro st c hc hs hf
    simp only [levelLoop]
    cases hstep : levelStep t minSize range oldImage newImage st with
    | none =>
      refine ⟨st, rfl, le_refl _, (levelStep_eq_none_iff hm t range oldImage newImage st).1 hstep, ?_⟩
      intro k h1 h2; omega
    | some st1 =>
      have hcnt := levelStep_count hstep
      have hns : ¬ stopsAt minSize newImage st.count := by
        intro h
        rw [← levelStep_eq_none_iff hm t range oldImage newImage st, hstep] at h
        exact Option.noConfusion h
      have hne : st.count ≠ c := by
        intro h; rw [h] at hns; exact hns hs
      obtain ⟨st2, h1, h2, h3, h4⟩ := ih st1 c (by omega) hs (by omega)
      refine ⟨st2, h1, by omega, h3, ?_⟩
      intro k hk1 hk2
      rcases Nat.eq_or_lt_of_le hk1 with he | hl
      · rw [← he]; exact hns
      · exact h4 k (by omega) hk2

theorem stopsAt_iff_min (minSize : Nat) (img : Image) (count : Nat) (hc : 2 ≤ count) :
    stopsAt minSize img count ↔ min img.width img.height / count < minSize := by
  unfold stopsAt
  have h1 : count ≠ 1 := by omega
  rcases Nat.le_total img.width img.height with h | h
  · rw [Nat.min_eq_left h]
    have := Nat.div_le_div_right (c := count) h
    constructor
    · rintro ⟨_, h2 | h2⟩ <;> omega
    · intro h2; exact ⟨h1, Or.inl h2⟩
  · rw [Nat.min_eq_right h]
    have := Nat.div_le_div_right (c := count) h
    constructor
    · rintro ⟨_, h2 | h2⟩ <;> omega
    · intro h2; exact ⟨h1, Or.inr h2⟩

theorem levelDriver_exits {minSize : Nat} (hm : 1 ≤ minSize) (t : FloatVal) (range : Nat)
    (oldImage newImage : Image) :
    ∃ st, levelDriver t minSize range oldImage newImage = some st ∧ 2 ≤ st.count ∧
      stopsAt minSize newImage st.count ∧
      ∀ k, 1 ≤ k → k < st.count → ¬ stopsAt minSize newImage k := by
  have hstop : stopsAt minSize newImage (newImage.width + 2) := by
    refine ⟨by omega, Or.inl ?_⟩
    rw [Nat.div_eq_of_lt (by omega)]; omega
  obtain ⟨st, h1, h2, h3, h4⟩ := levelLoop_exits hm t range oldImage newImage
    (newImage.width + 2) DriverState.init (newImage.width + 2) (by simp [DriverState.init])
    hstop (by simp [DriverState.init])
  refine ⟨st, h1, ?_, h3, ?_⟩
  · rcases Nat.lt_or_ge st.count 2 with h | h
    · have h5 : st.count = 1 := by simp [DriverState.init] at h2; omega
      exact absurd h5 h3.1
    · exact h
  · intro k hk1 hk2; exact h4 k (by simpa [DriverState.init] using hk1) hk2

/-- With the assertions compiled out, the level driver terminates for
every image size and every `minSize` at least 1, and the `count` at which
it stops is the smallest count `≥ 2` with `⌊min(W,H)/count⌋ < minSize`. For
an image that is at least `minSize` wide and high it is also the smallest
such count `≥ 1`. -/
theorem levelDriver_stop_count (threshold : FloatVal) (minSize range : Nat)
    (oldImage newImage : Image) (hm : 1 ≤ minSize) :
    ∃ st, levelDriver threshold minSize range oldImage newImage = some st ∧
      2 ≤ st.count ∧ min newImage.width newImage.height / st.count < minSize ∧
      (∀ k, 2 ≤ k → min newImage.width newImage.height / k < minSize → st.count ≤ k) ∧
      (minSize ≤ min newImage.width newImage.height →
        ∀ k, 1 ≤ k → min newImage.width newImage.height / k < minSize → st.count ≤ k) := by
  obtain ⟨st, h1, h2, h3, h4⟩ := levelDriver_exits hm threshold range oldImage newImage
  have hleast : ∀ k, 2 ≤ k → min newImage.width newImage.height / k < minSize → st.count ≤ k := by
    intro k hk hmin
    by_contra hlt
    exact h4 k (by omega) (by omega) ((stopsAt_iff_min minSize newImage k hk).2 hmin)
  refine ⟨st, h1, h2, (stopsAt_iff_min minSize newImage st.count h2).1 h3, hleast, ?_⟩
  intro hbig k hk hmin
  rcases Nat.eq_or_lt_of_le hk with h | h
  · rw [← h, Nat.div_one] at hmin; omega
  · exact hleast k h hmin

/-! ## The level driver: what one level records -/

/-- The region after uniting the new-side rectangles of `added` into `u`. -/
theorem foldl_united_mem (added : List Match) : ∀ (u : QRegion),
    (∀ q ∈ u, q ∈ added.foldl (fun v m => QRegion.united v m.1.rect) u) ∧
    (∀ m ∈ added, m.1.rect.isEmpty = false →
      m.1.rect ∈ added.foldl (fun v m => QRegion.united v m.1.rect) u) ∧
    (∀ q ∈ added.foldl (fun v m => QRegion.united v m.1.rect) u,
      q ∈ u ∨ ∃ m ∈ added, q = m.1.rect) := by
  induction added with
  | nil => intro u; simp
  | cons a rest ih =>
    intro u
    obtain ⟨h1, h2, h3⟩ := ih (QRegion.united u a.1.rect)
    simp only [List.foldl_cons]
    have hsub : ∀ q ∈ u, q ∈ QRegion.united u a.1.rect := by
      intro q hq; unfold QRegion.united; split_ifs <;> simp [hq]
    refine ⟨fun q hq => h1 q (hsub q hq), ?_, ?_⟩
    · intro m hm hne
      rcases List.mem_cons.1 hm with rfl | hm
      · apply h1; unfold QRegion.united; simp [hne]
      · exact h2 m hm hne
    · intro q hq
      rcases h3 q hq with h | ⟨m, hm, rfl⟩
      · unfold QRegion.united at h
        split_ifs at h
        · exact Or.inl h
        · rcases List.mem_append.1 h with h | h
          · exact Or.inl h
          · right; exact ⟨a, List.mem_cons_self _ _, by simpa using h⟩
      · right; exact ⟨m, List.mem_cons_of_mem _ hm, rfl⟩

/-- The loop over the new chunks appends matches whose new-side chunks are,
in order, some of the non-null chunks of the level, and unites their
rectangles into `used`. -/
theorem matchChunks_spec (t : FloatVal) (range count : Nat) (oldChunks : List Chunk) :
    ∀ (cs : List Chunk) (i : Nat) (acc : List Match × QRegion),
    ∃ added : List Match,
      (matchChunks t range count oldChunks i cs acc).1 = acc.1 ++ added ∧
      (matchChunks t range count oldChunks i cs acc).2
        = added.foldl (fun v m => QRegion.united v m.1.rect) acc.2 ∧
      List.Sublist (added.map Prod.fst) (cs.filter fun c => !c.isNull) := by
  intro cs
  induction cs with
  | nil => intro i acc; exact ⟨[], by simp [matchChunks]⟩
  | cons c rest ih =>
    intro i acc
    simp only [matchChunks]
    obtain ⟨added, h1, h2, h3⟩ := ih (i + 1) (matchStep t range count oldChunks i c acc)
    unfold matchStep at h1 h2 ⊢
    by_cases hn : c.isNull = true
    · simp only [hn, if_true] at h1 h2 ⊢
      refine ⟨added, h1, h2, ?_⟩
      simpa [List.filter_cons, hn] using h3
    · simp only [hn] at h1 h2 ⊢
      cases hf : findMatch t c oldChunks (chunkIndexes range count i) with
      | none =>
        simp only [hf, if_false] at h1 h2 ⊢
        refine ⟨added, h1, h2, ?_⟩
        have : (List.filter (fun c => !c.isNull) (c :: rest)) = c :: List.filter (fun c => !c.isNull) rest := by
          simp [List.filter_cons, hn]
        rw [this]
        exact List.Sublist.cons _ h3
      | some o =>
        simp only [hf, if_false] at h1 h2 ⊢
        refine ⟨(c, o) :: added, ?_, ?_, ?_⟩
        · rw [h1]; simp
        · rw [h2]; simp
        · have : (List.filter (fun c => !c.isNull) (c :: rest)) = c :: List.filter (fun c => !c.isNull) rest := by
            simp [List.filter_cons, hn]
          rw [this]
          simpa using List.Sublist.cons₂ c h3

/-! ## The level driver: recorded matches never overlap -/

theorem Image.chunk_rect (img : Image) (r : QRect) : (img.chunk r).rect = r := rfl

theorem Image.chunk_isNull (img : Image) (r : QRect) : (img.chunk r).isNull = false := rfl

/-- The non-null chunks of one level: none meets the filter, and no two
intersect. -/
theorem Image.chunks_nonnull (minSize : Nat) (img : Image) (count : Nat) (filter : QRegion)
    (h1 : count ≠ 1) :
    (∀ c ∈ (img.chunks minSize count filter).filter (fun c => !c.isNull),
      filter.intersects c.rect = false) ∧
    List.Pairwise (fun a b : Chunk => a.rect.intersects b.rect = false)
      ((img.chunks minSize count filter).filter fun c => !c.isNull) := by
  by_cases hs : img.width / count < minSize ∨ img.height / count < minSize
  · rw [Image.chunks_stop minSize img count filter h1 hs]; simp
  have hw : minSize ≤ img.width / count := by omega
  have hh : minSize ≤ img.height / count := by omega
  rw [Image.chunks_grid minSize img count filter h1 hw hh]
  constructor
  · intro c hc
    rw [List.mem_filter, List.mem_map] at hc
    obtain ⟨⟨idx, _, rfl⟩, hnn⟩ := hc
    by_cases hf : filter.intersects (img.cellRect count (idx % count) (idx / count)) = true
    · simp [hf, Chunk.null, Chunk.isNull] at hnn
    · simp only [hf]
      simpa [Image.chunk_rect] using hf
  · apply List.Pairwise.sublist (List.filter_sublist _)
    rw [List.pairwise_map]
    apply List.Pairwise.imp_of_mem _ (List.pairwise_lt_range (count * count))
    intro i j hi hj hij
    rw [List.mem_range] at hi hj
    have hc : 0 < count := by
      rcases Nat.eq_zero_or_pos count with h0 | h0
      · subst h0; simp at hi
      · exact h0
    by_cases hfi : filter.intersects (img.cellRect count (i % count) (i / count)) = true
    · simp [hfi, Chunk.null, Chunk.rect, QRect.null, QRect.intersects, QRect.isEmpty]
    by_cases hfj : filter.intersects (img.cellRect count (j % count) (j / count)) = true
    · simp [hfj, Chunk.null, Chunk.rect, QRect.null, QRect.intersects, QRect.isEmpty]
    simp only [hfi, hfj, Bool.not_false, if_true, Image.chunk_rect]
    apply Image.cellRect_disjoint img (Nat.mod_lt _ hc) (Nat.div_lt_of_lt_mul hi)
      (Nat.mod_lt _ hc) (Nat.div_lt_of_lt_mul hj)
    by_contra hcon
    push_neg at hcon
    have e1 := Nat.mod_add_div i count
    have e2 := Nat.mod_add_div j count
    rw [hcon.1, hcon.2] at e1
    omega

theorem levelStep_spec {t : FloatVal} {minSize range : Nat} {oldImage newImage : Image}
    {st st1 : DriverState} (h : levelStep t minSize range oldImage newImage st = some st1) :
    ∃ added : List Match,
      st1.matchList = st.matchList ++ added ∧
      st1.used = added.foldl (fun v m => QRegion.united v m.1.rect) st.used ∧
      st1.count = st.count + 1 ∧
      List.Sublist (added.map Prod.fst)
        ((newImage.chunks minSize st.count st.used).filter fun c => !c.isNull) := by
  unfold levelStep at h
  simp only at h
  split_ifs at h
  simp only [Option.some.injEq] at h
  obtain ⟨added, h1, h2, h3⟩ := matchChunks_spec t range st.count
    (oldImage.chunks minSize st.count QRegion.empty)
    (newImage.chunks minSize st.count st.used) 0 (st.matchList, st.used)
  refine ⟨added, ?_, ?_, ?_, h3⟩
  · rw [← h]; exact h1
  · rw [← h]; exact h2
  · rw [← h]

/-- A match recorded at a level has a new-side rectangle that does not meet
the region used before the level. -/
theorem levelStep_added_avoid {minSize : Nat} {newImage : Image}
    {st : DriverState} (hinv : st.count = 1 → st.matchList = [] ∧ st.used = [])
    {added : List Match}
    (hsub : List.Sublist (added.map Prod.fst)
      ((newImage.chunks minSize st.count st.used).filter fun c => !c.isNull)) :
    ∀ m ∈ added, QRegion.intersects st.used m.1.rect = false := by
  intro m hm
  by_cases h1 : st.count = 1
  · rw [(hinv h1).2]; rfl
  · have hmem : m.1 ∈ (newImage.chunks minSize st.count st.used).filter fun c => !c.isNull :=
      hsub.subset (List.mem_map_of_mem _ hm)
    exact (Image.chunks_nonnull minSize newImage st.count st.used h1).1 _ hmem

theorem levelStep_inv {t : FloatVal} {minSize range : Nat} {oldImage newImage : Image}
    {st st1 : DriverState} (h : levelStep t minSize range oldImage newImage st = some st1)
    (hinv : DriverInv st) : DriverInv st1 := by
  obtain ⟨hd, hu, h1, hpos⟩ := hinv
  obtain ⟨added, e1, e2, e3, hsub⟩ := levelStep_spec h
  have havoid := levelStep_added_avoid h1 hsub
  have hfold := foldl_united_mem added st.used
  refine ⟨?_, ?_, ?_, by omega⟩
  · -- pairwise
    unfold newRectsDisjoint at hd ⊢
    rw [e1, List.map_append, List.pairwise_append]
    refine ⟨hd, ?_, ?_⟩
    · have hp : List.Pairwise (fun a b : Chunk => a.rect.intersects b.rect = false)
          ((newImage.chunks minSize st.count st.used).filter fun c => !c.isNull) := by
        by_cases hc : st.count = 1
        · rw [hc, Image.chunks_one]
          simp [List.filter_cons]
          split_ifs <;> simp
        · exact (Image.chunks_nonnull minSize newImage st.count st.used hc).2
      have hp2 := hp.sublist hsub
      rw [List.pairwise_map] at hp2 ⊢
      exact hp2
    · intro a ha b hb
      rw [List.mem_map] at ha hb
      obtain ⟨m, hm, rfl⟩ := ha
      obtain ⟨m2, hm2, rfl⟩ := hb
      by_contra hcon
      rw [Bool.not_eq_false] at hcon
      have := hu m hm _ hcon
      rw [havoid m2 hm2] at this
      exact Bool.noConfusion this
  · intro m hm r hr
    rw [e1] at hm
    rw [e2]
    unfold QRegion.intersects
    rw [List.any_eq_true]
    rcases List.mem_append.1 hm with hm | hm
    · have := hu m hm r hr
      unfold QRegion.intersects at this
      rw [List.any_eq_true] at this
      obtain ⟨q, hq, hqr⟩ := this
      exact ⟨q, hfold.1 q hq, hqr⟩
    · have hne : m.1.rect.isEmpty = false := by
        have := (QRect.intersects_iff _ _).1 hr
        simp only [QRect.isEmpty, Bool.or_eq_false_iff, beq_eq_false_iff_ne]
        omega
      exact ⟨m.1.rect, hfold.2.1 m hm hne, hr⟩
  · intro hc; exfalso; omega

theorem DriverInv_init : DriverInv DriverState.init := by
  refine ⟨?_, ?_, ?_, le_refl _⟩
  · simp [newRectsDisjoint, DriverState.init]
  · intro m hm; simp [DriverState.init] at hm
  · intro _; exact ⟨rfl, rfl⟩

theorem levelIter_inv (t : FloatVal) (minSize range : Nat) (oldImage newImage : Image) :
    ∀ (n : Nat) (st : DriverState),
      levelIter t minSize range oldImage newImage n = some st → DriverInv st := by
  intro n
  induction n with
  | zero =>
    intro st h
    simp only [levelIter, Option.some.injEq] at h
    rw [← h]; exact DriverInv_init
  | succ n ih =>
    intro st h
    simp only [levelIter, Option.bind_eq_some] at h
    obtain ⟨s0, h0, hs⟩ := h
    exact levelStep_inv hs (ih s0 h0)

/-- The state in which the loop exits is the state after some number of
completed iterations. -/
theorem levelLoop_iter (t : FloatVal) (minSize range : Nat) (oldImage newImage : Image) :
    ∀ (fuel n : Nat) (st st1 : DriverState),
      levelIter t minSize range oldImage newImage n = some st →
      levelLoop t minSize range oldImage newImage fuel st = some st1 →
      ∃ k, levelIter t minSize range oldImage newImage k = some st1 := by
  intro fuel
  induction fuel with
  | zero => intro n st st1 _ h; simp [levelLoop] at h
  | succ fuel ih =>
    intro n st st1 hn h
    simp only [levelLoop] at h
    cases hs : levelStep t minSize range oldImage newImage st with
    | none =>
      rw [hs] at h
      simp only [Option.some.injEq] at h
      exact ⟨n, by rw [← h]; exact hn⟩
    | some s2 =>
      rw [hs] at h
      apply ih (n + 1) s2 st1 _ h
      simp only [levelIter, hn, Option.some_bind]
      exact hs

theorem levelDriver_iter {t : FloatVal} {minSize range : Nat} {oldImage newImage : Image}
    {st : DriverState} (h : levelDriver t minSize range oldImage newImage = some st) :
    ∃ k, levelIter t minSize range oldImage newImage k = some st :=
  levelLoop_iter t minSize range oldImage newImage _ 0 DriverState.init st rfl h

theorem levelDriver_inv {t : FloatVal} {minSize range : Nat} {oldImage newImage : Image}
    {st : DriverState} (h : levelDriver t minSize range oldImage newImage = some st) :
    DriverInv st := by
  obtain ⟨k, hk⟩ := levelDriver_iter h
  exact levelIter_inv t minSize range oldImage newImage k st hk

/-- Two rectangles that share a pixel intersect. -/
theorem QRect.intersects_of_contains {a b : QRect} {px py : Nat}
    (ha : a.contains px py = true) (hb : b.contains px py = true) : a.intersects b = true := by
  simp only [QRect.contains, Bool.and_eq_true, decide_eq_true_eq] at ha hb
  rw [QRect.intersects_iff]
  omega

theorem newRectsDisjoint_pixels {ms : List Match} (h : newRectsDisjoint ms) :
    List.Pairwise (fun a b : QRect => ∀ px py, ¬ (a.contains px py = true ∧ b.contains px py = true))
      (ms.map fun m => m.1.rect) := by
  apply List.Pairwise.imp _ h
  intro a b hab px py hc
  rw [QRect.intersects_of_contains hc.1 hc.2] at hab
  exact Bool.noConfusion hab

theorem Image.chunks_getD_null (minSize : Nat) (img : Image) (count : Nat) (filter : QRegion)
    (idx : Nat) (h1 : count ≠ 1) (hidx : idx < count * count)
    (hf : filter.intersects (img.cellRect count (idx % count) (idx / count)) = true) :
    (img.chunks minSize count filter).getD idx Chunk.null = Chunk.null := by
  by_cases hs : img.width / count < minSize ∨ img.height / count < minSize
  · rw [Image.chunks_stop minSize img count filter h1 hs]; rfl
  have hw : minSize ≤ img.width / count := by omega
  have hh : minSize ≤ img.height / count := by omega
  rw [Image.chunks_grid minSize img count filter h1 hw hh]
  rw [List.getD_eq_getElem?_getD, List.getElem?_map, List.getElem?_range hidx]
  simp [hf]

/-- C9. After every number of completed iterations of the level driver, and
in the state in which it stops, no two recorded matches have intersecting
new-side rectangles, so no pixel lies in two of them. The matches a level adds have new-side rectangles that
do not meet the region used before the level; a cell that meets the filter
is a null slot of the grid; two different cells of one level do not
intersect. -/
theorem levelDriver_new_rects_disjoint (threshold : FloatVal) (minSize range : Nat)
    (oldImage newImage : Image) :
    (∀ n st, levelIter threshold minSize range oldImage newImage n = some st →
      newRectsDisjoint st.matchList) ∧
    (∀ st, levelDriver threshold minSize range oldImage newImage = some st →
      newRectsDisjoint st.matchList) ∧
    (∀ n st, levelIter threshold minSize range oldImage newImage n = some st →
      List.Pairwise
        (fun a b : QRect => ∀ px py, ¬ (a.contains px py = true ∧ b.contains px py = true))
        (st.matchList.map fun m => m.1.rect)) ∧
    (∀ n st st1, levelIter threshold minSize range oldImage newImage n = some st →
      levelStep threshold minSize range oldImage newImage st = some st1 →
      ∃ added, st1.matchList = st.matchList ++ added ∧
        ∀ m ∈ added, QRegion.intersects st.used m.1.rect = false) ∧
    (∀ count filter idx, count ≠ 1 → idx < count * count →
      QRegion.intersects filter (newImage.cellRect count (idx % count) (idx / count)) = true →
      (newImage.chunks minSize count filter).getD idx Chunk.null = Chunk.null) ∧
    (∀ count x1 y1 x2 y2, x1 < count → y1 < count → x2 < count → y2 < count →
      (x1 ≠ x2 ∨ y1 ≠ y2) →
      (newImage.cellRect count x1 y1).intersects (newImage.cellRect count x2 y2) = false) := by
  refine ⟨?_, ?_, ?_, ?_, ?_, ?_⟩
  · intro n st h; exact (levelIter_inv _ _ _ _ _ n st h).1
  · intro st h; exact (levelDriver_inv h).1
  · intro n st h; exact newRectsDisjoint_pixels (levelIter_inv _ _ _ _ _ n st h).1
  · intro n st st1 hn hs
    obtain ⟨added, e1, _, _, hsub⟩ := levelStep_spec hs
    exact ⟨added, e1, levelStep_added_avoid
      (levelIter_inv _ _ _ _ _ n st hn).2.2.1 hsub⟩
  · intro count filter idx h1 hidx hf
    exact Image.chunks_getD_null minSize newImage count filter idx h1 hidx hf
  · intro count x1 y1 x2 y2 a b c d e
    exact Image.cellRect_disjoint newImage a b c d e

/-! ## The size assertion of the driver -/

/-- At every level but the first the assertion holds for the whole grid. -/
theorem levelAssert_grid (minSize : Nat) (img : Image) (count : Nat) (filter : QRegion)
    (h1 : count ≠ 1) : levelAssert minSize (img.chunks minSize count filter) = true := by
  by_cases hs : img.width / count < minSize ∨ img.height / count < minSize
  · rw [Image.chunks_stop minSize img count filter h1 hs]; rfl
  have hw : minSize ≤ img.width / count := by omega
  have hh : minSize ≤ img.height / count := by omega
  rw [Image.chunks_grid minSize img count filter h1 hw hh]
  unfold levelAssert
  rw [List.all_eq_true]
  intro c hc
  rw [List.mem_map] at hc
  obtain ⟨idx, hidx, rfl⟩ := hc
  rw [List.mem_range] at hidx
  have hc0 : 0 < count := by
    rcases Nat.eq_zero_or_pos count with h0 | h0
    · subst h0; simp at hidx
    · exact h0
  obtain ⟨_, _, a3, a4, _, _, _, _⟩ :=
    img.cellRect_bounds (Nat.mod_lt idx hc0) (Nat.div_lt_of_lt_mul hidx)
  split_ifs
  · have e1 : (img.chunk (img.cellRect count (idx % count) (idx / count))).width
        = (img.cellRect count (idx % count) (idx / count)).w := rfl
    have e2 : (img.chunk (img.cellRect count (idx % count) (idx / count))).height
        = (img.cellRect count (idx % count) (idx / count)).h := rfl
    rw [e1, e2, Image.chunk_isNull]
    simp only [Bool.false_or, Bool.and_eq_true, decide_eq_true_eq]
    omega
  · rfl

/-- At level 1 the assertion says that the image is at least `minSize` wide
and high. -/
theorem levelAssert_one (minSize : Nat) (img : Image) (filter : QRegion) :
    levelAssert minSize (img.chunks minSize 1 filter) = true ↔
      minSize ≤ img.width ∧ minSize ≤ img.height := by
  rw [Image.chunks_one]
  have e1 : (img.chunk img.rect).width = img.width := rfl
  have e2 : (img.chunk img.rect).height = img.height := rfl
  simp [levelAssert, Image.chunk_isNull, e1, e2]

/-- The size assertion of the driver holds throughout the run exactly for
images that are at least `minSize` wide and high. -/
theorem driverAssertsHold_iff (t : FloatVal) (minSize range : Nat) (oldImage newImage : Image) :
    driverAssertsHold t minSize range oldImage newImage ↔
      minSize ≤ newImage.width ∧ minSize ≤ newImage.height := by
  constructor
  · intro h
    exact (levelAssert_one minSize newImage _).1 (h 0 DriverState.init rfl)
  · intro h n st _
    by_cases h1 : st.count = 1
    · rw [h1]; exact (levelAssert_one minSize newImage _).2 h
    · exact levelAssert_grid minSize newImage st.count st.used h1

/-! ## Images that match as a whole -/

theorem chunkIndexesAdd_one (xo yo : Int) (h : xo ≠ 0 ∨ yo ≠ 0) :
    chunkIndexesAdd 1 0 0 xo yo = [] := by
  unfold chunkIndexesAdd
  simp only [zero_add, Nat.cast_one]
  by_cases hx : xo < 0 ∨ xo ≥ 1
  · rw [if_pos hx]
  · rw [if_neg hx]
    have hy : yo < 0 ∨ yo ≥ 1 := by omega
    rw [if_pos hy]

theorem chunkIndexes_one (range : Nat) : chunkIndexes range 1 0 = [0] := by
  have h0 : chunkIndexesAdd 1 0 0 0 0 = [0] := by
    simp [chunkIndexesAdd]
  have h1 : ((offsets range).flatMap fun yo => (offsets range).flatMap fun xo =>
      if xo ≠ 0 ∨ yo ≠ 0 then chunkIndexesAdd 1 0 0 xo yo else []) = [] := by
    rw [List.flatMap_eq_nil_iff]
    intro yo _
    rw [List.flatMap_eq_nil_iff]
    intro xo _
    split_ifs with h
    · exact chunkIndexesAdd_one xo yo h
    · rfl
  show chunkIndexesAdd 1 0 0 0 0 ++ ((offsets range).flatMap fun yo =>
    (offsets range).flatMap fun xo =>
      if xo ≠ 0 ∨ yo ≠ 0 then chunkIndexesAdd 1 0 0 xo yo else []) = [0]
  rw [h0, h1]; rfl

theorem Chunk.compare_of_forall (t : FloatVal) (c o : Chunk)
    (h : ∀ x y, x < c.width → y < c.height →
      Color.compare t (c.color x y) (o.color x y) = true) :
    Chunk.compare t c o = true := by
  unfold Chunk.compare
  split_ifs
  · rfl
  · simp only [List.all_eq_true, List.mem_range]
    intro y hy x hx
    exact h x y hx hy

theorem Chunk.compare_same_chunk (c : Chunk) : Chunk.compare ⟨0, 0⟩ c c = true :=
  Chunk.compare_of_forall _ c c fun _ _ _ _ => Color.compare_same_colour _

theorem findMatch_whole {t : FloatVal} {c o : Chunk} (range : Nat)
    (hsize : o.size = c.size) (hcmp : Chunk.compare t c o = true) :
    findMatch t c [o] (chunkIndexes range 1 0) = some o := by
  rw [chunkIndexes_one]
  simp [findMatch, hsize, hcmp]

theorem levelStep_init_whole (t : FloatVal) (oldImage newImage : Image) (minSize range : Nat)
    (hW : 1 ≤ newImage.width) (hH : 1 ≤ newImage.height)
    (hw : oldImage.width = newImage.width) (hh : oldImage.height = newImage.height)
    (hcmp : Chunk.compare t (newImage.chunk newImage.rect) (oldImage.chunk oldImage.rect) = true) :
    levelStep t minSize range oldImage newImage DriverState.init
      = some ⟨[(newImage.chunk newImage.rect, oldImage.chunk oldImage.rect)],
          [newImage.rect], 2⟩ := by
  have hne : newImage.rect.isEmpty = false := by
    simp only [Image.rect, QRect.isEmpty, Bool.or_eq_false_iff, beq_eq_false_iff_ne]
    omega
  have hsize : (oldImage.chunk oldImage.rect).size = (newImage.chunk newImage.rect).size := by
    show (oldImage.width, oldImage.height) = (newImage.width, newImage.height)
    rw [hw, hh]
  simp only [levelStep, DriverState.init, Image.chunks_one, List.isEmpty_cons, matchChunks,
    matchStep, Image.chunk_isNull, findMatch_whole range hsize hcmp, Image.chunk_rect,
    QRegion.united, hne, QRegion.empty]
  simp

/-- Every cell of a grid with non-empty cells meets the whole image. -/
theorem Image.cellRect_meets_rect (img : Image) {count idx : Nat} (hidx : idx < count * count)
    (hw : 1 ≤ img.width / count) (hh : 1 ≤ img.height / count) :
    QRegion.intersects [img.rect] (img.cellRect count (idx % count) (idx / count)) = true := by
  have hc : 0 < count := by
    rcases Nat.eq_zero_or_pos count with h0 | h0
    · subst h0; simp at hidx
    · exact h0
  obtain ⟨a1, a2, a3, a4, a5, a6, _, _⟩ :=
    img.cellRect_bounds (Nat.mod_lt idx hc) (Nat.div_lt_of_lt_mul hidx)
  simp only [QRegion.intersects, List.any_cons, List.any_nil, Bool.or_false]
  rw [QRect.intersects_iff]
  simp only [Image.rect]
  refine ⟨?_, ?_, ?_, ?_, ?_, ?_, ?_, ?_⟩ <;> omega

theorem Image.chunks_all_null (minSize : Nat) (hm : 1 ≤ minSize) (img : Image) (count : Nat)
    (h1 : count ≠ 1) :
    (img.chunks minSize count [img.rect]).filter (fun c => !c.isNull) = [] := by
  by_cases hs : img.width / count < minSize ∨ img.height / count < minSize
  · rw [Image.chunks_stop minSize img count _ h1 hs]; rfl
  have hw : minSize ≤ img.width / count := by omega
  have hh : minSize ≤ img.height / count := by omega
  rw [Image.chunks_grid minSize img count _ h1 hw hh, List.filter_eq_nil_iff]
  intro c hc
  rw [List.mem_map] at hc
  obtain ⟨idx, hidx, rfl⟩ := hc
  rw [List.mem_range] at hidx
  rw [Image.cellRect_meets_rect img hidx (by omega) (by omega)]
  simp [Chunk.null, Chunk.isNull]

theorem levelStep_whole (t : FloatVal) (oldImage newImage : Image) (minSize range : Nat)
    (hW : 1 ≤ newImage.width) (hH : 1 ≤ newImage.height) (hm : 1 ≤ minSize)
    (hw : oldImage.width = newImage.width) (hh : oldImage.height = newImage.height)
    (hcmp : Chunk.compare t (newImage.chunk newImage.rect) (oldImage.chunk oldImage.rect) = true)
    {st st1 : DriverState}
    (h : levelStep t minSize range oldImage newImage st = some st1)
    (hinv : WholeMatchInv oldImage newImage st) :
    WholeMatchInv oldImage newImage st1 := by
  rcases hinv with rfl | ⟨e1, e2, e3⟩
  · rw [levelStep_init_whole t oldImage newImage minSize range hW hH hw hh hcmp] at h
    simp only [Option.some.injEq] at h
    right; rw [← h]; exact ⟨rfl, rfl, le_refl _⟩
  · obtain ⟨added, a1, a2, a3, hsub⟩ := levelStep_spec h
    rw [e2, Image.chunks_all_null minSize hm newImage st.count (by omega)] at hsub
    have hnil : added = [] := by
      have := List.eq_nil_of_sublist_nil hsub
      simpa using this
    subst hnil
    right
    refine ⟨by rw [a1, e1]; simp, by rw [a2, e2]; rfl, by omega⟩

theorem levelIter_whole (t : FloatVal) (oldImage newImage : Image) (minSize range : Nat)
    (hW : 1 ≤ newImage.width) (hH : 1 ≤ newImage.height) (hm : 1 ≤ minSize)
    (hw : oldImage.width = newImage.width) (hh : oldImage.height = newImage.height)
    (hcmp : Chunk.compare t (newImage.chunk newImage.rect) (oldImage.chunk oldImage.rect) = true) :
    ∀ (n : Nat) (st : DriverState),
      levelIter t minSize range oldImage newImage n = some st →
        WholeMatchInv oldImage newImage st := by
  intro n
  induction n with
  | zero =>
    intro st h
    simp only [levelIter, Option.some.injEq] at h
    left; exact h.symm
  | succ n ih =>
    intro st h
    simp only [levelIter, Option.bind_eq_some] at h
    obtain ⟨s0, h0, hs⟩ := h
    exact levelStep_whole t oldImage newImage minSize range hW hH hm hw hh hcmp hs (ih s0 h0)

theorem joinChunks_singleton_inplace (m : Match) (h : m.1.rect = m.2.rect) :
    joinChunks [m] = some [m] := by
  apply joinChunks_of_fixed
  simp [joinPass, h]

/-- Two images of one size whose whole-image chunks compare equal under
the comparator tolerance give the single in-place match of the whole
image. -/
theorem finalMatches_whole (t : FloatVal) (oldImage newImage : Image) (minSize range : Nat)
    (hW : 1 ≤ newImage.width) (hH : 1 ≤ newImage.height) (hm : 1 ≤ minSize)
    (hw : oldImage.width = newImage.width) (hh : oldImage.height = newImage.height)
    (hcmp : Chunk.compare t (newImage.chunk newImage.rect) (oldImage.chunk oldImage.rect) = true) :
    finalMatches t minSize range false oldImage newImage
      = some ([(newImage.chunk newImage.rect, oldImage.chunk oldImage.rect)],
          [newImage.rect]) := by
  obtain ⟨st, hst, hc, _, _⟩ := levelDriver_exits hm t range oldImage newImage
  obtain ⟨k, hk⟩ := levelDriver_iter hst
  have hinv := levelIter_whole t oldImage newImage minSize range hW hH hm hw hh hcmp k st hk
  rcases hinv with rfl | ⟨e1, e2, _⟩
  · simp [DriverState.init] at hc
  · have hrect : (newImage.chunk newImage.rect).rect = (oldImage.chunk oldImage.rect).rect := by
      show newImage.rect = oldImage.rect
      simp [Image.rect, hw, hh]
    simp only [finalMatches, hst, e1, e2]
    rw [joinChunks_singleton_inplace _ hrect]
    simp

/-! ## The driver in a build with assertions -/

/-- The loop body of a build with assertions is the loop body without them
when the assertion holds for the chunk, and ends the run otherwise. -/
theorem matchStepChecked_eq (t : FloatVal) (minSize range count : Nat) (oldChunks : List Chunk)
    (i : Nat) (c : Chunk) (acc : List Match × QRegion) :
    matchStepChecked t minSize range count oldChunks i c acc
      = if (c.isNull || (decide (minSize ≤ c.width) && decide (minSize ≤ c.height))) = true
        then .ok (matchStep t range count oldChunks i c acc) else .assertFailed := by
  unfold matchStepChecked matchStep
  by_cases hn : c.isNull = true
  · simp [hn]
  · by_cases ha : c.width ≥ minSize ∧ c.height ≥ minSize
    · have hb : (c.isNull || (decide (minSize ≤ c.width) && decide (minSize ≤ c.height)))
          = true := by simp [ha.1, ha.2]
      rw [if_neg hn, if_neg (not_not.2 ha), if_pos hb, if_neg hn]
      cases findMatch t c oldChunks (chunkIndexes range count i) <;> rfl
    · have hb : ¬ (c.isNull || (decide (minSize ≤ c.width) && decide (minSize ≤ c.height)))
          = true := by
        simp only [Bool.or_eq_true, Bool.and_eq_true, decide_eq_true_eq]
        rintro (h | h)
        · exact hn h
        · exact ha h
      rw [if_neg hn, if_pos ha, if_neg hb]

theorem matchChunksChecked_eq (t : FloatVal) (minSize range count : Nat)
    (oldChunks : List Chunk) : ∀ (cs : List Chunk) (i : Nat) (acc : List Match × QRegion),
    matchChunksChecked t minSize range count oldChunks i cs acc
      = if levelAssert minSize cs = true
        then .ok (matchChunks t range count oldChunks i cs acc) else .assertFailed := by
  intro cs
  induction cs with
  | nil => intro i acc; simp [matchChunksChecked, matchChunks, levelAssert]
  | cons c rest ih =>
    intro i acc
    simp only [matchChunksChecked, matchChunks, matchStepChecked_eq]
    by_cases hc : (c.isNull || (decide (minSize ≤ c.width) && decide (minSize ≤ c.height))) = true
    · rw [if_pos hc]
      simp only
      rw [ih]
      have e : levelAssert minSize (c :: rest) = levelAssert minSize rest := by
        simp only [levelAssert, List.all_cons, hc, Bool.true_and]
      rw [e]
    · rw [if_neg hc]
      have e : levelAssert minSize (c :: rest) = false := by
        simp only [levelAssert, List.all_cons]
        simp only [Bool.not_eq_true] at hc
        rw [hc]; rfl
      rw [e]
      simp

/-- One level of a build with assertions is the level without them when
the assertion holds for the grid of the level, and ends the run
otherwise. -/
theorem levelStepChecked_eq (t : FloatVal) (minSize range : Nat) (oldImage newImage : Image)
    (st : DriverState) :
    levelStepChecked t minSize range oldImage newImage st
      = if levelAssert minSize (newImage.chunks minSize st.count st.used) = true
        then .ok (levelStep t minSize range oldImage newImage st) else .assertFailed := by
  unfold levelStepChecked levelStep
  simp only
  by_cases he : (newImage.chunks minSize st.count st.used).isEmpty = true
  · have hnil : newImage.chunks minSize st.count st.used = [] := List.isEmpty_iff.1 he
    rw [if_pos he, if_pos he, hnil]
    simp [levelAssert]
  · rw [if_neg he, if_neg he, matchChunksChecked_eq]
    by_cases ha : levelAssert minSize (newImage.chunks minSize st.count st.used) = true
    · rw [if_pos ha, if_pos ha]
    · rw [if_neg ha, if_neg ha]

/-- While the size assertion holds along the run, the loop of a build with
assertions does what the loop without them does. -/
theorem levelLoopChecked_of_asserts (t : FloatVal) (minSize range : Nat)
    (oldImage newImage : Image) (h : driverAssertsHold t minSize range oldImage newImage) :
    ∀ (fuel k : Nat) (st : DriverState),
      levelIter t minSize range oldImage newImage k = some st →
      levelLoopChecked t minSize range oldImage newImage fuel st
        = (levelLoop t minSize range oldImage newImage fuel st).map Checked.ok := by
  intro fuel
  induction fuel with
  | zero => intro k st _; rfl
  | succ fuel ih =>
    intro k st hk
    simp only [levelLoopChecked, levelLoop, levelStepChecked_eq, if_pos (h k st hk)]
    cases hs : levelStep t minSize range oldImage newImage st with
    | none => rfl
    | some st1 =>
      simp only
      apply ih (k + 1) st1
      simp only [levelIter, hk, Option.some_bind, hs]

/-- The driver of a build with assertions: for an image at least `minSize`
wide and high it is the driver without assertions, for a smaller image the
assertion fails at level 1. -/
theorem levelDriverChecked_eq (t : FloatVal) (minSize range : Nat) (oldImage newImage : Image) :
    levelDriverChecked t minSize range oldImage newImage
      = if minSize ≤ newImage.width ∧ minSize ≤ newImage.height
        then (levelDriver t minSize range oldImage newImage).map Checked.ok
        else some .assertFailed := by
  by_cases hs : minSize ≤ newImage.width ∧ minSize ≤ newImage.height
  · rw [if_pos hs]
    exact levelLoopChecked_of_asserts t minSize range oldImage newImage
      ((driverAssertsHold_iff t minSize range oldImage newImage).2 hs) _ 0 DriverState.init rfl
  · rw [if_neg hs]
    have ha : ¬ levelAssert minSize (newImage.chunks minSize 1 QRegion.empty) = true :=
      fun h => hs ((levelAssert_one minSize newImage _).1 h)
    simp only [levelDriverChecked, levelLoopChecked, levelStepChecked_eq, DriverState.init,
      if_neg ha]

theorem finalMatchesChecked_eq (t : FloatVal) (minSize range : Nat) (nojoin : Bool)
    (oldImage newImage : Image) :
    finalMatchesChecked t minSize range nojoin oldImage newImage
      = if minSize ≤ newImage.width ∧ minSize ≤ newImage.height
        then (finalMatches t minSize range nojoin oldImage newImage).map Checked.ok
        else some .assertFailed := by
  unfold finalMatchesChecked finalMatches
  rw [levelDriverChecked_eq]
  by_cases hs : minSize ≤ newImage.width ∧ minSize ≤ newImage.height
  · rw [if_pos hs, if_pos hs]
    cases levelDriver t minSize range oldImage newImage with
    | none => rfl
    | some st =>
      simp only [Option.map_some']
      split_ifs
      · rfl
      · cases joinChunks st.matchList <;> rfl
  · rw [if_neg hs, if_neg hs]

/-- The level driver and `joinChunks` always return when `minSize` is
positive. -/
theorem finalMatches_total {minSize : Nat} (hm : 1 ≤ minSize) (t : FloatVal) (range : Nat)
    (nojoin : Bool) (oldImage newImage : Image) :
    ∃ r, finalMatches t minSize range nojoin oldImage newImage = some r := by
  obtain ⟨st, hst, _⟩ := levelDriver_exits hm t range oldImage newImage
  simp only [finalMatches, hst]
  split_ifs
  · exact ⟨_, rfl⟩
  · obtain ⟨r, hr, _⟩ := joinChunks_total st.matchList
    rw [hr]
    exact ⟨_, rfl⟩

/-- In a build with assertions the level driver and `joinChunks` end, with
a result or in a failed assertion, when `minSize` is positive. -/
theorem finalMatchesChecked_total {minSize : Nat} (hm : 1 ≤ minSize) (t : FloatVal)
    (range : Nat) (nojoin : Bool) (oldImage newImage : Image) :
    ∃ r, finalMatchesChecked t minSize range nojoin oldImage newImage = some r := by
  rw [finalMatchesChecked_eq]
  split_ifs
  · obtain ⟨r, hr⟩ := finalMatches_total hm t range nojoin oldImage newImage
    rw [hr]; exact ⟨_, rfl⟩
  · exact ⟨_, rfl⟩
/-- C1, at a failing input. For the 5×5 image `small5` and the default
`minSize = 10` (identical old and new image, tolerance 0, `range = 2`) the
driver of a build with assertions fails
`Q_ASSERT(newChunk.width() >= minSize && newChunk.height() >= minSize)` at
level 1, so the run ends in `abort()` and yields no match list; only with
the assertions compiled out does the run yield the single whole-image pair.
In general: for every image that is at least `minSize` wide and high the run
of a build with assertions yields exactly the one pair whose two rectangles
are `(0, 0, W, H)`, and the complement of `used` has no pixel; for every
image less than `minSize` wide or high the assertion fails. -/
theorem identical_small_image_assert_fails :
    (1 ≤ Example.small5.width ∧ 1 ≤ Example.small5.height) ∧
    finalMatchesChecked ⟨0, 0⟩ 10 2 false Example.small5 Example.small5
      = some Checked.assertFailed ∧
    finalMatches ⟨0, 0⟩ 10 2 false Example.small5 Example.small5
      = some ([(Example.small5.chunk ⟨0, 0, 5, 5⟩, Example.small5.chunk ⟨0, 0, 5, 5⟩)],
          [⟨0, 0, 5, 5⟩]) ∧
    (∀ (img : Image) (minSize range : Nat),
      1 ≤ minSize → minSize ≤ img.width → minSize ≤ img.height →
        finalMatchesChecked ⟨0, 0⟩ minSize range false img img
          = some (Checked.ok ([(img.chunk img.rect, img.chunk img.rect)], [img.rect])) ∧
        (img.chunk img.rect).rect = ⟨0, 0, img.width, img.height⟩ ∧
        ∀ px py, QRegion.complementContains img.rect [img.rect] px py = false) ∧
    (∀ (img : Image) (minSize range : Nat),
      img.width < minSize ∨ img.height < minSize →
        finalMatchesChecked ⟨0, 0⟩ minSize range false img img
          = some Checked.assertFailed) := by
  refine ⟨by decide, by decide, by decide, ?_, ?_⟩
  · intro img minSize range hm hW hH
    refine ⟨?_, rfl, ?_⟩
    · rw [finalMatchesChecked_eq, if_pos ⟨hW, hH⟩,
        finalMatches_whole ⟨0, 0⟩ img img minSize range (by omega) (by omega) hm rfl rfl
          (Chunk.compare_same_chunk _)]
      rfl
    · intro px py
      simp [QRegion.complementContains, QRegion.contains]
  · intro img minSize range h
    rw [finalMatchesChecked_eq, if_neg (by omega)]

/-- C8, at a failing input. For the 5×5 image `small5` and the default
`minSize = 10` the smallest count `≥ 1` with `⌊min(W,H)/count⌋ < minSize` is
1, but the grid of level 1 is not empty (`Image::chunks` returns the
whole-image chunk for `count == 1` without looking at `minSize`), so the
loop does not stop there: a build with assertions fails the size assertion
at level 1 and never reaches the exit of the loop, and with the assertions
compiled out the loop stops at `count = 2`. In general: for every image
that is at least `minSize` wide and high the driver of a build with
assertions terminates, and stops at the smallest count `≥ 1` with
`⌊min(W,H)/count⌋ < minSize`; for every image less than `minSize` wide or
high the assertion fails at level 1. -/
theorem level_one_runs_below_minSize :
    (1 ≤ Example.small5.width ∧ 1 ≤ Example.small5.height) ∧
    min Example.small5.width Example.small5.height / 1 < 10 ∧
    (Example.small5.chunks 10 1 QRegion.empty).isEmpty = false ∧
    levelDriverChecked ⟨0, 0⟩ 10 2 Example.small5 Example.small5
      = some Checked.assertFailed ∧
    (levelDriver ⟨0, 0⟩ 10 2 Example.small5 Example.small5).map (fun st => st.count)
      = some 2 ∧
    (∀ (t : FloatVal) (minSize range : Nat) (oldImage newImage : Image),
      1 ≤ minSize → minSize ≤ newImage.width → minSize ≤ newImage.height →
        ∃ st, levelDriverChecked t minSize range oldImage newImage = some (Checked.ok st) ∧
          1 ≤ st.count ∧
          min newImage.width newImage.height / st.count < minSize ∧
          ∀ k, 1 ≤ k → min newImage.width newImage.height / k < minSize → st.count ≤ k) ∧
    (∀ (t : FloatVal) (minSize range : Nat) (oldImage newImage : Image),
      newImage.width < minSize ∨ newImage.height < minSize →
        levelDriverChecked t minSize range oldImage newImage = some Checked.assertFailed) := by
  refine ⟨by decide, by decide, by decide, by decide, by decide, ?_, ?_⟩
  · intro t minSize range oldImage newImage hm hW hH
    obtain ⟨st, h1, h2, h3, _, h5⟩ :=
      levelDriver_stop_count t minSize range oldImage newImage hm
    refine ⟨st, ?_, by omega, h3, h5 (by simp [hW, hH])⟩
    rw [levelDriverChecked_eq, if_pos ⟨hW, hH⟩, h1]
    rfl
  · intro t minSize range oldImage newImage h
    rw [levelDriverChecked_eq, if_neg (by omega)]

/-! ## Joining chunks that are not adjacent -/

/-- C2, at a failing input. Old image `oldC` and new image `newA` (2×2,
`--min-size=1`, default range, tolerance 0): the driver records the two
genuine 1×1 matches new `(0,0)` = old `(0,1)` and new `(1,1)` = old `(1,0)`;
`isAligned` reports both sides as aligned to the right although the chunks
sit in different rows, and `joinChunks` replaces the two pairs by one pair
whose rectangles are both the whole image `(0,0,2,2)`. That pair is not a
genuine match: the images differ already at pixel `(0,0)`. -/
theorem final_match_not_genuine :
    Example.oldC.width = Example.newA.width ∧ Example.oldC.height = Example.newA.height ∧
    finalMatches ⟨0, 0⟩ 1 2 true Example.oldC Example.newA
      = some ([(Example.newA.chunk ⟨0, 0, 1, 1⟩, Example.oldC.chunk ⟨0, 1, 1, 1⟩),
               (Example.newA.chunk ⟨1, 1, 1, 1⟩, Example.oldC.chunk ⟨1, 0, 1, 1⟩)],
              [⟨0, 0, 1, 1⟩, ⟨1, 1, 1, 1⟩]) ∧
    finalMatches ⟨0, 0⟩ 1 2 false Example.oldC Example.newA
      = some ([(⟨some Example.newA, ⟨0, 0, 2, 2⟩, 0⟩, ⟨some Example.oldC, ⟨0, 0, 2, 2⟩, 0⟩)],
              [⟨0, 0, 1, 1⟩, ⟨1, 1, 1, 1⟩]) ∧
    (Example.newA.chunk ⟨0, 0, 1, 1⟩).isAligned (Example.newA.chunk ⟨1, 1, 1, 1⟩) = AlignRight ∧
    (Example.oldC.chunk ⟨0, 1, 1, 1⟩).isAligned (Example.oldC.chunk ⟨1, 0, 1, 1⟩) = AlignRight ∧
    genuineMatch ⟨0, 0⟩ Example.oldC Example.newA
        (⟨some Example.newA, ⟨0, 0, 2, 2⟩, 0⟩, ⟨some Example.oldC, ⟨0, 0, 2, 2⟩, 0⟩)
      = false ∧
    Color.compare ⟨0, 0⟩ (Example.newA.color 0 0) (Example.oldC.color 0 0) = false ∧
    levelAssert 1 (Example.newA.chunks 1 1 []) = true ∧
    levelAssert 1 (Example.newA.chunks 1 2 []) = true := by
  decide

/-- C4, at a failing input. Old image `oldB` and new image `newA` (2×2,
`--min-size=1`, default range, tolerance 0): the final match list is one
pair with new-side rectangle `(0,0,2,2)`, while `used` is only the two
pixels `(0,0)` and `(1,1)`. Pixel `(1,0)` lies in the complement of `used`
and in the new-side rectangle of the match, so the new-side rectangles and
the complement are not disjoint. -/
theorem joined_rect_overlaps_complement :
    Example.oldB.width = Example.newA.width ∧ Example.oldB.height = Example.newA.height ∧
    finalMatches ⟨0, 0⟩ 1 2 false Example.oldB Example.newA
      = some ([(⟨some Example.newA, ⟨0, 0, 2, 2⟩, 0⟩, ⟨some Example.oldB, ⟨0, 1, 2, 1⟩, 0⟩)],
              [⟨0, 0, 1, 1⟩, ⟨1, 1, 1, 1⟩]) ∧
    (Example.newA.chunk ⟨0, 0, 1, 1⟩).isAligned (Example.newA.chunk ⟨1, 1, 1, 1⟩) = AlignRight ∧
    (Example.oldB.chunk ⟨0, 1, 1, 1⟩).isAligned (Example.oldB.chunk ⟨1, 1, 1, 1⟩) = AlignRight ∧
    QRegion.complementContains Example.oldB.rect [⟨0, 0, 1, 1⟩, ⟨1, 1, 1, 1⟩] 1 0 = true ∧
    QRect.contains ⟨0, 0, 2, 2⟩ 1 0 = true := by
  decide

/-- C5, at a failing input. The match list the driver records for old image
`oldA` and new image `newA` has two pairs, each with rectangles of equal
size on both sides; `joinChunks` turns it into one pair whose new-side
rectangle is `(0,0,2,1)` and whose old-side rectangle is `(0,0,2,2)`: the
heights differ. -/
theorem joinChunks_changes_size :
    finalMatches ⟨0, 0⟩ 1 2 true Example.oldA Example.newA
      = some ([(Example.newA.chunk ⟨0, 0, 1, 1⟩, Example.oldA.chunk ⟨0, 1, 1, 1⟩),
               (Example.newA.chunk ⟨1, 0, 1, 1⟩, Example.oldA.chunk ⟨1, 0, 1, 1⟩)],
              [⟨0, 0, 1, 1⟩, ⟨1, 0, 1, 1⟩]) ∧
    (∀ m ∈ [(Example.newA.chunk ⟨0, 0, 1, 1⟩, Example.oldA.chunk ⟨0, 1, 1, 1⟩),
            (Example.newA.chunk ⟨1, 0, 1, 1⟩, Example.oldA.chunk ⟨1, 0, 1, 1⟩)], m.1.size = m.2.size) ∧
    joinChunks [(Example.newA.chunk ⟨0, 0, 1, 1⟩, Example.oldA.chunk ⟨0, 1, 1, 1⟩),
                (Example.newA.chunk ⟨1, 0, 1, 1⟩, Example.oldA.chunk ⟨1, 0, 1, 1⟩)]
      = some [(⟨some Example.newA, ⟨0, 0, 2, 1⟩, 0⟩, ⟨some Example.oldA, ⟨0, 0, 2, 2⟩, 0⟩)] ∧
    (Example.newA.chunk ⟨0, 0, 1, 1⟩).isAligned (Example.newA.chunk ⟨1, 0, 1, 1⟩) = AlignRight ∧
    (Example.oldA.chunk ⟨0, 1, 1, 1⟩).isAligned (Example.oldA.chunk ⟨1, 0, 1, 1⟩) = AlignRight ∧
    Chunk.size ⟨some Example.newA, ⟨0, 0, 2, 1⟩, 0⟩ ≠ Chunk.size ⟨some Example.oldA, ⟨0, 0, 2, 2⟩, 0⟩ := by
  decide

/-- C6, at a failing input. The match list the driver records for old image
`oldB` and new image `newA` ends in the in-place pair at `(1,1)`;
`joinChunks` lets the pair before it adopt the in-place pair, which is
gone from the output. -/
theorem joinChunks_adopts_inplace :
    finalMatches ⟨0, 0⟩ 1 2 true Example.oldB Example.newA
      = some ([(Example.newA.chunk ⟨0, 0, 1, 1⟩, Example.oldB.chunk ⟨0, 1, 1, 1⟩),
               (Example.newA.chunk ⟨1, 1, 1, 1⟩, Example.oldB.chunk ⟨1, 1, 1, 1⟩)],
              [⟨0, 0, 1, 1⟩, ⟨1, 1, 1, 1⟩]) ∧
    (Example.newA.chunk ⟨1, 1, 1, 1⟩).rect = (Example.oldB.chunk ⟨1, 1, 1, 1⟩).rect ∧
    joinChunks [(Example.newA.chunk ⟨0, 0, 1, 1⟩, Example.oldB.chunk ⟨0, 1, 1, 1⟩),
                (Example.newA.chunk ⟨1, 1, 1, 1⟩, Example.oldB.chunk ⟨1, 1, 1, 1⟩)]
      = some [((Example.newA.chunk ⟨0, 0, 1, 1⟩).adopt (Example.newA.chunk ⟨1, 1, 1, 1⟩),
               (Example.oldB.chunk ⟨0, 1, 1, 1⟩).adopt (Example.oldB.chunk ⟨1, 1, 1, 1⟩))] ∧
    (Example.newA.chunk ⟨1, 1, 1, 1⟩, Example.oldB.chunk ⟨1, 1, 1, 1⟩) ∉
      [((Example.newA.chunk ⟨0, 0, 1, 1⟩).adopt (Example.newA.chunk ⟨1, 1, 1, 1⟩),
        (Example.oldB.chunk ⟨0, 1, 1, 1⟩).adopt (Example.oldB.chunk ⟨1, 1, 1, 1⟩))] := by
  decide

/-! ## The shadowed threshold -/

theorem Example.flat20_color (v x y : Nat) (hx : x < 20) (hy : y < 20) :
    (Example.flat20 v).color x y = ⟨v, v, v, v⟩ := by
  unfold Image.color Example.flat20
  rw [List.getD_eq_getElem?_getD, List.getElem?_replicate]
  simp only
  rw [if_pos (by omega)]
  rfl

/-- C3, at a failing input. The files `old.png` and `new.png` are 20×20
images that differ by +1 in every channel of every pixel. The argument
`--threshold=2` sets the local variable of `main` and leaves the global
`threshold` that the comparator reads at 0, so the run of `main` ends with
an empty match list. Under comparator tolerance 2 the same images give the
single in-place match of the whole image that the claim expects. -/
theorem threshold_argument_ignored :
    (∀ x y, x < 20 → y < 20 →
      ((Example.flat20 11).color x y).red = ((Example.flat20 10).color x y).red + 1 ∧
      ((Example.flat20 11).color x y).green = ((Example.flat20 10).color x y).green + 1 ∧
      ((Example.flat20 11).color x y).blue = ((Example.flat20 10).color x y).blue + 1 ∧
      ((Example.flat20 11).color x y).alpha = ((Example.flat20 10).color x y).alpha + 1) ∧
    (parseArgs Example.files ["--threshold=2".toList, "old.png".toList, "new.png".toList] MainVars.init).toOption.map
        (fun v => (v.localThreshold, v.threshold, v.minSize, v.range))
      = some (⟨false, 2, 0⟩, ⟨0, 0⟩, 10, 2) ∧
    mainMatches Example.files ["--threshold=2".toList, "old.png".toList, "new.png".toList]
      = .ok (some ([], [])) ∧
    finalMatches (FloatVal.ofNat 2) 10 2 false (Example.flat20 10) (Example.flat20 11)
      = some ([((Example.flat20 11).chunk ⟨0, 0, 20, 20⟩, (Example.flat20 10).chunk ⟨0, 0, 20, 20⟩)],
          [⟨0, 0, 20, 20⟩]) := by
  refine ⟨?_, by decide, by decide, ?_⟩
  · intro x y hx hy
    rw [Example.flat20_color 11 x y hx hy, Example.flat20_color 10 x y hx hy]
    exact ⟨rfl, rfl, rfl, rfl⟩
  · apply finalMatches_whole (FloatVal.ofNat 2) (Example.flat20 10) (Example.flat20 11) 10 2
      (by decide) (by decide) (by decide) rfl rfl
    apply Chunk.compare_of_forall
    intro x y hx hy
    have hx2 : x < 20 := hx
    have hy2 : y < 20 := hy
    have e1 : ((Example.flat20 11).chunk (Example.flat20 11).rect).color x y = ⟨11, 11, 11, 11⟩ := by
      show (Example.flat20 11).color (0 + x) (0 + y) = _
      rw [Example.flat20_color 11 _ _ (by omega) (by omega)]
    have e2 : ((Example.flat20 10).chunk (Example.flat20 10).rect).color x y = ⟨10, 10, 10, 10⟩ := by
      show (Example.flat20 10).color (0 + x) (0 + y) = _
      rw [Example.flat20_color 10 _ _ (by omega) (by omega)]
    rw [e1, e2]
    decide

/-! ## Chunk equality, the transparency flag and the alignment test -/

theorem Chunk.scanTransparent_iff (img : Image) (r : QRect) :
    Chunk.scanTransparent img r = true ↔
      ∀ x y, x < r.w → y < r.h → (img.color (r.x + x) (r.y + y)).alpha = 0 := by
  simp only [Chunk.scanTransparent, List.all_eq_true, List.mem_range, beq_iff_eq]
  constructor
  · intro h x y hx hy; exact h y hy x hx
  · intro h y hy x hx; exact h x y hx hy

/-- The constructor sets the flag exactly when its scan finds no pixel with
a non-zero alpha. -/
theorem Image.chunk_flag_iff (img : Image) (r : QRect) :
    (img.chunk r).flags &&& Chunk.AllTransparent ≠ 0 ↔ Chunk.scanTransparent img r = true := by
  show (if Chunk.scanTransparent img r = true then Chunk.AllTransparent else 0)
      &&& Chunk.AllTransparent ≠ 0 ↔ _
  by_cases h : Chunk.scanTransparent img r = true
  · simp [h, Chunk.AllTransparent]
  · simp [h]

/-- C11. `Chunk::compare` is true iff both chunks carry the
`AllTransparent` flag or every pair of pixels at the same relative offset
satisfies `Color::compare`. Two chunks made by the constructor over
regions of the same size whose pixels all have alpha 0 compare equal under
every threshold, whatever their colours are. -/
theorem chunk_compare_contract (threshold : FloatVal) (a b : Chunk) :
    (Chunk.compare threshold a b = true ↔
      (a.flags &&& Chunk.AllTransparent ≠ 0 ∧ b.flags &&& Chunk.AllTransparent ≠ 0) ∨
      ∀ x y, x < a.width → y < a.height →
        Color.compare threshold (a.color x y) (b.color x y) = true) ∧
    (∀ (imgA imgB : Image) (rA rB : QRect), rA.w = rB.w → rA.h = rB.h →
      (∀ x y, x < rA.w → y < rA.h → (imgA.color (rA.x + x) (rA.y + y)).alpha = 0) →
      (∀ x y, x < rB.w → y < rB.h → (imgB.color (rB.x + x) (rB.y + y)).alpha = 0) →
      Chunk.compare threshold (imgA.chunk rA) (imgB.chunk rB) = true) := by
  constructor
  · unfold Chunk.compare
    by_cases hf : a.mFlags &&& Chunk.AllTransparent ≠ 0 ∧ b.mFlags &&& Chunk.AllTransparent ≠ 0
    · rw [if_pos hf]
      simp only [true_iff]
      exact Or.inl hf
    · rw [if_neg hf]
      simp only [List.all_eq_true, List.mem_range]
      constructor
      · intro h; right; intro x y hx hy; exact h y hy x hx
      · rintro (h | h)
        · exact absurd h hf
        · intro y hy x hx; exact h x y hx hy
  · intro imgA imgB rA rB _ _ hA hB
    have fa := (Image.chunk_flag_iff imgA rA).2 ((Chunk.scanTransparent_iff imgA rA).2 hA)
    have fb := (Image.chunk_flag_iff imgB rB).2 ((Chunk.scanTransparent_iff imgB rB).2 hB)
    unfold Chunk.compare
    rw [if_pos ⟨fa, fb⟩]

/-- C12, at a failing input. Old image `oldT` and new image `newT` (2×2,
`--min-size=1`, tolerance 0): the driver records two matches of
transparent 1×1 chunks, new `(0,0)` with old `(0,1)` and the in-place one at
`(1,1)`; `joinChunks` merges them, and the merged new-side chunk has the
rectangle `(0,0,2,2)` and the flag `AllTransparent`, although the pixels
`(1,0)` and `(0,1)` inside that rectangle are opaque. -/
theorem adopted_chunk_flag_wrong :
    finalMatches ⟨0, 0⟩ 1 2 true Example.oldT Example.newT
      = some ([(Example.newT.chunk ⟨0, 0, 1, 1⟩, Example.oldT.chunk ⟨0, 1, 1, 1⟩),
               (Example.newT.chunk ⟨1, 1, 1, 1⟩, Example.oldT.chunk ⟨1, 1, 1, 1⟩)],
              [⟨0, 0, 1, 1⟩, ⟨1, 1, 1, 1⟩]) ∧
    finalMatches ⟨0, 0⟩ 1 2 false Example.oldT Example.newT
      = some ([((Example.newT.chunk ⟨0, 0, 1, 1⟩).adopt (Example.newT.chunk ⟨1, 1, 1, 1⟩),
                (Example.oldT.chunk ⟨0, 1, 1, 1⟩).adopt (Example.oldT.chunk ⟨1, 1, 1, 1⟩))],
              [⟨0, 0, 1, 1⟩, ⟨1, 1, 1, 1⟩]) ∧
    (Example.newT.chunk ⟨0, 0, 1, 1⟩).adopt (Example.newT.chunk ⟨1, 1, 1, 1⟩)
      = ⟨some Example.newT, ⟨0, 0, 2, 2⟩, Chunk.AllTransparent⟩ ∧
    (Example.newT.color 1 0).alpha = 255 ∧
    Chunk.scanTransparent Example.newT ⟨0, 0, 2, 2⟩ = false := by
  decide

/-- C13. For two chunks with positive widths and equal heights,
`Chunk::isAligned` returns exactly `AlignRight` when `A.x + A.w = B.x` and
exactly `AlignLeft` when `B.x + B.w = A.x`. -/
theorem isAligned_horizontal (a b : Chunk) (ha : 0 < a.width) (hb : 0 < b.width)
    (hh : a.height = b.height) :
    (a.x + a.width = b.x → a.isAligned b = AlignRight) ∧
    (b.x + b.width = a.x → a.isAligned b = AlignLeft) := by
  unfold Chunk.isAligned
  rw [if_pos hh]
  constructor
  · intro h; rw [if_pos h]
  · intro h
    rw [if_neg (by omega), if_pos h]

/-- The horizontal alignment theorem applied to two chunks of a 2×2 image
that lie side by side. -/
theorem isAligned_horizontal_witness :
    (Example.newA.chunk ⟨0, 0, 1, 1⟩).isAligned (Example.newA.chunk ⟨1, 0, 1, 1⟩) = AlignRight ∧
    (Example.newA.chunk ⟨1, 0, 1, 1⟩).isAligned (Example.newA.chunk ⟨0, 0, 1, 1⟩) = AlignLeft :=
  ⟨(isAligned_horizontal (Example.newA.chunk ⟨0, 0, 1, 1⟩) (Example.newA.chunk ⟨1, 0, 1, 1⟩)
      (by decide) (by decide) (by decide)).1 (by decide),
    (isAligned_horizontal (Example.newA.chunk ⟨1, 0, 1, 1⟩) (Example.newA.chunk ⟨0, 0, 1, 1⟩)
      (by decide) (by decide) (by decide)).2 (by decide)⟩

/-- Chunks of equal height that do not meet horizontally are never reported
as aligned, whatever their vertical position. -/
theorem isAligned_equal_height_none (a b : Chunk) (hh : a.height = b.height)
    (h1 : a.x + a.width ≠ b.x) (h2 : b.x + b.width ≠ a.x) : a.isAligned b = AlignNone := by
  unfold Chunk.isAligned
  rw [if_pos hh, if_neg h1, if_neg h2]

/-- Chunks of equal width and different heights are reported as aligned
`Bottom` or `Top` when they meet vertically. -/
theorem isAligned_vertical_of_height_ne (a b : Chunk) (ha : 0 < a.height) (hb : 0 < b.height)
    (hw : a.width = b.width) (hh : a.height ≠ b.height) :
    (a.y + a.height = b.y → a.isAligned b = AlignBottom) ∧
    (b.y + b.height = a.y → a.isAligned b = AlignTop) := by
  unfold Chunk.isAligned
  rw [if_neg hh, if_pos hw]
  constructor
  · intro h; rw [if_pos h]
  · intro h
    rw [if_neg (by omega), if_pos h]

/-- C14, at a failing input. The grid cells `(0,0,1,1)` and `(0,1,1,1)` of a
2×2 image have equal size and lie one directly above the other;
`isAligned` returns `AlignNone` for them in both orders, because the test
for `Bottom` and `Top` sits in the `else` branch of the test for equal
heights. In the run on old image `oldD` and new image `newA` the two
stacked matches, both moved one column to the right, stay two pairs. -/
theorem isAligned_stacked_cells_none :
    (Example.newA.chunk ⟨0, 0, 1, 1⟩).size = (Example.newA.chunk ⟨0, 1, 1, 1⟩).size ∧
    (Example.newA.chunk ⟨0, 0, 1, 1⟩).y + (Example.newA.chunk ⟨0, 0, 1, 1⟩).height
      = (Example.newA.chunk ⟨0, 1, 1, 1⟩).y ∧
    (Example.newA.chunk ⟨0, 0, 1, 1⟩).isAligned (Example.newA.chunk ⟨0, 1, 1, 1⟩) = AlignNone ∧
    (Example.newA.chunk ⟨0, 1, 1, 1⟩).isAligned (Example.newA.chunk ⟨0, 0, 1, 1⟩) = AlignNone ∧
    AlignNone ≠ AlignBottom ∧ AlignNone ≠ AlignTop ∧
    finalMatches ⟨0, 0⟩ 1 2 false Example.oldD Example.newA
      = some ([(Example.newA.chunk ⟨0, 0, 1, 1⟩, Example.oldD.chunk ⟨1, 0, 1, 1⟩),
               (Example.newA.chunk ⟨0, 1, 1, 1⟩, Example.oldD.chunk ⟨1, 1, 1, 1⟩)],
              [⟨0, 0, 1, 1⟩, ⟨0, 1, 1, 1⟩]) := by
  decide

/-! ## The grid is a partition of the image -/

theorem Image.cellRect_last_column (img : Image) {count x : Nat} (y : Nat) (hx : x + 1 = count) :
    (img.cellRect count x y).x + (img.cellRect count x y).w = img.width := by
  have hw : img.width / count * count ≤ img.width := Nat.div_mul_le_self _ _
  simp only [Image.cellRect, if_pos hx]
  have : x * (img.width / count) + img.width / count = img.width / count * count := by
    rw [← hx]; ring
  omega

theorem Image.cellRect_last_row (img : Image) {count y : Nat} (x : Nat) (hy : y + 1 = count) :
    (img.cellRect count x y).y + (img.cellRect count x y).h = img.height := by
  have hh : img.height / count * count ≤ img.height := Nat.div_mul_le_self _ _
  simp only [Image.cellRect, if_pos hy]
  have : y * (img.height / count) + img.height / count = img.height / count * count := by
    rw [← hy]; ring
  omega

/-- For a pixel coordinate there is a grid column (or row) that starts at or
before it and, unless it is the last one, ends after it. -/
theorem grid_span_exists {size count : Nat} (p : Nat) (hc : 1 ≤ count)
    (hq : 1 ≤ size / count) :
    ∃ c, c < count ∧ c * (size / count) ≤ p ∧
      (c + 1 < count → p < c * (size / count) + size / count) := by
  by_cases h : p / (size / count) + 1 < count
  · refine ⟨p / (size / count), by omega, Nat.div_mul_le_self _ _, fun _ => ?_⟩
    have := Nat.lt_div_mul_add (a := p) hq
    rw [Nat.mul_comm] at this
    linarith [Nat.mul_comm (p / (size / count)) (size / count)]
  · refine ⟨count - 1, by omega, ?_, fun h2 => by omega⟩
    have h3 : count - 1 ≤ p / (size / count) := by omega
    calc (count - 1) * (size / count) ≤ p / (size / count) * (size / count) :=
          Nat.mul_le_mul_right _ h3
      _ ≤ p := Nat.div_mul_le_self _ _

theorem Image.cellRect_one (img : Image) : img.cellRect 1 0 0 = img.rect := by
  simp [Image.cellRect, Image.rect]

/-- With an empty mask and cells of at least `minSize`, or at level 1, the
grid lists the cells in row-major order. -/
theorem Image.chunks_unmasked (img : Image) (minSize count : Nat)
    (hg : count = 1 ∨ (minSize ≤ img.width / count ∧ minSize ≤ img.height / count)) :
    img.chunks minSize count QRegion.empty = (List.range (count * count)).map fun idx =>
      img.chunk (img.cellRect count (idx % count) (idx / count)) := by
  by_cases h1 : count = 1
  · subst h1
    rw [Image.chunks_one]
    have hr : List.range (1 * 1) = [0] := rfl
    rw [hr]
    simp [Image.cellRect_one]
  · rcases hg with h | ⟨hw, hh⟩
    · exact absurd h h1
    · rw [Image.chunks_grid minSize img count _ h1 hw hh]
      apply List.map_congr_left
      intro idx _
      simp [QRegion.intersects, QRegion.empty]

/-- C15. For an image of positive size, `minSize ≥ 1` and a level
`count ≥ 1` that is 1 or has quotient cells of at least `minSize`,
`Image::chunks(count)` with an empty mask returns `count * count` chunks;
the chunk at index `cy * count + cx` is the chunk of the rectangle
`(cx·w, cy·h, w + (cx = count−1 ? W − w·count : 0), h + (cy = count−1 ?
H − h·count : 0))` with `w = ⌊W/count⌋`, `h = ⌊H/count⌋`; that rectangle is
not empty, lies inside the image and passes the assertions of the chunk
constructor; two different cells share no pixel; every pixel of the image
lies in a cell. -/
theorem chunks_partition (img : Image) (minSize count : Nat)
    (hW : 1 ≤ img.width) (hH : 1 ≤ img.height) (hm : 1 ≤ minSize) (hc : 1 ≤ count)
    (hg : count = 1 ∨ (minSize ≤ img.width / count ∧ minSize ≤ img.height / count)) :
    (img.chunks minSize count QRegion.empty).length = count * count ∧
    (∀ cx cy, cx < count → cy < count →
      (img.chunks minSize count QRegion.empty).getD (cy * count + cx) Chunk.null
        = img.chunk ⟨cx * (img.width / count), cy * (img.height / count),
            img.width / count
              + (if cx = count - 1 then img.width - img.width / count * count else 0),
            img.height / count
              + (if cy = count - 1 then img.height - img.height / count * count else 0)⟩ ∧
      ((img.chunks minSize count QRegion.empty).getD (cy * count + cx) Chunk.null).rect
        = img.cellRect count cx cy ∧
      0 < (img.cellRect count cx cy).w ∧ 0 < (img.cellRect count cx cy).h ∧
      (img.cellRect count cx cy).x + (img.cellRect count cx cy).w ≤ img.width ∧
      (img.cellRect count cx cy).y + (img.cellRect count cx cy).h ≤ img.height ∧
      Chunk.createAssert img (img.cellRect count cx cy) = true) ∧
    (∀ cx1 cy1 cx2 cy2, cx1 < count → cy1 < count → cx2 < count → cy2 < count →
      (cx1 ≠ cx2 ∨ cy1 ≠ cy2) → ∀ px py,
        ¬ ((img.cellRect count cx1 cy1).contains px py = true ∧
           (img.cellRect count cx2 cy2).contains px py = true)) ∧
    (∀ px py, px < img.width → py < img.height →
      ∃ cx cy, cx < count ∧ cy < count ∧ (img.cellRect count cx cy).contains px py = true) ∧
    (∀ cx cy px py, cx < count → cy < count →
      (img.cellRect count cx cy).contains px py = true → img.rect.contains px py = true) := by
  have hqw : 1 ≤ img.width / count := by
    rcases hg with h | h
    · subst h; rw [Nat.div_one]; exact hW
    · omega
  have hqh : 1 ≤ img.height / count := by
    rcases hg with h | h
    · subst h; rw [Nat.div_one]; exact hH
    · omega
  have hmap := Image.chunks_unmasked img minSize count hg
  refine ⟨?_, ?_, ?_, ?_, ?_⟩
  · rw [hmap]; simp
  · intro cx cy hx hy
    obtain ⟨b1, b2, b3, b4, b5, b6, _, _⟩ := img.cellRect_bounds hx hy
    have hidx : cy * count + cx < count * count := by
      calc cy * count + cx < cy * count + count := by omega
        _ = (cy + 1) * count := by ring
        _ ≤ count * count := Nat.mul_le_mul_right _ hy
    have hmod : (cy * count + cx) % count = cx := by
      rw [Nat.add_comm, Nat.add_mul_mod_self_right, Nat.mod_eq_of_lt hx]
    have hdiv : (cy * count + cx) / count = cy := by
      rw [Nat.add_comm, Nat.add_mul_div_right _ _ (by omega), Nat.div_eq_of_lt hx, Nat.zero_add]
    have hget : (img.chunks minSize count QRegion.empty).getD (cy * count + cx) Chunk.null
        = img.chunk (img.cellRect count cx cy) := by
      rw [hmap, List.getD_eq_getElem?_getD, List.getElem?_map, List.getElem?_range hidx]
      simp [hmod, hdiv]
    have hform : img.cellRect count cx cy
        = ⟨cx * (img.width / count), cy * (img.height / count),
            img.width / count
              + (if cx = count - 1 then img.width - img.width / count * count else 0),
            img.height / count
              + (if cy = count - 1 then img.height - img.height / count * count else 0)⟩ := by
      have e1 : (cx + 1 = count) ↔ (cx = count - 1) := by omega
      have e2 : (cy + 1 = count) ↔ (cy = count - 1) := by omega
      simp only [Image.cellRect, e1, e2]
    refine ⟨by rw [hget, hform], by rw [hget]; rfl, by omega, by omega, b5, b6, ?_⟩
    simp only [Chunk.createAssert, QRect.isNull, Bool.and_eq_true, Bool.not_eq_true',
      decide_eq_true_eq, Bool.and_eq_false_iff, beq_eq_false_iff_ne]
    exact ⟨⟨Or.inl (by omega), b6⟩, b5⟩
  · intro cx1 cy1 cx2 cy2 h1 h2 h3 h4 hne px py hboth
    have hd := Image.cellRect_disjoint img h1 h2 h3 h4 hne
    rw [QRect.intersects_of_contains hboth.1 hboth.2] at hd
    exact Bool.noConfusion hd
  · intro px py hpx hpy
    obtain ⟨cx, hcx, hx1, hx2⟩ := grid_span_exists px hc hqw
    obtain ⟨cy, hcy, hy1, hy2⟩ := grid_span_exists py hc hqh
    refine ⟨cx, cy, hcx, hcy, ?_⟩
    obtain ⟨b1, b2, b3, b4, b5, b6, b7, b8⟩ := img.cellRect_bounds hcx hcy
    simp only [QRect.contains, Bool.and_eq_true, decide_eq_true_eq]
    have hxx : px < (img.cellRect count cx cy).x + (img.cellRect count cx cy).w := by
      by_cases hl : cx + 1 < count
      · have := hx2 hl; have := b7 hl; omega
      · rw [Image.cellRect_last_column img cy (by omega)]; exact hpx
    have hyy : py < (img.cellRect count cx cy).y + (img.cellRect count cx cy).h := by
      by_cases hl : cy + 1 < count
      · have := hy2 hl; have := b8 hl; omega
      · rw [Image.cellRect_last_row img cx (by omega)]; exact hpy
    exact ⟨⟨⟨by omega, hxx⟩, by omega⟩, hyy⟩
  · intro cx cy px py hx hy hcont
    obtain ⟨_, _, _, _, b5, b6, _, _⟩ := img.cellRect_bounds hx hy
    simp only [QRect.contains, Bool.and_eq_true, decide_eq_true_eq, Image.rect] at hcont ⊢
    omega

/-- The partition theorem applied to a 20×20 image at level 2 with
`minSize = 10`. -/
theorem chunks_partition_witness :
    (1 ≤ (Example.flat20 10).width ∧ 1 ≤ (Example.flat20 10).height ∧
      (2 = 1 ∨ (10 ≤ (Example.flat20 10).width / 2 ∧ 10 ≤ (Example.flat20 10).height / 2))) ∧
    ((Example.flat20 10).chunks 10 2 QRegion.empty).length = 2 * 2 ∧
    ∀ px py, px < (Example.flat20 10).width → py < (Example.flat20 10).height →
      ∃ cx cy, cx < 2 ∧ cy < 2 ∧
        ((Example.flat20 10).cellRect 2 cx cy).contains px py = true :=
  have h := chunks_partition (Example.flat20 10) 10 2 (by decide) (by decide) (by decide)
    (by decide) (by decide)
  ⟨by decide, h.1, h.2.2.2.1⟩

/-! ## The candidate indices -/

theorem chunkIndexes_eq (range count idx : Nat) :
    chunkIndexes range count idx
      = chunkIndexesAdd count ((idx % count : Nat) : Int) ((idx / count : Nat) : Int) 0 0 ++
        (offsets range).flatMap fun yo => (offsets range).flatMap fun xo =>
          if xo ≠ 0 ∨ yo ≠ 0 then
            chunkIndexesAdd count ((idx % count : Nat) : Int) ((idx / count : Nat) : Int) xo yo
          else [] := rfl

theorem mem_chunkIndexesAdd (count : Nat) (x y xo yo : Int) (j : Nat) :
    j ∈ chunkIndexesAdd count x y xo yo ↔
      (0 ≤ x + xo ∧ x + xo < count ∧ 0 ≤ y + yo ∧ y + yo < count) ∧
        j = ((y + yo) * (count : Int) + (x + xo)).toNat := by
  unfold chunkIndexesAdd
  simp only
  by_cases hx : x + xo < 0 ∨ x + xo ≥ (count : Int)
  · rw [if_pos hx]
    simp only [List.not_mem_nil, false_iff]
    rintro ⟨⟨h1, h2, _, _⟩, _⟩
    omega
  · rw [if_neg hx]
    by_cases hy : y + yo < 0 ∨ y + yo ≥ (count : Int)
    · rw [if_pos hy]
      simp only [List.not_mem_nil, false_iff]
      rintro ⟨⟨_, _, h3, h4⟩, _⟩
      omega
    · rw [if_neg hy]
      simp only [List.mem_singleton]
      constructor
      · intro h; exact ⟨⟨by omega, by omega, by omega, by omega⟩, h⟩
      · intro h; exact h.2

theorem chunkIndexesAdd_length_le (count : Nat) (x y xo yo : Int) :
    (chunkIndexesAdd count x y xo yo).length ≤ 1 := by
  unfold chunkIndexesAdd
  simp only
  split_ifs <;> simp

theorem mem_offsets (range : Nat) (o : Int) :
    o ∈ offsets range ↔ -(range : Int) ≤ o ∧ o ≤ (range : Int) := by
  unfold offsets
  simp only [List.mem_map, List.mem_range]
  constructor
  · rintro ⟨k, hk, rfl⟩; omega
  · intro h
    exact ⟨(o + range).toNat, by omega, by omega⟩

theorem offsets_pairwise (range : Nat) : List.Pairwise (· < ·) (offsets range) := by
  unfold offsets
  rw [List.pairwise_map]
  apply List.Pairwise.imp _ (List.pairwise_lt_range (2 * range + 1))
  intro a b hab
  omega

/-- Row-major order: a cell in an earlier row, or earlier in the same row,
has the smaller index. -/
theorem cell_index_lt {count : Int} {r1 c1 r2 c2 : Int} (hc1 : c1 < count) (hc2 : 0 ≤ c2)
    (h1 : 0 ≤ r1) (hc0 : 0 ≤ c1)
    (h : r1 < r2 ∨ (r1 = r2 ∧ c1 < c2)) :
    (r1 * count + c1).toNat < (r2 * count + c2).toNat := by
  have hcount : 0 ≤ count := by omega
  have hnn : 0 ≤ r1 * count := Int.mul_nonneg h1 hcount
  rcases h with h | ⟨rfl, h⟩
  · have h2 : (r1 + 1) * count ≤ r2 * count := Int.mul_le_mul_of_nonneg_right (by omega) hcount
    have h3 : (r1 + 1) * count = r1 * count + count := by ring
    omega
  · omega

theorem chunkIndexes_tail_sorted (range count : Nat) (x y : Int) :
    List.Pairwise (· < ·)
      ((offsets range).flatMap fun yo => (offsets range).flatMap fun xo =>
        if xo ≠ 0 ∨ yo ≠ 0 then chunkIndexesAdd count x y xo yo else []) := by
  have hsingle : ∀ (xo yo : Int), List.Pairwise (· < ·)
      (if xo ≠ 0 ∨ yo ≠ 0 then chunkIndexesAdd count x y xo yo else []) := by
    intro xo yo
    split_ifs
    · have hl := chunkIndexesAdd_length_le count x y xo yo
      match hm : chunkIndexesAdd count x y xo yo with
      | [] => exact List.Pairwise.nil
      | [a] => exact List.pairwise_singleton _ _
      | a :: b :: rest => rw [hm] at hl; simp at hl
    · exact List.Pairwise.nil
  have hmem : ∀ (xo yo : Int) (j : Nat),
      j ∈ (if xo ≠ 0 ∨ yo ≠ 0 then chunkIndexesAdd count x y xo yo else []) →
      (0 ≤ x + xo ∧ x + xo < count ∧ 0 ≤ y + yo ∧ y + yo < count) ∧
        j = ((y + yo) * (count : Int) + (x + xo)).toNat := by
    intro xo yo j hj
    split_ifs at hj
    · exact (mem_chunkIndexesAdd count x y xo yo j).1 hj
    · simp at hj
  rw [List.pairwise_flatMap]
  constructor
  · intro yo _
    rw [List.pairwise_flatMap]
    refine ⟨fun xo _ => hsingle xo yo, ?_⟩
    apply List.Pairwise.imp _ (offsets_pairwise range)
    intro xo1 xo2 hlt a ha b hb
    obtain ⟨⟨a1, a2, a3, a4⟩, rfl⟩ := hmem xo1 yo a ha
    obtain ⟨⟨b1, b2, b3, b4⟩, rfl⟩ := hmem xo2 yo b hb
    exact cell_index_lt a2 b1 a3 a1 (Or.inr ⟨rfl, by omega⟩)
  · apply List.Pairwise.imp _ (offsets_pairwise range)
    intro yo1 yo2 hlt a ha b hb
    rw [List.mem_flatMap] at ha hb
    obtain ⟨xo1, _, ha⟩ := ha
    obtain ⟨xo2, _, hb⟩ := hb
    obtain ⟨⟨a1, a2, a3, a4⟩, rfl⟩ := hmem xo1 yo1 a ha
    obtain ⟨⟨b1, b2, b3, b4⟩, rfl⟩ := hmem xo2 yo2 b hb
    exact cell_index_lt a2 b1 a3 a1 (Or.inl (by omega))

theorem mem_chunkIndexes_tail (range count : Nat) (x y : Int) (j : Nat) :
    j ∈ ((offsets range).flatMap fun yo => (offsets range).flatMap fun xo =>
        if xo ≠ 0 ∨ yo ≠ 0 then chunkIndexesAdd count x y xo yo else []) ↔
      ∃ xo yo : Int, (-(range : Int) ≤ xo ∧ xo ≤ range) ∧ (-(range : Int) ≤ yo ∧ yo ≤ range) ∧
        (xo ≠ 0 ∨ yo ≠ 0) ∧ (0 ≤ x + xo ∧ x + xo < count ∧ 0 ≤ y + yo ∧ y + yo < count) ∧
        j = ((y + yo) * (count : Int) + (x + xo)).toNat := by
  simp only [List.mem_flatMap, mem_offsets]
  constructor
  · rintro ⟨yo, hyo, xo, hxo, hj⟩
    split_ifs at hj with hne
    · exact ⟨xo, yo, hxo, hyo, hne, (mem_chunkIndexesAdd count x y xo yo j).1 hj⟩
    · simp at hj
  · rintro ⟨xo, yo, hxo, hyo, hne, hj⟩
    refine ⟨yo, hyo, xo, hxo, ?_⟩
    rw [if_pos hne]
    exact (mem_chunkIndexesAdd count x y xo yo j).2 hj

theorem chunkIndexes_head (count idx : Nat) (hc : 1 ≤ count) (hlt : idx < count * count) :
    chunkIndexesAdd count ((idx % count : Nat) : Int) ((idx / count : Nat) : Int) 0 0 = [idx] := by
  have hx : idx % count < count := Nat.mod_lt _ (by omega)
  have hy : idx / count < count := Nat.div_lt_of_lt_mul hlt
  have hidx : idx / count * count + idx % count = idx := by
    rw [Nat.mul_comm]; exact Nat.div_add_mod idx count
  have hx0 : (0 : Int) ≤ ((idx % count : Nat) : Int) := Int.ofNat_nonneg _
  have hy0 : (0 : Int) ≤ ((idx / count : Nat) : Int) := Int.ofNat_nonneg _
  have hx1 : ((idx % count : Nat) : Int) < (count : Int) := by exact_mod_cast hx
  have hy1 : ((idx / count : Nat) : Int) < (count : Int) := by exact_mod_cast hy
  unfold chunkIndexesAdd
  simp only [add_zero]
  rw [if_neg (by omega), if_neg (by omega)]
  have : (((idx / count : Nat) : Int) * (count : Int) + ((idx % count : Nat) : Int))
      = ((idx / count * count + idx % count : Nat) : Int) := by push_cast; ring
  rw [this, Int.toNat_natCast, hidx]

theorem cell_index_toNat {count : Nat} {r c : Int} (hr : 0 ≤ r) (hc : 0 ≤ c) :
    (r * (count : Int) + c).toNat = r.toNat * count + c.toNat := by
  have h1 : r = (r.toNat : Int) := (Int.toNat_of_nonneg hr).symm
  have h2 : c = (c.toNat : Int) := (Int.toNat_of_nonneg hc).symm
  have : r * (count : Int) + c = ((r.toNat * count + c.toNat : Nat) : Int) := by
    push_cast; rw [← h1, ← h2]
  rw [this, Int.toNat_natCast]

theorem lt_imp_row_major {count a b : Nat} (h : a < b) :
    a / count < b / count ∨ (a / count = b / count ∧ a % count < b % count) := by
  have hle : a / count ≤ b / count := Nat.div_le_div_right h.le
  rcases Nat.lt_or_eq_of_le hle with hlt | heq
  · exact Or.inl hlt
  · right
    refine ⟨heq, ?_⟩
    have ha := Nat.div_add_mod a count
    have hb := Nat.div_add_mod b count
    rw [heq] at ha
    omega

/-- C16. For every `count ≥ 1`, every `idx < count * count` and every
`range`, `chunkIndexes(count, idx)` is `idx` followed by a tail that is
strictly increasing, hence in row-major order of the cells (row ascending,
then column ascending), and does not hold `idx`; the list has no
duplicates; its members are exactly the indices `cy * count + cx` of the
cells with `cx, cy < count`, `|cx - idx mod count| ≤ range` and
`|cy - idx div count| ≤ range`; and every member is below `count * count`. -/
theorem chunkIndexes_contract (range count idx : Nat) (hc : 1 ≤ count)
    (hidx : idx < count * count) :
    ∃ tail, chunkIndexes range count idx = idx :: tail ∧
      List.Pairwise (· < ·) tail ∧
      List.Pairwise (fun a b =>
        a / count < b / count ∨ (a / count = b / count ∧ a % count < b % count)) tail ∧
      idx ∉ tail ∧
      (chunkIndexes range count idx).Nodup ∧
      (∀ j, j ∈ chunkIndexes range count idx ↔
        ∃ cx cy : Nat, cx < count ∧ cy < count ∧
          |(cx : Int) - ((idx % count : Nat) : Int)| ≤ (range : Int) ∧
          |(cy : Int) - ((idx / count : Nat) : Int)| ≤ (range : Int) ∧
          j = cy * count + cx) ∧
      ∀ j ∈ chunkIndexes range count idx, j < count * count := by
  have hx : idx % count < count := Nat.mod_lt _ (by omega)
  have hy : idx / count < count := Nat.div_lt_of_lt_mul hidx
  have hsplit : idx / count * count + idx % count = idx := by
    rw [Nat.mul_comm]; exact Nat.div_add_mod idx count
  have hsorted := chunkIndexes_tail_sorted range count
    ((idx % count : Nat) : Int) ((idx / count : Nat) : Int)
  have hmemt := mem_chunkIndexes_tail range count
    ((idx % count : Nat) : Int) ((idx / count : Nat) : Int)
  have hlist := chunkIndexes_eq range count idx
  rw [chunkIndexes_head count idx hc hidx] at hlist
  -- an index of the tail, in natural numbers
  have hnat : ∀ {xo yo : Int},
      (0 ≤ ((idx % count : Nat) : Int) + xo ∧ ((idx % count : Nat) : Int) + xo < count ∧
        0 ≤ ((idx / count : Nat) : Int) + yo ∧ ((idx / count : Nat) : Int) + yo < count) →
      ((((idx / count : Nat) : Int) + yo) * (count : Int)
          + (((idx % count : Nat) : Int) + xo)).toNat
        = (((idx / count : Nat) : Int) + yo).toNat * count
          + (((idx % count : Nat) : Int) + xo).toNat := by
    intro xo yo hb
    exact cell_index_toNat hb.2.2.1 hb.1
  have hnotmem : idx ∉ ((offsets range).flatMap fun yo => (offsets range).flatMap fun xo =>
        if xo ≠ 0 ∨ yo ≠ 0 then
          chunkIndexesAdd count ((idx % count : Nat) : Int) ((idx / count : Nat) : Int) xo yo
        else []) := by
    intro hin
    obtain ⟨xo, yo, _, _, hne, hb, hj⟩ := (hmemt idx).1 hin
    rw [hnat hb] at hj
    have h1 : (((idx % count : Nat) : Int) + xo).toNat < count := by omega
    have hmod : idx % count = (((idx % count : Nat) : Int) + xo).toNat := by
      conv_lhs => rw [hj]
      rw [Nat.add_comm, Nat.add_mul_mod_self_right, Nat.mod_eq_of_lt h1]
    have hdiv : idx / count = (((idx / count : Nat) : Int) + yo).toNat := by
      conv_lhs => rw [hj]
      rw [Nat.add_comm, Nat.add_mul_div_right _ _ (by omega), Nat.div_eq_of_lt h1, Nat.zero_add]
    omega
  have hmem : ∀ j, j ∈ chunkIndexes range count idx ↔
      ∃ cx cy : Nat, cx < count ∧ cy < count ∧
        |(cx : Int) - ((idx % count : Nat) : Int)| ≤ (range : Int) ∧
        |(cy : Int) - ((idx / count : Nat) : Int)| ≤ (range : Int) ∧
        j = cy * count + cx := by
    intro j
    rw [hlist, List.singleton_append, List.mem_cons, hmemt]
    constructor
    · rintro (hj0 | ⟨xo, yo, hxo, hyo, _, hb, hj⟩)
      · exact ⟨idx % count, idx / count, hx, hy, by simp, by simp, by rw [hj0, hsplit]⟩
      · rw [hnat hb] at hj
        refine ⟨(((idx % count : Nat) : Int) + xo).toNat,
          (((idx / count : Nat) : Int) + yo).toNat, by omega, by omega, ?_, ?_, hj⟩
        · rw [abs_le]; omega
        · rw [abs_le]; omega
    · rintro ⟨cx, cy, hcx, hcy, hax, hay, rfl⟩
      rw [abs_le] at hax hay
      by_cases hsame : cx = idx % count ∧ cy = idx / count
      · left; rw [hsame.1, hsame.2]; exact hsplit
      · right
        refine ⟨(cx : Int) - ((idx % count : Nat) : Int), (cy : Int) - ((idx / count : Nat) : Int),
          by omega, by omega, by omega, ?_, ?_⟩
        · omega
        · have e1 : ((idx / count : Nat) : Int) + ((cy : Int) - ((idx / count : Nat) : Int))
              = (cy : Int) := by ring
          have e2 : ((idx % count : Nat) : Int) + ((cx : Int) - ((idx % count : Nat) : Int))
              = (cx : Int) := by ring
          rw [e1, e2]
          have : (cy : Int) * (count : Int) + (cx : Int) = ((cy * count + cx : Nat) : Int) := by
            push_cast; ring
          rw [this, Int.toNat_natCast]
  refine ⟨_, hlist, hsorted, ?_, hnotmem, ?_, hmem, ?_⟩
  · exact List.Pairwise.imp (fun h => lt_imp_row_major h) hsorted
  · rw [hlist, List.singleton_append, List.nodup_cons]
    exact ⟨hnotmem, List.Pairwise.imp (fun h => Nat.ne_of_lt h) hsorted⟩
  · intro j hj
    obtain ⟨cx, cy, hcx, hcy, _, _, rfl⟩ := (hmem j).1 hj
    calc cy * count + cx < cy * count + count := by omega
      _ = (cy + 1) * count := by ring
      _ ≤ count * count := Nat.mul_le_mul_right _ hcy

/-- The contract of `chunkIndexes` at the centre cell 12 of a 5×5 grid with
`range = 1`. -/
theorem chunkIndexes_contract_witness :
    (1 ≤ 5 ∧ 12 < 5 * 5) ∧
    ∃ tail, chunkIndexes 1 5 12 = 12 :: tail ∧
      List.Pairwise (· < ·) tail ∧
      List.Pairwise (fun a b => a / 5 < b / 5 ∨ (a / 5 = b / 5 ∧ a % 5 < b % 5)) tail ∧
      12 ∉ tail ∧
      (chunkIndexes 1 5 12).Nodup ∧
      (∀ j, j ∈ chunkIndexes 1 5 12 ↔
        ∃ cx cy : Nat, cx < 5 ∧ cy < 5 ∧
          |(cx : Int) - ((12 % 5 : Nat) : Int)| ≤ ((1 : Nat) : Int) ∧
          |(cy : Int) - ((12 / 5 : Nat) : Int)| ≤ ((1 : Nat) : Int) ∧
          j = cy * 5 + cx) ∧
      ∀ j ∈ chunkIndexes 1 5 12, j < 5 * 5 :=
  ⟨by decide, chunkIndexes_contract 1 5 12 (by decide) (by decide)⟩

/-! ## The emitter and the command line -/

theorem flatMap_emitMatch_default (fmt : Bool) (ms : List Match) :
    ms.flatMap (emitMatch fmt false)
      = (ms.filter fun m => decide (m.1.rect ≠ m.2.rect)).map fun m =>
          rectToString fmt m.2.rect ++ " " ++ rectToString fmt m.1.rect := by
  induction ms with
  | nil => rfl
  | cons m rest ih =>
    rw [List.flatMap_cons, ih]
    by_cases h : m.1.rect = m.2.rect
    · simp [emitMatch, h, List.filter_cons]
    · simp [emitMatch, h, List.filter_cons]

theorem flatMap_emitMatch_same (fmt : Bool) (ms : List Match) :
    ms.flatMap (emitMatch fmt true)
      = (ms.filter fun m => decide (m.1.rect = m.2.rect)).map fun m =>
          rectToString fmt m.1.rect := by
  induction ms with
  | nil => rfl
  | cons m rest ih =>
    rw [List.flatMap_cons, ih]
    by_cases h : m.1.rect = m.2.rect
    · simp [emitMatch, h, List.filter_cons]
    · simp [emitMatch, h, List.filter_cons]

/-- C17. The lines written to stdout for a final match list and a used
region. Default mode, match list not empty: one line `<old-rect> <new-rect>`
for each match whose two rectangles differ, in list order, then one line
per complement rectangle. Default mode, empty match list: the single line
of the whole-image rectangle. Mode `--same`: one line `<rect>` for each
match whose two rectangles are identical, in list order, and nothing else
(no line for an empty match list). -/
theorem emit_lines (fmt : Bool) (rectsOf : QRect → QRegion → List QRect) (imageRect : QRect)
    (used : QRegion) :
    (∀ m ms, emit fmt false rectsOf imageRect (m :: ms) used
      = ((m :: ms).filter fun p => decide (p.1.rect ≠ p.2.rect)).map
          (fun p => rectToString fmt p.2.rect ++ " " ++ rectToString fmt p.1.rect)
        ++ (rectsOf imageRect used).map (rectToString fmt)) ∧
    emit fmt false rectsOf imageRect [] used = [rectToString fmt imageRect] ∧
    (∀ ms, emit fmt true rectsOf imageRect ms used
      = (ms.filter fun p => decide (p.1.rect = p.2.rect)).map fun p =>
          rectToString fmt p.1.rect) ∧
    emit fmt true rectsOf imageRect [] used = [] := by
  refine ⟨?_, rfl, ?_, rfl⟩
  · intro m ms
    simp only [emit, List.isEmpty_cons, Bool.not_false, if_true]
    rw [flatMap_emitMatch_default]
  · intro ms
    cases ms with
    | nil => rfl
    | cons m rest =>
      simp only [emit, List.isEmpty_cons, Bool.not_false, if_true, Bool.not_true]
      rw [flatMap_emitMatch_same]
      simp

/-- C18, at a failing input. The argument `--range=5` is rejected with exit
code 1: the value is read from offset 11, the offset that fits
`--min-size=`, so nothing is left of it. Of `--range=1234` only the `4` is
read. The sibling option `--min-size=5` is read from the right offset. -/
theorem range_argument_rejected :
    parseArg Example.files MainVars.init "--range=5".toList = .error 1 ∧
    mainRun Example.files (fun _ _ => [])
        ["--range=5".toList, "old.png".toList, "new.png".toList] = some (1, []) ∧
    List.drop 11 "--range=5".toList = [] ∧
    (parseArg Example.files MainVars.init "--range=1234".toList).toOption.map
        (fun v => v.range) = some 4 ∧
    (parseArg Example.files MainVars.init "--min-size=5".toList).toOption.map
        (fun v => v.minSize) = some 5 := by
  decide

/-- C20, at a failing input. For a 5×5 image and the default `minSize = 10`
the whole-image chunk of level 1 is not null and is 5 wide and 5 high, so
the assertion `newChunk.width() >= minSize && newChunk.height() >= minSize`
of the driver is false for it. -/
theorem size_assertion_fails_at_level_one :
    1 ≤ Example.small5.width ∧ 1 ≤ Example.small5.height ∧
    Example.small5.chunks 10 1 QRegion.empty = [Example.small5.chunk ⟨0, 0, 5, 5⟩] ∧
    (Example.small5.chunk ⟨0, 0, 5, 5⟩).isNull = false ∧
    (Example.small5.chunk ⟨0, 0, 5, 5⟩).width = 5 ∧
    levelAssert 10 (Example.small5.chunks 10 1 QRegion.empty) = false ∧
    ¬ driverAssertsHold ⟨0, 0⟩ 10 2 Example.small5 Example.small5 := by
  refine ⟨by decide, by decide, by decide, by decide, by decide, by decide, ?_⟩
  rw [driverAssertsHold_iff]
  decide

/-! ## The translation scenario -/

theorem Image.loadPixels_color (w h : Nat) (pixel : Nat → Nat → Color) {x y : Nat}
    (hx : x < w) (hy : y < h) : (Image.loadPixels w h pixel).color x y = pixel x y := by
  have hidx : y * w + x < w * h := by
    calc y * w + x < y * w + w := by omega
      _ = (y + 1) * w := by ring
      _ ≤ h * w := Nat.mul_le_mul_right _ hy
      _ = w * h := Nat.mul_comm _ _
  have hmod : (y * w + x) % w = x := by
    rw [Nat.add_comm, Nat.add_mul_mod_self_right, Nat.mod_eq_of_lt hx]
  have hdiv : (y * w + x) / w = y := by
    rw [Nat.add_comm, Nat.add_mul_div_right _ _ (by omega), Nat.div_eq_of_lt hx, Nat.zero_add]
  show ((List.range (w * h)).map fun i => pixel (i % w) (i / w)).getD (y * w + x) default = _
  rw [List.getD_eq_getElem?_getD, List.getElem?_map, List.getElem?_range hidx]
  simp [hmod, hdiv]

/-- A chunk whose top-left pixel is not transparent does not get the flag. -/
theorem Image.chunk_of_opaque_corner (img : Image) (r : QRect) (hw : 0 < r.w) (hh : 0 < r.h)
    (ha : (img.color r.x r.y).alpha ≠ 0) : img.chunk r = ⟨some img, r, 0⟩ := by
  have hs : Chunk.scanTransparent img r = false := by
    rw [← Bool.not_eq_true, Chunk.scanTransparent_iff]
    intro h
    exact ha (by simpa using h 0 0 hw hh)
  show (⟨some img, r, if Chunk.scanTransparent img r = true then Chunk.AllTransparent else 0⟩ : Chunk) = _
  rw [hs]; rfl

/-- Two chunks without the flag that differ in one pixel compare unequal. -/
theorem Chunk.compare_false_of_pixel (t : FloatVal) (c o : Chunk) (hf : c.mFlags = 0)
    (x y : Nat) (hx : x < c.width) (hy : y < c.height)
    (hp : Color.compare t (c.color x y) (o.color x y) = false) :
    Chunk.compare t c o = false := by
  unfold Chunk.compare
  rw [if_neg (by rw [hf]; simp)]
  rw [← Bool.not_eq_true, List.all_eq_true]
  intro h
  have h1 := h y (List.mem_range.2 hy)
  rw [List.all_eq_true] at h1
  have h2 := h1 x (List.mem_range.2 hx)
  rw [hp] at h2
  exact Bool.noConfusion h2

theorem chunkIndexes_two (range : Nat) (hr : 1 ≤ range) (i : Nat) (hi : i < 4) :
    chunkIndexes range 2 i = i :: ([0, 1, 2, 3].filter fun j => decide (j ≠ i)) := by
  have hs := chunkIndexes_tail_sorted range 2 ((i % 2 : Nat) : Int) ((i / 2 : Nat) : Int)
  have hm := mem_chunkIndexes_tail range 2 ((i % 2 : Nat) : Int) ((i / 2 : Nat) : Int)
  rw [chunkIndexes_eq, chunkIndexes_head 2 i (by omega) (by omega), List.singleton_append]
  congr 1
  have hmem : ∀ j, j ∈ ((offsets range).flatMap fun yo => (offsets range).flatMap fun xo =>
        if xo ≠ 0 ∨ yo ≠ 0 then
          chunkIndexesAdd 2 ((i % 2 : Nat) : Int) ((i / 2 : Nat) : Int) xo yo else [])
      ↔ j ∈ [0, 1, 2, 3].filter fun j => decide (j ≠ i) := by
    intro j
    rw [hm j]
    simp only [List.mem_filter, List.mem_cons, List.mem_singleton, List.not_mem_nil, or_false,
      decide_eq_true_eq]
    constructor
    · rintro ⟨xo, yo, hxo, hyo, hne, hb, hj⟩
      push_cast at hb hj
      omega
    · rintro ⟨hj, hne⟩
      refine ⟨((j % 2 : Nat) : Int) - ((i % 2 : Nat) : Int),
        ((j / 2 : Nat) : Int) - ((i / 2 : Nat) : Int), ?_, ?_, ?_, ?_, ?_⟩
      · omega
      · omega
      · omega
      · push_cast; omega
      · push_cast; omega
  have hsorted2 : List.Pairwise (· < ·) ([0, 1, 2, 3].filter fun j => decide (j ≠ i)) :=
    List.Pairwise.sublist (List.filter_sublist _) (by decide)
  apply List.eq_of_perm_of_sorted _ hs hsorted2
  rw [List.perm_ext_iff_of_nodup (hs.imp (fun h => Nat.ne_of_lt h))
    (hsorted2.imp (fun h => Nat.ne_of_lt h))]
  exact hmem
theorem squareOldPixel_alpha (x y : Nat) : (Example.squareOldPixel x y).alpha ≠ 0 := by
  unfold Example.squareOldPixel
  split_ifs <;> decide

theorem squareNewPixel_alpha (x y : Nat) : (Example.squareNewPixel x y).alpha ≠ 0 := by
  unfold Example.squareNewPixel
  split_ifs <;> decide

/-- In an image without transparent pixels a non-empty chunk that starts
inside the image does not get the flag. -/
theorem Image.chunk_of_opaque (img : Image) (hop : ∀ x y, x < img.width → y < img.height →
    (img.color x y).alpha ≠ 0) (r : QRect) (hw : 0 < r.w) (hh : 0 < r.h)
    (hx : r.x < img.width) (hy : r.y < img.height) : img.chunk r = ⟨some img, r, 0⟩ :=
  Image.chunk_of_opaque_corner img r hw hh (hop _ _ hx hy)

theorem Image.chunks_two_of_200 (img : Image) (hw : img.width = 200) (hh : img.height = 200)
    (hop : ∀ x y, x < img.width → y < img.height → (img.color x y).alpha ≠ 0) :
    img.chunks 10 2 QRegion.empty
      = [⟨some img, ⟨0, 0, 100, 100⟩, 0⟩, ⟨some img, ⟨100, 0, 100, 100⟩, 0⟩,
         ⟨some img, ⟨0, 100, 100, 100⟩, 0⟩, ⟨some img, ⟨100, 100, 100, 100⟩, 0⟩] := by
  rw [Image.chunks_unmasked img 10 2 (Or.inr (by rw [hw, hh]; decide))]
  have hr : List.range (2 * 2) = [0, 1, 2, 3] := rfl
  rw [hr]
  have c0 : img.cellRect 2 (0 % 2) (0 / 2) = ⟨0, 0, 100, 100⟩ := by
    simp [Image.cellRect, hw, hh]
  have c1 : img.cellRect 2 (1 % 2) (1 / 2) = ⟨100, 0, 100, 100⟩ := by
    simp [Image.cellRect, hw, hh]
  have c2 : img.cellRect 2 (2 % 2) (2 / 2) = ⟨0, 100, 100, 100⟩ := by
    simp [Image.cellRect, hw, hh]
  have c3 : img.cellRect 2 (3 % 2) (3 / 2) = ⟨100, 100, 100, 100⟩ := by
    simp [Image.cellRect, hw, hh]
  simp only [List.map_cons, List.map_nil, c0, c1, c2, c3]
  rw [Image.chunk_of_opaque img hop ⟨0, 0, 100, 100⟩ (by decide) (by decide)
      (by rw [hw]; decide) (by rw [hh]; decide),
    Image.chunk_of_opaque img hop ⟨100, 0, 100, 100⟩ (by decide) (by decide)
      (by rw [hw]; decide) (by rw [hh]; decide),
    Image.chunk_of_opaque img hop ⟨0, 100, 100, 100⟩ (by decide) (by decide)
      (by rw [hw]; decide) (by rw [hh]; decide),
    Image.chunk_of_opaque img hop ⟨100, 100, 100, 100⟩ (by decide) (by decide)
      (by rw [hw]; decide) (by rw [hh]; decide)]

/-- Two chunks whose pixels agree at every offset compare equal under
tolerance 0. -/
theorem Chunk.compare_of_eq_pixels (n o : Image) (r q : QRect) (f g : Nat)
    (h : ∀ x y, x < r.w → y < r.h → n.color (r.x + x) (r.y + y) = o.color (q.x + x) (q.y + y)) :
    Chunk.compare ⟨0, 0⟩ ⟨some n, r, f⟩ ⟨some o, q, g⟩ = true := by
  apply Chunk.compare_of_forall
  intro x y hx hy
  show Color.compare ⟨0, 0⟩ (n.color (r.x + x) (r.y + y)) (o.color (q.x + x) (q.y + y)) = true
  rw [h x y hx hy]
  exact Color.compare_same_colour _

theorem IsTranslationScene.opaque_old {o n : Image} (h : IsTranslationScene o n) :
    ∀ x y, x < o.width → y < o.height → (o.color x y).alpha ≠ 0 := by
  obtain ⟨h1, h2, _, _, h5, _⟩ := h
  intro x y hx hy
  rw [h5 x y (by omega) (by omega)]
  exact squareOldPixel_alpha x y

theorem IsTranslationScene.opaque_new {o n : Image} (h : IsTranslationScene o n) :
    ∀ x y, x < n.width → y < n.height → (n.color x y).alpha ≠ 0 := by
  obtain ⟨_, _, h3, h4, _, h6⟩ := h
  intro x y hx hy
  rw [h6 x y (by omega) (by omega)]
  exact squareNewPixel_alpha x y

/-- The comparisons the driver makes at levels 1 and 2 of the scenario. -/
theorem IsTranslationScene.comparisons {o n : Image} (h : IsTranslationScene o n) :
    Chunk.compare ⟨0, 0⟩ ⟨some n, ⟨0, 0, 200, 200⟩, 0⟩ ⟨some o, ⟨0, 0, 200, 200⟩, 0⟩ = false ∧
    Chunk.compare ⟨0, 0⟩ ⟨some n, ⟨0, 0, 100, 100⟩, 0⟩ ⟨some o, ⟨0, 0, 100, 100⟩, 0⟩ = false ∧
    Chunk.compare ⟨0, 0⟩ ⟨some n, ⟨0, 0, 100, 100⟩, 0⟩ ⟨some o, ⟨100, 0, 100, 100⟩, 0⟩ = true ∧
    Chunk.compare ⟨0, 0⟩ ⟨some n, ⟨100, 0, 100, 100⟩, 0⟩ ⟨some o, ⟨100, 0, 100, 100⟩, 0⟩ = true ∧
    Chunk.compare ⟨0, 0⟩ ⟨some n, ⟨0, 100, 100, 100⟩, 0⟩ ⟨some o, ⟨0, 100, 100, 100⟩, 0⟩ = true ∧
    Chunk.compare ⟨0, 0⟩ ⟨some n, ⟨100, 100, 100, 100⟩, 0⟩ ⟨some o, ⟨100, 100, 100, 100⟩, 0⟩
      = false ∧
    Chunk.compare ⟨0, 0⟩ ⟨some n, ⟨100, 100, 100, 100⟩, 0⟩ ⟨some o, ⟨0, 0, 100, 100⟩, 0⟩
      = true := by
  obtain ⟨_, _, _, _, ho, hn⟩ := h
  have hwr : Color.compare ⟨0, 0⟩ Example.white Example.red = false := by decide
  have hrw : Color.compare ⟨0, 0⟩ Example.red Example.white = false := by decide
  refine ⟨?_, ?_, ?_, ?_, ?_, ?_, ?_⟩
  · apply Chunk.compare_false_of_pixel _ _ _ rfl 0 0 (by simp [Chunk.width]) (by simp [Chunk.height])
    show Color.compare ⟨0, 0⟩ (n.color (0 + 0) (0 + 0)) (o.color (0 + 0) (0 + 0)) = false
    rw [hn _ _ (by decide) (by decide), ho _ _ (by decide) (by decide)]
    exact hwr
  · apply Chunk.compare_false_of_pixel _ _ _ rfl 0 0 (by simp [Chunk.width]) (by simp [Chunk.height])
    show Color.compare ⟨0, 0⟩ (n.color (0 + 0) (0 + 0)) (o.color (0 + 0) (0 + 0)) = false
    rw [hn _ _ (by decide) (by decide), ho _ _ (by decide) (by decide)]
    exact hwr
  · apply Chunk.compare_of_eq_pixels
    intro x y hx hy
    have hx' : x < 100 := hx
    have hy' : y < 100 := hy
    dsimp only
    rw [hn _ _ (by omega) (by omega), ho _ _ (by omega) (by omega)]
    unfold Example.squareNewPixel Example.squareOldPixel
    rw [if_neg (by omega), if_neg (by omega)]
  · apply Chunk.compare_of_eq_pixels
    intro x y hx hy
    have hx' : x < 100 := hx
    have hy' : y < 100 := hy
    dsimp only
    rw [hn _ _ (by omega) (by omega), ho _ _ (by omega) (by omega)]
    unfold Example.squareNewPixel Example.squareOldPixel
    rw [if_neg (by omega), if_neg (by omega)]
  · apply Chunk.compare_of_eq_pixels
    intro x y hx hy
    have hx' : x < 100 := hx
    have hy' : y < 100 := hy
    dsimp only
    rw [hn _ _ (by omega) (by omega), ho _ _ (by omega) (by omega)]
    unfold Example.squareNewPixel Example.squareOldPixel
    rw [if_neg (by omega), if_neg (by omega)]
  · apply Chunk.compare_false_of_pixel _ _ _ rfl 0 0 (by simp [Chunk.width]) (by simp [Chunk.height])
    show Color.compare ⟨0, 0⟩ (n.color (100 + 0) (100 + 0)) (o.color (100 + 0) (100 + 0)) = false
    rw [hn _ _ (by decide) (by decide), ho _ _ (by decide) (by decide)]
    exact hrw
  · apply Chunk.compare_of_eq_pixels
    intro x y hx hy
    have hx' : x < 100 := hx
    have hy' : y < 100 := hy
    dsimp only
    rw [hn _ _ (by omega) (by omega), ho _ _ (by omega) (by omega)]
    unfold Example.squareNewPixel Example.squareOldPixel
    by_cases hc : x < 50 ∧ y < 50
    · rw [if_pos (by omega), if_pos (by omega)]
    · rw [if_neg (by omega), if_neg (by omega)]
/-- When every non-empty rectangle inside the image meets the filter, every
slot of a grid other than that of level 1 is null. -/
theorem Image.chunks_all_null_of_cover (minSize : Nat) (hm : 1 ≤ minSize) (img : Image)
    (filter : QRegion)
    (hcov : ∀ r : QRect, 0 < r.w → 0 < r.h → r.x + r.w ≤ img.width → r.y + r.h ≤ img.height →
      filter.intersects r = true)
    (count : Nat) (h1 : count ≠ 1) :
    (img.chunks minSize count filter).filter (fun c => !c.isNull) = [] := by
  by_cases hs : img.width / count < minSize ∨ img.height / count < minSize
  · rw [Image.chunks_stop minSize img count _ h1 hs]; rfl
  have hw : minSize ≤ img.width / count := by omega
  have hh : minSize ≤ img.height / count := by omega
  rw [Image.chunks_grid minSize img count _ h1 hw hh, List.filter_eq_nil_iff]
  intro c hc
  rw [List.mem_map] at hc
  obtain ⟨idx, hidx, rfl⟩ := hc
  rw [List.mem_range] at hidx
  have hc0 : 0 < count := by
    rcases Nat.eq_zero_or_pos count with h0 | h0
    · subst h0; simp at hidx
    · exact h0
  obtain ⟨_, _, a3, a4, a5, a6, _, _⟩ :=
    img.cellRect_bounds (Nat.mod_lt idx hc0) (Nat.div_lt_of_lt_mul hidx)
  rw [hcov _ (by omega) (by omega) a5 a6]
  simp [Chunk.null, Chunk.isNull]

theorem quadrants_cover (r : QRect) (hw : 0 < r.w) (hh : 0 < r.h) (hx : r.x + r.w ≤ 200)
    (hy : r.y + r.h ≤ 200) : QRegion.intersects Example.quadrants r = true := by
  simp only [QRegion.intersects, Example.quadrants, List.any_cons, List.any_nil, Bool.or_false,
    Bool.or_eq_true, QRect.intersects_iff]
  by_cases h1 : r.x < 100 <;> by_cases h2 : r.y < 100
  · left; refine ⟨?_, ?_, ?_, ?_, ?_, ?_, ?_, ?_⟩ <;> omega
  · right; right; left; refine ⟨?_, ?_, ?_, ?_, ?_, ?_, ?_, ?_⟩ <;> omega
  · right; left; refine ⟨?_, ?_, ?_, ?_, ?_, ?_, ?_, ?_⟩ <;> omega
  · right; right; right; refine ⟨?_, ?_, ?_, ?_, ?_, ?_, ?_, ?_⟩ <;> omega

theorem IsTranslationScene.levelStep_one {o n : Image} (h : IsTranslationScene o n)
    (range : Nat) :
    levelStep ⟨0, 0⟩ 10 range o n DriverState.init = some ⟨[], QRegion.empty, 2⟩ := by
  obtain ⟨c1, _, _, _, _, _, _⟩ := h.comparisons
  have hon := h.opaque_new
  have hoo := h.opaque_old
  obtain ⟨h1, h2, h3, h4, _, _⟩ := h
  have en : n.chunk n.rect = ⟨some n, ⟨0, 0, 200, 200⟩, 0⟩ := by
    have : n.rect = ⟨0, 0, 200, 200⟩ := by simp [Image.rect, h3, h4]
    rw [this]
    exact Image.chunk_of_opaque n hon _ (by decide) (by decide) (by rw [h3]; decide)
      (by rw [h4]; decide)
  have eo : o.chunk o.rect = ⟨some o, ⟨0, 0, 200, 200⟩, 0⟩ := by
    have : o.rect = ⟨0, 0, 200, 200⟩ := by simp [Image.rect, h1, h2]
    rw [this]
    exact Image.chunk_of_opaque o hoo _ (by decide) (by decide) (by rw [h1]; decide)
      (by rw [h2]; decide)
  simp only [levelStep, DriverState.init, Image.chunks_one, List.isEmpty_cons, matchChunks,
    matchStep, en, eo, chunkIndexes_one, findMatch]
  simp [Chunk.isNull, Chunk.size, c1, QRegion.empty]

theorem IsTranslationScene.levelStep_two {o n : Image} (h : IsTranslationScene o n)
    (range : Nat) (hr : 1 ≤ range) :
    levelStep ⟨0, 0⟩ 10 range o n ⟨[], QRegion.empty, 2⟩
      = some ⟨Example.quadrantMatches o n, Example.quadrants, 3⟩ := by
  obtain ⟨_, c2, c3, c4, c5, c6, c7⟩ := h.comparisons
  have hon := h.opaque_new
  have hoo := h.opaque_old
  obtain ⟨h1, h2, h3, h4, _, _⟩ := h
  have i0 : chunkIndexes range 2 0 = [0, 1, 2, 3] := by rw [chunkIndexes_two range hr 0 (by decide)]; rfl
  have i1 : chunkIndexes range 2 1 = [1, 0, 2, 3] := by rw [chunkIndexes_two range hr 1 (by decide)]; rfl
  have i2 : chunkIndexes range 2 2 = [2, 0, 1, 3] := by rw [chunkIndexes_two range hr 2 (by decide)]; rfl
  have i3 : chunkIndexes range 2 3 = [3, 0, 1, 2] := by rw [chunkIndexes_two range hr 3 (by decide)]; rfl
  simp only [levelStep, Image.chunks_two_of_200 n h3 h4 hon, Image.chunks_two_of_200 o h1 h2 hoo,
    List.isEmpty_cons, matchChunks, matchStep, findMatch, i0, i1, i2, i3]
  simp [Chunk.isNull, Chunk.size, Chunk.width, Chunk.height, Chunk.rect, c2, c3, c4, c5, c6, c7,
    QRegion.empty, QRegion.united, QRect.isEmpty, Example.quadrantMatches, Example.quadrants]
theorem joinPass_quadrantMatches (o n : Image) :
    joinPass (Example.quadrantMatches o n) = none := by
  simp [joinPass, joinInner, Example.quadrantMatches, Chunk.rect, Chunk.isNull, Chunk.flags,
    Chunk.isAligned, Chunk.height, Chunk.width, Chunk.x, Chunk.y, Chunk.AllTransparent,
    AlignLeft, AlignRight, AlignNone, AlignTop, AlignBottom]

theorem IsTranslationScene.step_keeps_inv {o n : Image} (h : IsTranslationScene o n)
    (range : Nat) (hr : 1 ≤ range) {st st1 : DriverState}
    (hs : levelStep ⟨0, 0⟩ 10 range o n st = some st1) (hinv : TranslationInv o n st) :
    TranslationInv o n st1 := by
  rcases hinv with rfl | rfl | ⟨e1, e2, e3⟩
  · rw [h.levelStep_one range] at hs
    simp only [Option.some.injEq] at hs
    right; left; exact hs.symm
  · rw [h.levelStep_two range hr] at hs
    simp only [Option.some.injEq] at hs
    right; right; rw [← hs]; exact ⟨rfl, rfl, le_refl _⟩
  · obtain ⟨added, a1, a2, a3, hsub⟩ := levelStep_spec hs
    have hcov : ∀ r : QRect, 0 < r.w → 0 < r.h → r.x + r.w ≤ n.width → r.y + r.h ≤ n.height →
        QRegion.intersects Example.quadrants r = true := by
      intro r hw hh hx hy
      rw [h.2.2.1] at hx
      rw [h.2.2.2.1] at hy
      exact quadrants_cover r hw hh hx hy
    rw [e2, Image.chunks_all_null_of_cover 10 (by decide) n _ hcov st.count (by omega)] at hsub
    have hnil : added = [] := by
      have := List.eq_nil_of_sublist_nil hsub
      simpa using this
    subst hnil
    right; right
    exact ⟨by rw [a1, e1]; simp, by rw [a2, e2]; rfl, by omega⟩

theorem IsTranslationScene.iter_keeps_inv {o n : Image} (h : IsTranslationScene o n)
    (range : Nat) (hr : 1 ≤ range) :
    ∀ (k : Nat) (st : DriverState),
      levelIter ⟨0, 0⟩ 10 range o n k = some st → TranslationInv o n st := by
  intro k
  induction k with
  | zero =>
    intro st hk
    simp only [levelIter, Option.some.injEq] at hk
    left; exact hk.symm
  | succ k ih =>
    intro st hk
    simp only [levelIter, Option.bind_eq_some] at hk
    obtain ⟨s0, h0, hs⟩ := hk
    exact h.step_keeps_inv range hr hs (ih s0 h0)

/-- The result of the driver and `joinChunks` on the translation scenario,
for every `range` of at least 1: the four quadrant matches, with the whole
image used. -/
theorem IsTranslationScene.finalMatches_eq {o n : Image} (h : IsTranslationScene o n)
    (range : Nat) (hr : 1 ≤ range) :
    finalMatches ⟨0, 0⟩ 10 range false o n
      = some (Example.quadrantMatches o n, Example.quadrants) := by
  obtain ⟨st, hst, hc, hstop, _⟩ := levelDriver_exits (by decide : 1 ≤ 10) ⟨0, 0⟩ range o n
  obtain ⟨k, hk⟩ := levelDriver_iter hst
  rcases h.iter_keeps_inv range hr k st hk with rfl | rfl | ⟨e1, e2, _⟩
  · simp [DriverState.init] at hc
  · exfalso
    obtain ⟨_, hs⟩ := hstop
    rw [h.2.2.1, h.2.2.2.1] at hs
    simp at hs
  · simp only [finalMatches, hst, e1, e2]
    rw [joinChunks_of_fixed _ (joinPass_quadrantMatches o n)]
    simp [Example.quadrantMatches]

theorem squareScene : IsTranslationScene Example.squareOld Example.squareNew :=
  ⟨rfl, rfl, rfl, rfl, fun _ _ hx hy => Image.loadPixels_color _ _ _ hx hy,
    fun _ _ hx hy => Image.loadPixels_color _ _ _ hx hy⟩
theorem emit_quadrantMatches (o n : Image) (rectsOf : QRect → QRegion → List QRect) :
    emit false false rectsOf ⟨0, 0, 200, 200⟩ (Example.quadrantMatches o n) Example.quadrants
      = ["100,0+100x100 0,0+100x100", "0,0+100x100 100,100+100x100"] ++
          (rectsOf ⟨0, 0, 200, 200⟩ Example.quadrants).map (rectToString false) := by
  have s1 : rectToString false ⟨100, 0, 100, 100⟩ = "100,0+100x100" := by decide
  have s2 : rectToString false ⟨0, 0, 100, 100⟩ = "0,0+100x100" := by decide
  have s3 : rectToString false ⟨100, 100, 100, 100⟩ = "100,100+100x100" := by decide
  have s4 : "100,0+100x100" ++ " " ++ "0,0+100x100" = "100,0+100x100 0,0+100x100" := by decide
  have s5 : "0,0+100x100" ++ " " ++ "100,100+100x100" = "0,0+100x100 100,100+100x100" := by
    decide
  simp [emit, emitMatch, Example.quadrantMatches, Chunk.rect, s1, s2, s3, s4, s5]

theorem quadrants_complement (px py : Nat) :
    QRegion.complementContains ⟨0, 0, 200, 200⟩ Example.quadrants px py = false := by
  simp only [QRegion.complementContains, QRegion.contains, Example.quadrants, QRect.contains,
    List.any_cons, List.any_nil]
  by_cases h1 : px < 100 <;> by_cases h2 : py < 100 <;> by_cases h3 : px < 200 <;>
    by_cases h4 : py < 200 <;> simp <;> omega
theorem quadrantMatches_moved (o n : Image) :
    (Example.quadrantMatches o n).filter (fun m => decide (m.1.rect ≠ m.2.rect))
      = [(⟨some n, ⟨0, 0, 100, 100⟩, 0⟩, ⟨some o, ⟨100, 0, 100, 100⟩, 0⟩),
         (⟨some n, ⟨100, 100, 100, 100⟩, 0⟩, ⟨some o, ⟨0, 0, 100, 100⟩, 0⟩)] := by
  simp [Example.quadrantMatches, Chunk.rect, List.filter]

/-- C19, amended. For the 200×200 images where old is opaque white with an
opaque red 50×50 square at `(0,0)` and new is opaque white with the same
square at `(100,100)`, with tolerance 0, `minSize = 10` and any `range` of at
least 1, the match list after the level driver and `joinChunks` is the list
of the four 100×100 quadrants of level 2: new `(0,0,100,100)` with old
`(100,0,100,100)`, the quadrants at `(100,0)` and `(0,100)` in place, and new
`(100,100,100,100)` with old `(0,0,100,100)`; `used` is the four quadrants.
Exactly two pairs have differing rectangles, the first and the last. The
default-mode stdout is the two match lines `100,0+100x100 0,0+100x100` and
`0,0+100x100 100,100+100x100`, followed only by the rectangles of the
complement of `used`, and that complement has no pixel. -/
theorem translation_quadrant_matches (range : Nat) (hr : 1 ≤ range)
    (rectsOf : QRect → QRegion → List QRect) :
    finalMatches ⟨0, 0⟩ 10 range false Example.squareOld Example.squareNew
      = some (Example.quadrantMatches Example.squareOld Example.squareNew,
          Example.quadrants) ∧
    (Example.quadrantMatches Example.squareOld Example.squareNew).filter
        (fun m => decide (m.1.rect ≠ m.2.rect))
      = [(⟨some Example.squareNew, ⟨0, 0, 100, 100⟩, 0⟩,
          ⟨some Example.squareOld, ⟨100, 0, 100, 100⟩, 0⟩),
         (⟨some Example.squareNew, ⟨100, 100, 100, 100⟩, 0⟩,
          ⟨some Example.squareOld, ⟨0, 0, 100, 100⟩, 0⟩)] ∧
    emit false false rectsOf Example.squareOld.rect
        (Example.quadrantMatches Example.squareOld Example.squareNew) Example.quadrants
      = ["100,0+100x100 0,0+100x100", "0,0+100x100 100,100+100x100"] ++
          (rectsOf Example.squareOld.rect Example.quadrants).map (rectToString false) ∧
    ∀ px py,
      QRegion.complementContains Example.squareOld.rect Example.quadrants px py = false := by
  have hrect : Example.squareOld.rect = ⟨0, 0, 200, 200⟩ := rfl
  rw [hrect]
  exact ⟨squareScene.finalMatches_eq range hr, quadrantMatches_moved _ _,
    emit_quadrantMatches _ _ rectsOf, quadrants_complement⟩

/-- The amended translation statement at `range = 5`, with a complement that
has no rectangle. -/
theorem translation_quadrant_matches_witness :
    1 ≤ 5 ∧
    (finalMatches ⟨0, 0⟩ 10 5 false Example.squareOld Example.squareNew
      = some (Example.quadrantMatches Example.squareOld Example.squareNew,
          Example.quadrants) ∧
    (Example.quadrantMatches Example.squareOld Example.squareNew).filter
        (fun m => decide (m.1.rect ≠ m.2.rect))
      = [(⟨some Example.squareNew, ⟨0, 0, 100, 100⟩, 0⟩,
          ⟨some Example.squareOld, ⟨100, 0, 100, 100⟩, 0⟩),
         (⟨some Example.squareNew, ⟨100, 100, 100, 100⟩, 0⟩,
          ⟨some Example.squareOld, ⟨0, 0, 100, 100⟩, 0⟩)] ∧
    emit false false (fun _ _ => []) Example.squareOld.rect
        (Example.quadrantMatches Example.squareOld Example.squareNew) Example.quadrants
      = ["100,0+100x100 0,0+100x100", "0,0+100x100 100,100+100x100"] ++
          ([] : List QRect).map (rectToString false) ∧
    ∀ px py,
      QRegion.complementContains Example.squareOld.rect Example.quadrants px py = false) :=
  ⟨by decide, translation_quadrant_matches 5 (by decide) (fun _ _ => [])⟩

/-- C19 as stated fails. On the translation scenario with tolerance 0,
`minSize = 10` and `range = 5` the final match list has two pairs with
differing rectangles, not one; no pair has the old-side rectangle
`(0,0,50,50)` or the new-side rectangle `(100,100,50,50)`; and the first line
of the default-mode stdout is not `0,0+50x50 100,100+50x50`. -/
theorem translation_not_single_pair :
    ∃ ms used,
      finalMatches ⟨0, 0⟩ 10 5 false Example.squareOld Example.squareNew = some (ms, used) ∧
      (ms.filter fun m => decide (m.1.rect ≠ m.2.rect)).length = 2 ∧
      (∀ m ∈ ms, m.2.rect ≠ ⟨0, 0, 50, 50⟩ ∧ m.1.rect ≠ ⟨100, 100, 50, 50⟩) ∧
      ∀ rectsOf : QRect → QRegion → List QRect,
        (emit false false rectsOf Example.squareOld.rect ms used).head?
          ≠ some "0,0+50x50 100,100+50x50" := by
  refine ⟨_, _, squareScene.finalMatches_eq 5 (by decide), ?_, ?_, ?_⟩
  · rw [quadrantMatches_moved]; rfl
  · intro m hm
    simp only [Example.quadrantMatches, List.mem_cons, List.mem_singleton, List.not_mem_nil,
      or_false] at hm
    rcases hm with rfl | rfl | rfl | rfl <;> exact ⟨by simp [Chunk.rect], by simp [Chunk.rect]⟩
  · intro rectsOf
    have hrect : Example.squareOld.rect = ⟨0, 0, 200, 200⟩ := rfl
    rw [hrect, emit_quadrantMatches]
    simp only [List.cons_append, List.head?_cons, ne_eq, Option.some.injEq]
    decide

/-! ## The local `threshold` of `main` -/

/-- An argument that starts with `--threshold=` takes the threshold branch of
the argument loop: it is rejected with exit code 1, or it sets the local
variable `threshold` of `main` and nothing else. What happens depends on the
argument only. -/
theorem parseArgWith_threshold (toFloat : QString → Option Decimal) (arg : QString)
    (hp : "--threshold=".toList.isPrefixOf arg = true) :
    (∃ d, ∀ (toInt : QString → Option Int) (load : QString → Option Image) (v : MainVars),
      parseArgWith toFloat toInt load v arg = .ok { v with localThreshold := d }) ∨
    (∀ (toInt : QString → Option Int) (load : QString → Option Image) (v : MainVars),
      parseArgWith toFloat toInt load v arg = .error 1) := by
  have h1 : ¬ (arg = "--help".toList ∨ arg = "-h".toList) := by
    rintro (rfl | rfl) <;> revert hp <;> decide
  have h2 : ¬ (arg = "-v".toList ∨ arg = "--verbose".toList) := by
    rintro (rfl | rfl) <;> revert hp <;> decide
  have h3 : ¬ arg = "--imagemagick".toList := by
    rintro rfl; revert hp; decide
  have h4 : ¬ arg = "--dump-images".toList := by
    rintro rfl; revert hp; decide
  have h5 : ¬ arg = "--no-join".toList := by
    rintro rfl; revert hp; decide
  unfold parseArgWith
  simp only [if_neg h1, if_neg h2, if_neg h3, if_neg h4, if_neg h5, if_pos hp]
  cases hf : toFloat (if (arg.drop 12).getLast? = some '%' then (arg.drop 12).dropLast
      else arg.drop 12) with
  | none => right; intro toInt load v; rfl
  | some d =>
    by_cases hn : d.neg = true ∧ d.digits ≠ 0
    · right; intro toInt load v; simp only [if_pos hn]
    · by_cases hpc : (arg.drop 12).getLast? = some '%'
      · left; exact ⟨⟨d.neg, d.digits * 256, d.scale + 2⟩, fun toInt load v => by
          simp only [if_neg hn, if_pos hpc]⟩
      · left; exact ⟨d, fun toInt load v => by simp only [if_neg hn, if_neg hpc]⟩

/-- One round of the argument loop does not read the local `threshold`:
run from the variables with the local reset, it fails with the same exit
code or gives the same variables up to the local. -/
theorem parseArgWith_withoutLocal (toFloat : QString → Option Decimal)
    (toInt : QString → Option Int) (load : QString → Option Image) (v : MainVars)
    (arg : QString) :
    (parseArgWith toFloat toInt load v arg).map MainVars.withoutLocal
      = (parseArgWith toFloat toInt load v.withoutLocal arg).map MainVars.withoutLocal := by
  unfold parseArgWith
  by_cases c1 : arg = "--help".toList ∨ arg = "-h".toList
  · simp only [if_pos c1]
  simp only [if_neg c1]
  by_cases c2 : arg = "-v".toList ∨ arg = "--verbose".toList
  · simp only [if_pos c2]; rfl
  simp only [if_neg c2]
  by_cases c3 : arg = "--imagemagick".toList
  · simp only [if_pos c3]; rfl
  simp only [if_neg c3]
  by_cases c4 : arg = "--dump-images".toList
  · simp only [if_pos c4]; rfl
  simp only [if_neg c4]
  by_cases c5 : arg = "--no-join".toList
  · simp only [if_pos c5]; rfl
  simp only [if_neg c5]
  by_cases c6 : "--threshold=".toList.isPrefixOf arg = true
  · simp only [if_pos c6]
    cases toFloat (if (arg.drop 12).getLast? = some '%' then (arg.drop 12).dropLast
        else arg.drop 12) with
    | none => rfl
    | some d =>
      by_cases hn : d.neg = true ∧ d.digits ≠ 0
      · simp only [if_pos hn]
      · simp only [if_neg hn]
        by_cases hpc : (arg.drop 12).getLast? = some '%'
        · simp only [if_pos hpc]; rfl
        · simp only [if_neg hpc]; rfl
  simp only [if_neg c6]
  by_cases c7 : "--min-size=".toList.isPrefixOf arg = true
  · simp only [if_pos c7]
    cases toInt (arg.drop 11) with
    | none => rfl
    | some n =>
      by_cases hn : n ≤ 0
      · simp only [if_pos hn]
      · simp only [if_neg hn]; rfl
  simp only [if_neg c7]
  by_cases c8 : arg = "--same".toList
  · simp only [if_pos c8]; rfl
  simp only [if_neg c8]
  by_cases c9 : "--range=".toList.isPrefixOf arg = true
  · simp only [if_pos c9]
    cases toInt (arg.drop 11) with
    | none => rfl
    | some n =>
      by_cases hn : n ≤ 0
      · simp only [if_pos hn]
      · simp only [if_neg hn]; rfl
  simp only [if_neg c9]
  have e1 : v.withoutLocal.oldImage = v.oldImage := rfl
  have e2 : v.withoutLocal.newImage = v.newImage := rfl
  rw [e1, e2]
  by_cases c10 : v.oldImage.isNone = true
  · simp only [if_pos c10]
    cases load arg with
    | none => rfl
    | some img => rfl
  simp only [if_neg c10]
  by_cases c11 : v.newImage.isNone = true
  · simp only [if_pos c11]
    cases load arg with
    | none => rfl
    | some img => rfl
  simp only [if_neg c11]
/-- One round of the argument loop never writes the global `threshold`, and
it keeps `minSize` positive. -/
theorem parseArgWith_globals (toFloat : QString → Option Decimal)
    (toInt : QString → Option Int) (load : QString → Option Image) (v v1 : MainVars)
    (arg : QString) (h : parseArgWith toFloat toInt load v arg = .ok v1) :
    v1.threshold = v.threshold ∧ (1 ≤ v.minSize → 1 ≤ v1.minSize) := by
  unfold parseArgWith at h
  by_cases c1 : arg = "--help".toList ∨ arg = "-h".toList
  · simp only [if_pos c1] at h; cases h
  simp only [if_neg c1] at h
  by_cases c2 : arg = "-v".toList ∨ arg = "--verbose".toList
  · simp only [if_pos c2] at h; cases h; exact ⟨rfl, id⟩
  simp only [if_neg c2] at h
  by_cases c3 : arg = "--imagemagick".toList
  · simp only [if_pos c3] at h; cases h; exact ⟨rfl, id⟩
  simp only [if_neg c3] at h
  by_cases c4 : arg = "--dump-images".toList
  · simp only [if_pos c4] at h; cases h; exact ⟨rfl, id⟩
  simp only [if_neg c4] at h
  by_cases c5 : arg = "--no-join".toList
  · simp only [if_pos c5] at h; cases h; exact ⟨rfl, id⟩
  simp only [if_neg c5] at h
  by_cases c6 : "--threshold=".toList.isPrefixOf arg = true
  · simp only [if_pos c6] at h
    cases hf : toFloat (if (arg.drop 12).getLast? = some '%' then (arg.drop 12).dropLast
        else arg.drop 12) with
    | none => rw [hf] at h; cases h
    | some d =>
      rw [hf] at h
      by_cases hn : d.neg = true ∧ d.digits ≠ 0
      · simp only [if_pos hn] at h; cases h
      · simp only [if_neg hn] at h
        by_cases hpc : (arg.drop 12).getLast? = some '%'
        · simp only [if_pos hpc] at h; cases h; exact ⟨rfl, id⟩
        · simp only [if_neg hpc] at h; cases h; exact ⟨rfl, id⟩
  simp only [if_neg c6] at h
  by_cases c7 : "--min-size=".toList.isPrefixOf arg = true
  · simp only [if_pos c7] at h
    cases hf : toInt (arg.drop 11) with
    | none => rw [hf] at h; cases h
    | some n =>
      rw [hf] at h
      by_cases hn : n ≤ 0
      · simp only [if_pos hn] at h; cases h
      · simp only [if_neg hn] at h; cases h
        refine ⟨rfl, fun _ => ?_⟩
        show 1 ≤ n.toNat
        omega
  simp only [if_neg c7] at h
  by_cases c8 : arg = "--same".toList
  · simp only [if_pos c8] at h; cases h; exact ⟨rfl, id⟩
  simp only [if_neg c8] at h
  by_cases c9 : "--range=".toList.isPrefixOf arg = true
  · simp only [if_pos c9] at h
    cases hf : toInt (arg.drop 11) with
    | none => rw [hf] at h; cases h
    | some n =>
      rw [hf] at h
      by_cases hn : n ≤ 0
      · simp only [if_pos hn] at h; cases h
      · simp only [if_neg hn] at h; cases h; exact ⟨rfl, id⟩
  simp only [if_neg c9] at h
  by_cases c10 : v.oldImage.isNone = true
  · simp only [if_pos c10] at h
    cases hl : load arg with
    | none => rw [hl] at h; cases h
    | some img => rw [hl] at h; cases h; exact ⟨rfl, id⟩
  simp only [if_neg c10] at h
  by_cases c11 : v.newImage.isNone = true
  · simp only [if_pos c11] at h
    cases hl : load arg with
    | none => rw [hl] at h; cases h
    | some img => rw [hl] at h; cases h; exact ⟨rfl, id⟩
  simp only [if_neg c11] at h
  cases h

theorem parseArgsWith_globals (toFloat : QString → Option Decimal)
    (toInt : QString → Option Int) (load : QString → Option Image) :
    ∀ (args : List QString) (v v1 : MainVars),
      parseArgsWith toFloat toInt load args v = .ok v1 →
      v1.threshold = v.threshold ∧ (1 ≤ v.minSize → 1 ≤ v1.minSize) := by
  intro args
  induction args with
  | nil =>
    intro v v1 h
    simp only [parseArgsWith, Except.ok.injEq] at h
    subst h
    exact ⟨rfl, id⟩
  | cons a rest ih =>
    intro v v1 h
    simp only [parseArgsWith] at h
    cases ha : parseArgWith toFloat toInt load v a with
    | error code => rw [ha] at h; cases h
    | ok w =>
      rw [ha] at h
      obtain ⟨e1, e2⟩ := parseArgWith_globals toFloat toInt load v w a ha
      obtain ⟨e3, e4⟩ := ih w v1 h
      exact ⟨e3.trans e1, fun hm => e4 (e2 hm)⟩

theorem parseArgsWith_withoutLocal (toFloat : QString → Option Decimal)
    (toInt : QString → Option Int) (load : QString → Option Image) :
    ∀ (args : List QString) (v : MainVars),
      (parseArgsWith toFloat toInt load args v).map MainVars.withoutLocal
        = (parseArgsWith toFloat toInt load args v.withoutLocal).map
            MainVars.withoutLocal := by
  intro args
  induction args with
  | nil => intro v; rfl
  | cons a rest ih =>
    intro v
    have h := parseArgWith_withoutLocal toFloat toInt load v a
    simp only [parseArgsWith]
    cases h1 : parseArgWith toFloat toInt load v a with
    | error c1 =>
      cases h2 : parseArgWith toFloat toInt load v.withoutLocal a with
      | error c2 =>
        rw [h1, h2] at h
        simp only [Except.map, Except.error.injEq] at h
        subst h; rfl
      | ok w2 => rw [h1, h2] at h; simp [Except.map] at h
    | ok w1 =>
      cases h2 : parseArgWith toFloat toInt load v.withoutLocal a with
      | error c2 => rw [h1, h2] at h; simp [Except.map] at h
      | ok w2 =>
        rw [h1, h2] at h
        simp only [Except.map, Except.ok.injEq] at h
        show (parseArgsWith toFloat toInt load rest w1).map MainVars.withoutLocal
          = (parseArgsWith toFloat toInt load rest w2).map MainVars.withoutLocal
        rw [ih w1, ih w2, h]

/-- A `--threshold=` argument with a valid value sets the local `threshold`
of `main` and nothing else, whatever `toInt` and `load` are. -/
theorem parseArgWith_of_isThresholdArg (toFloat : QString → Option Decimal) (arg : QString)
    (h : isThresholdArg toFloat arg = true) :
    ∃ d, ∀ (toInt : QString → Option Int) (load : QString → Option Image) (v : MainVars),
      parseArgWith toFloat toInt load v arg = .ok { v with localThreshold := d } := by
  simp only [isThresholdArg, Bool.and_eq_true] at h
  rcases parseArgWith_threshold toFloat arg h.1 with hd | he
  · exact hd
  · rw [he] at h; simp at h

/-- Two command lines that differ only in valid `--threshold=` values
leave the argument loop in the same way: with the same exit code, or with
the same variables up to the local `threshold`. -/
theorem parseArgsWith_sameUpToThreshold (toFloat : QString → Option Decimal)
    (toInt : QString → Option Int) (load : QString → Option Image)
    (args1 args2 : List QString) (h : SameUpToThreshold toFloat args1 args2) :
    ∀ v : MainVars, (parseArgsWith toFloat toInt load args1 v).map MainVars.withoutLocal
      = (parseArgsWith toFloat toInt load args2 v).map MainVars.withoutLocal := by
  unfold SameUpToThreshold at h
  induction h with
  | nil => intro v; rfl
  | @cons a b l1 l2 hab _ ih =>
    intro v
    rcases hab with rfl | ⟨ha, hb⟩
    · simp only [parseArgsWith]
      cases parseArgWith toFloat toInt load v a with
      | error c => rfl
      | ok w => exact ih w
    · obtain ⟨da, hda⟩ := parseArgWith_of_isThresholdArg toFloat a ha
      obtain ⟨db, hdb⟩ := parseArgWith_of_isThresholdArg toFloat b hb
      simp only [parseArgsWith, hda, hdb]
      rw [parseArgsWith_withoutLocal toFloat toInt load l1,
        parseArgsWith_withoutLocal toFloat toInt load l2]
      exact ih v.withoutLocal

/-- Leaving out the `--threshold=` arguments with a valid value does not
change how the argument loop ends, up to the local `threshold`. -/
theorem parseArgsWith_filter_threshold (toFloat : QString → Option Decimal)
    (toInt : QString → Option Int) (load : QString → Option Image) :
    ∀ (args : List QString) (v : MainVars),
      (parseArgsWith toFloat toInt load args v).map MainVars.withoutLocal
        = (parseArgsWith toFloat toInt load
            (args.filter fun a => !isThresholdArg toFloat a) v).map MainVars.withoutLocal := by
  intro args
  induction args with
  | nil => intro v; rfl
  | cons a rest ih =>
    intro v
    by_cases ha : isThresholdArg toFloat a = true
    · obtain ⟨da, hda⟩ := parseArgWith_of_isThresholdArg toFloat a ha
      have hf : (List.filter (fun a => !isThresholdArg toFloat a) (a :: rest))
          = List.filter (fun a => !isThresholdArg toFloat a) rest := by
        rw [List.filter_cons_of_neg (by simp [ha])]
      rw [hf]
      simp only [parseArgsWith, hda]
      rw [parseArgsWith_withoutLocal toFloat toInt load rest]
      show (parseArgsWith toFloat toInt load rest v.withoutLocal).map MainVars.withoutLocal = _
      rw [← parseArgsWith_withoutLocal toFloat toInt load rest v]
      exact ih v
    · have hf : (List.filter (fun a => !isThresholdArg toFloat a) (a :: rest))
          = a :: List.filter (fun a => !isThresholdArg toFloat a) rest := by
        rw [List.filter_cons_of_pos (by simp [ha])]
      rw [hf]
      simp only [parseArgsWith]
      cases parseArgWith toFloat toInt load v a with
      | error c => rfl
      | ok w => exact ih w

/-- The run of `main` with the assertions compiled out ends for every
command line. -/
theorem mainRunWith_total (toFloat : QString → Option Decimal) (toInt : QString → Option Int)
    (load : QString → Option Image) (rectsOf : QRect → QRegion → List QRect)
    (args : List QString) : ∃ r, mainRunWith toFloat toInt load rectsOf args = some r := by
  unfold mainRunWith
  cases hp : parseArgsWith toFloat toInt load args MainVars.init with
  | error code => exact ⟨_, rfl⟩
  | ok v =>
    have hm : 1 ≤ v.minSize :=
      (parseArgsWith_globals toFloat toInt load args MainVars.init v hp).2 (by decide)
    dsimp only
    cases ho : v.oldImage with
    | none => exact ⟨_, rfl⟩
    | some o =>
      cases hn : v.newImage with
      | none => exact ⟨_, rfl⟩
      | some n =>
        simp only
        split_ifs
        · exact ⟨_, rfl⟩
        · obtain ⟨r, hr⟩ := finalMatches_total hm v.threshold v.range v.nojoin o n
          rw [hr]
          exact ⟨_, rfl⟩

/-- The run of `main` in a build with assertions ends for every command
line, with an exit code or in a failed assertion. -/
theorem mainRunCheckedWith_total (toFloat : QString → Option Decimal)
    (toInt : QString → Option Int) (load : QString → Option Image)
    (rectsOf : QRect → QRegion → List QRect) (args : List QString) :
    ∃ r, mainRunCheckedWith toFloat toInt load rectsOf args = some r := by
  unfold mainRunCheckedWith
  cases hp : parseArgsWith toFloat toInt load args MainVars.init with
  | error code => exact ⟨_, rfl⟩
  | ok v =>
    have hm : 1 ≤ v.minSize :=
      (parseArgsWith_globals toFloat toInt load args MainVars.init v hp).2 (by decide)
    dsimp only
    cases ho : v.oldImage with
    | none => exact ⟨_, rfl⟩
    | some o =>
      cases hn : v.newImage with
      | none => exact ⟨_, rfl⟩
      | some n =>
        simp only
        split_ifs
        · exact ⟨_, rfl⟩
        · obtain ⟨r, hr⟩ := finalMatchesChecked_total hm v.threshold v.range v.nojoin o n
          rw [hr]
          exact ⟨_, rfl⟩

/-- Command lines that leave the argument loop in the same way up to the
local `threshold` give the same match list and the same output. -/
theorem main_eq_of_withoutLocal (toFloat : QString → Option Decimal)
    (toInt : QString → Option Int) (load : QString → Option Image)
    (args1 args2 : List QString)
    (h : (parseArgsWith toFloat toInt load args1 MainVars.init).map MainVars.withoutLocal
      = (parseArgsWith toFloat toInt load args2 MainVars.init).map MainVars.withoutLocal) :
    mainMatchesWith toFloat toInt load args1 = mainMatchesWith toFloat toInt load args2 ∧
    (∀ rectsOf, mainRunWith toFloat toInt load rectsOf args1
      = mainRunWith toFloat toInt load rectsOf args2) ∧
    ∀ rectsOf, mainRunCheckedWith toFloat toInt load rectsOf args1
      = mainRunCheckedWith toFloat toInt load rectsOf args2 := by
  unfold mainMatchesWith mainRunWith mainRunCheckedWith
  cases h1 : parseArgsWith toFloat toInt load args1 MainVars.init with
  | error c1 =>
    cases h2 : parseArgsWith toFloat toInt load args2 MainVars.init with
    | error c2 =>
      rw [h1, h2] at h
      simp only [Except.map, Except.error.injEq] at h
      subst h
      exact ⟨rfl, fun _ => rfl, fun _ => rfl⟩
    | ok w => rw [h1, h2] at h; simp [Except.map] at h
  | ok v =>
    cases h2 : parseArgsWith toFloat toInt load args2 MainVars.init with
    | error c2 => rw [h1, h2] at h; simp [Except.map] at h
    | ok w =>
      rw [h1, h2] at h
      simp only [Except.map, Except.ok.injEq] at h
      have e1 : v.oldImage = w.oldImage := by
        have := congrArg MainVars.oldImage h; exact this
      have e2 : v.newImage = w.newImage := by
        have := congrArg MainVars.newImage h; exact this
      have e3 : v.threshold = w.threshold := by
        have := congrArg MainVars.threshold h; exact this
      have e4 : v.minSize = w.minSize := by
        have := congrArg MainVars.minSize h; exact this
      have e5 : v.range = w.range := by
        have := congrArg MainVars.range h; exact this
      have e6 : v.nojoin = w.nojoin := by
        have := congrArg MainVars.nojoin h; exact this
      have e7 : v.imageMagickFormat = w.imageMagickFormat := by
        have := congrArg MainVars.imageMagickFormat h; exact this
      have e8 : v.same = w.same := by
        have := congrArg MainVars.same h; exact this
      dsimp only
      rw [e1, e2, e3, e4, e5, e6, e7, e8]
      exact ⟨rfl, fun _ => rfl, fun _ => rfl⟩
/-- C21. The comparator works with the global `threshold`, which the
argument loop never writes, so its tolerance during a run is always zero.
For every behaviour of `QString::toFloat` and `QString::toInt`, every file
system (every pair of images), every function giving the complement
rectangles and every two command lines that differ only in the valid values
given to `--threshold=`: the two runs of `main` give the same result (exit
code, or final match list and used region) and the same stdout lines, with
the assertions compiled out and in a build with assertions; the run ends;
it gives the same as the run without the `--threshold=` arguments, whose
tolerance is the default 0; and when the argument loop succeeds, the global
`threshold` is 0 and the match list and stdout lines are those of the level
driver and `joinChunks` under comparator tolerance 0. -/
theorem threshold_value_irrelevant (toFloat : QString → Option Decimal)
    (toInt : QString → Option Int) (load : QString → Option Image)
    (rectsOf : QRect → QRegion → List QRect) (args1 args2 : List QString)
    (h : SameUpToThreshold toFloat args1 args2) :
    mainMatchesWith toFloat toInt load args1 = mainMatchesWith toFloat toInt load args2 ∧
    mainRunWith toFloat toInt load rectsOf args1
      = mainRunWith toFloat toInt load rectsOf args2 ∧
    mainRunCheckedWith toFloat toInt load rectsOf args1
      = mainRunCheckedWith toFloat toInt load rectsOf args2 ∧
    (∃ r, mainRunWith toFloat toInt load rectsOf args1 = some r) ∧
    (∃ r, mainRunCheckedWith toFloat toInt load rectsOf args1 = some r) ∧
    mainRunWith toFloat toInt load rectsOf args1
      = mainRunWith toFloat toInt load rectsOf
          (args1.filter fun a => !isThresholdArg toFloat a) ∧
    mainRunCheckedWith toFloat toInt load rectsOf args1
      = mainRunCheckedWith toFloat toInt load rectsOf
          (args1.filter fun a => !isThresholdArg toFloat a) ∧
    ∀ v, parseArgsWith toFloat toInt load args1 MainVars.init = .ok v →
      v.threshold = ⟨0, 0⟩ ∧
      ∀ o n, v.oldImage = some o → v.newImage = some n →
        o.width = n.width → o.height = n.height →
        mainMatchesWith toFloat toInt load args1
          = .ok (finalMatches ⟨0, 0⟩ v.minSize v.range v.nojoin o n) ∧
        mainRunWith toFloat toInt load rectsOf args1
          = (finalMatches ⟨0, 0⟩ v.minSize v.range v.nojoin o n).map (fun r =>
              (0, emit v.imageMagickFormat v.same rectsOf o.rect r.1 r.2)) ∧
        mainRunCheckedWith toFloat toInt load rectsOf args1
          = (finalMatchesChecked ⟨0, 0⟩ v.minSize v.range v.nojoin o n).map
              (Checked.map fun r =>
                (0, emit v.imageMagickFormat v.same rectsOf o.rect r.1 r.2)) := by
  have h12 := main_eq_of_withoutLocal toFloat toInt load args1 args2
    (parseArgsWith_sameUpToThreshold toFloat toInt load args1 args2 h MainVars.init)
  have h10 := main_eq_of_withoutLocal toFloat toInt load args1 _
    (parseArgsWith_filter_threshold toFloat toInt load args1 MainVars.init)
  refine ⟨h12.1, h12.2.1 rectsOf, h12.2.2 rectsOf,
    mainRunWith_total toFloat toInt load rectsOf args1,
    mainRunCheckedWith_total toFloat toInt load rectsOf args1,
    h10.2.1 rectsOf, h10.2.2 rectsOf, ?_⟩
  intro v hv
  have ht : v.threshold = ⟨0, 0⟩ :=
    (parseArgsWith_globals toFloat toInt load args1 MainVars.init v hv).1
  refine ⟨ht, ?_⟩
  intro o n ho hn hw hh
  have hc : ¬ (o.width ≠ n.width ∨ o.height ≠ n.height) := by
    rintro (h1 | h1)
    · exact h1 hw
    · exact h1 hh
  unfold mainMatchesWith mainRunWith mainRunCheckedWith
  rw [hv]
  dsimp only
  rw [ho, hn, ht]
  dsimp only
  refine ⟨?_, ?_, ?_⟩ <;> rw [if_neg hc]

/-- The threshold theorem applied to the command lines
`--threshold=2 old.png new.png` and `--threshold=50% old.png new.png` over
the two 20×20 example files, with the readers for plain numerals and a
complement that has no rectangle. -/
theorem threshold_value_irrelevant_witness :
    SameUpToThreshold toFloat ["--threshold=2".toList, "old.png".toList, "new.png".toList]
      ["--threshold=50%".toList, "old.png".toList, "new.png".toList] ∧
    (mainMatchesWith toFloat toInt Example.files
        ["--threshold=2".toList, "old.png".toList, "new.png".toList]
      = mainMatchesWith toFloat toInt Example.files
          ["--threshold=50%".toList, "old.png".toList, "new.png".toList] ∧
    mainRunWith toFloat toInt Example.files (fun _ _ => [])
        ["--threshold=2".toList, "old.png".toList, "new.png".toList]
      = mainRunWith toFloat toInt Example.files (fun _ _ => [])
          ["--threshold=50%".toList, "old.png".toList, "new.png".toList] ∧
    mainRunCheckedWith toFloat toInt Example.files (fun _ _ => [])
        ["--threshold=2".toList, "old.png".toList, "new.png".toList]
      = mainRunCheckedWith toFloat toInt Example.files (fun _ _ => [])
          ["--threshold=50%".toList, "old.png".toList, "new.png".toList] ∧
    (∃ r, mainRunWith toFloat toInt Example.files (fun _ _ => [])
        ["--threshold=2".toList, "old.png".toList, "new.png".toList] = some r) ∧
    (∃ r, mainRunCheckedWith toFloat toInt Example.files (fun _ _ => [])
        ["--threshold=2".toList, "old.png".toList, "new.png".toList] = some r) ∧
    mainRunWith toFloat toInt Example.files (fun _ _ => [])
        ["--threshold=2".toList, "old.png".toList, "new.png".toList]
      = mainRunWith toFloat toInt Example.files (fun _ _ => [])
          (["--threshold=2".toList, "old.png".toList, "new.png".toList].filter
            fun a => !isThresholdArg toFloat a) ∧
    mainRunCheckedWith toFloat toInt Example.files (fun _ _ => [])
        ["--threshold=2".toList, "old.png".toList, "new.png".toList]
      = mainRunCheckedWith toFloat toInt Example.files (fun _ _ => [])
          (["--threshold=2".toList, "old.png".toList, "new.png".toList].filter
            fun a => !isThresholdArg toFloat a) ∧
    ∀ v, parseArgsWith toFloat toInt Example.files
        ["--threshold=2".toList, "old.png".toList, "new.png".toList] MainVars.init = .ok v →
      v.threshold = ⟨0, 0⟩ ∧
      ∀ o n, v.oldImage = some o → v.newImage = some n →
        o.width = n.width → o.height = n.height →
        mainMatchesWith toFloat toInt Example.files
            ["--threshold=2".toList, "old.png".toList, "new.png".toList]
          = .ok (finalMatches ⟨0, 0⟩ v.minSize v.range v.nojoin o n) ∧
        mainRunWith toFloat toInt Example.files (fun _ _ => [])
            ["--threshold=2".toList, "old.png".toList, "new.png".toList]
          = (finalMatches ⟨0, 0⟩ v.minSize v.range v.nojoin o n).map (fun r =>
              (0, emit v.imageMagickFormat v.same (fun _ _ => []) o.rect r.1 r.2)) ∧
        mainRunCheckedWith toFloat toInt Example.files (fun _ _ => [])
            ["--threshold=2".toList, "old.png".toList, "new.png".toList]
          = (finalMatchesChecked ⟨0, 0⟩ v.minSize v.range v.nojoin o n).map
              (Checked.map fun r =>
                (0, emit v.imageMagickFormat v.same (fun _ _ => []) o.rect r.1 r.2))) :=
  have hs : SameUpToThreshold toFloat
      ["--threshold=2".toList, "old.png".toList, "new.png".toList]
      ["--threshold=50%".toList, "old.png".toList, "new.png".toList] :=
    List.Forall₂.cons (Or.inr ⟨by decide, by decide⟩)
      (List.Forall₂.cons (Or.inl rfl) (List.Forall₂.cons (Or.inl rfl) List.Forall₂.nil))
  ⟨hs, threshold_value_irrelevant toFloat toInt Example.files (fun _ _ => []) _ _ hs⟩

end ImgSub
